import Mathlib

/-!
Verification development for the pgsqlite protocol-and-type bridging engine.
The engine itself is not part of this source snapshot (only its client-side
exercise scripts are), so each component below is modelled from the
specification's description of that component and checked against the
behaviour the exercise scripts demand.
-/

/-! ### Catalog emulator: pg_type and to_regtype (spec §4.4) -/

/-- Modelled from the spec: a row of the emulated `pg_type` catalog
(Catalog Emulator, §4.4; TypeOidRegistry, §3). -/
structure PgTypeRow where
  typname : String
  oid : Nat
  typarray : Nat
  typdelim : String
deriving DecidableEq, Repr

/-- Modelled from the spec: the static read-only TypeOidRegistry (§3),
the `pg_type` rows the Catalog Emulator exposes. -/
def pgTypeTable : List PgTypeRow :=
  [ ⟨"bool", 16, 1000, ","⟩,
    ⟨"bytea", 17, 1001, ","⟩,
    ⟨"int8", 20, 1016, ","⟩,
    ⟨"int2", 21, 1005, ","⟩,
    ⟨"int4", 23, 1007, ","⟩,
    ⟨"text", 25, 1009, ","⟩,
    ⟨"json", 114, 199, ","⟩,
    ⟨"float4", 700, 1021, ","⟩,
    ⟨"float8", 701, 1022, ","⟩,
    ⟨"varchar", 1043, 1015, ","⟩,
    ⟨"date", 1082, 1182, ","⟩,
    ⟨"time", 1083, 1183, ","⟩,
    ⟨"timestamp", 1114, 1115, ","⟩,
    ⟨"timestamptz", 1184, 1185, ","⟩,
    ⟨"numeric", 1700, 1231, ","⟩,
    ⟨"uuid", 2950, 2951, ","⟩,
    ⟨"jsonb", 3802, 3807, ","⟩ ]

/-- Modelled from the spec: the alias table mapping PostgreSQL type-name
spellings to OIDs, used by `to_regtype` (§4.4). -/
def typeNameAliases : List (String × Nat) :=
  [ ("bool", 16), ("boolean", 16),
    ("bytea", 17),
    ("int8", 20), ("bigint", 20),
    ("int2", 21), ("smallint", 21),
    ("int4", 23), ("int", 23), ("integer", 23),
    ("text", 25),
    ("json", 114),
    ("float4", 700), ("real", 700),
    ("float8", 701), ("double precision", 701),
    ("varchar", 1043), ("character varying", 1043),
    ("date", 1082),
    ("time", 1083),
    ("timestamp", 1114), ("timestamp without time zone", 1114),
    ("timestamptz", 1184), ("timestamp with time zone", 1184),
    ("numeric", 1700), ("decimal", 1700),
    ("uuid", 2950),
    ("jsonb", 3802) ]

/-- Association lookup by string key. -/
def assocFind {α : Type} (s : String) : List (String × α) → Option α
  | [] => none
  | (k, v) :: rest => if s = k then some v else assocFind s rest

/-- Modelled from the spec: `to_regtype(text)` — resolves a type name to
its OID, returning SQL NULL (here `none`) instead of raising for unknown
names (§4.4). -/
def to_regtype (s : String) : Option Nat :=
  assocFind s typeNameAliases

/-- A SQL value as the Catalog Emulator computes it. -/
inductive SqlVal where
  | vnull : SqlVal
  | vint : Nat → SqlVal
  | vstr : String → SqlVal
  | vbool : Bool → SqlVal
deriving DecidableEq, Repr

/-- Expressions appearing in catalog introspection queries. `regtypeCastE`
is the raising cast (`'name'::regtype`) while `toRegtypeE` is the
non-raising `to_regtype` function the spec requires (§4.4). -/
inductive CatExpr where
  | litStr : String → CatExpr
  | colOid : CatExpr
  | toRegtypeE : CatExpr → CatExpr
  | regtypeCastE : CatExpr → CatExpr
  | eqE : CatExpr → CatExpr → CatExpr

/-- SQL equality: a comparison involving NULL is not true. -/
def sqlEq : SqlVal → SqlVal → SqlVal
  | SqlVal.vnull, _ => SqlVal.vbool false
  | _, SqlVal.vnull => SqlVal.vbool false
  | a, b => SqlVal.vbool (a == b)

/-- Modelled from the spec: evaluation of a catalog expression over one
`pg_type` row; `to_regtype` yields NULL for unknown names while the
`::regtype` cast raises (§4.4). -/
def evalCatExpr (r : PgTypeRow) : CatExpr → Except String SqlVal
  | CatExpr.litStr s => Except.ok (SqlVal.vstr s)
  | CatExpr.colOid => Except.ok (SqlVal.vint r.oid)
  | CatExpr.toRegtypeE e =>
      match evalCatExpr r e with
      | Except.ok (SqlVal.vstr s) =>
          match to_regtype s with
          | some o => Except.ok (SqlVal.vint o)
          | none => Except.ok SqlVal.vnull
      | Except.ok _ => Except.error "to_regtype: bad argument"
      | Except.error e => Except.error e
  | CatExpr.regtypeCastE e =>
      match evalCatExpr r e with
      | Except.ok (SqlVal.vstr s) =>
          match to_regtype s with
          | some o => Except.ok (SqlVal.vint o)
          | none => Except.error "type does not exist"
      | Except.ok _ => Except.error "regtype cast: bad argument"
      | Except.error e => Except.error e
  | CatExpr.eqE a b =>
      match evalCatExpr r a, evalCatExpr r b with
      | Except.ok va, Except.ok vb => Except.ok (sqlEq va vb)
      | Except.error e, _ => Except.error e
      | _, Except.error e => Except.error e

/-- Filtering the catalog rows by a predicate expression, propagating
evaluation errors to the client. -/
def filterRowsE (pred : CatExpr) : List PgTypeRow → Except String (List PgTypeRow)
  | [] => Except.ok []
  | r :: rs =>
      match evalCatExpr r pred, filterRowsE pred rs with
      | Except.ok (SqlVal.vbool true), Except.ok rest => Except.ok (r :: rest)
      | Except.ok _, Except.ok rest => Except.ok rest
      | Except.error e, _ => Except.error e
      | _, Except.error e => Except.error e

/-- Modelled from the spec: the Catalog Emulator answering
`SELECT ... FROM pg_type t WHERE <pred>` (§4.4). -/
def runCatalogQuery (pred : CatExpr) : Except String (List PgTypeRow) :=
  filterRowsE pred pgTypeTable

/-- The `WHERE t.oid = to_regtype($1)` predicate the ORM issues. -/
def regtypePred (s : String) : CatExpr :=
  CatExpr.eqE CatExpr.colOid (CatExpr.toRegtypeE (CatExpr.litStr s))

/-! ### Query translator: `expr = ANY(array_literal)` (spec §4.3) -/

/-- Reads characters of a JSON string body up to the closing quote,
returning the body and the remaining input. -/
def takeStringBody : List Char → Option (List Char × List Char)
  | [] => none
  | c :: rest =>
      if c = '"' then some ([], rest)
      else
        match takeStringBody rest with
        | some (s, r) => some (c :: s, r)
        | none => none

/-- Parses the comma-separated string items of a JSON array, after the
opening bracket, up to and including the closing bracket. -/
def parseItemsAux : Nat → List Char → Option (List String)
  | _, [] => none
  | 0, _ => none
  | Nat.succ fuel, c :: rest =>
      if c = '"' then
        match takeStringBody rest with
        | some (body, after) =>
            match after with
            | ',' :: more =>
                match parseItemsAux fuel more with
                | some items => some (String.mk body :: items)
                | none => none
            | ']' :: [] => some [String.mk body]
            | _ => none
        | none => none
      else none

/-- Modelled from the spec: the translator parses a string-literal
JSON-encoded array form into its elements before translation (§4.3). -/
def parseJsonStringArray (s : String) : Option (List String) :=
  match s.data with
  | '[' :: ']' :: [] => some []
  | '[' :: rest => parseItemsAux rest.length rest
  | _ => none

/-- A translated WHERE predicate over the tested expression's value. -/
inductive WhereExpr where
  | eqLit : String → WhereExpr
  | orW : WhereExpr → WhereExpr → WhereExpr
  | falseW : WhereExpr
deriving Repr

/-- Evaluation of a translated predicate at the expression's value. -/
def evalWhere (v : String) : WhereExpr → Bool
  | WhereExpr.eqLit x => v == x
  | WhereExpr.orW a b => evalWhere v a || evalWhere v b
  | WhereExpr.falseW => false

/-- The disjunction of equality tests an `= ANY` translates to. -/
def disjOfList (l : List String) : WhereExpr :=
  l.foldr (fun x acc => WhereExpr.orW (WhereExpr.eqLit x) acc) WhereExpr.falseW

/-- Modelled from the spec: `expr = ANY(string_literal)` is translated by
parsing the literal into elements and building an equivalent disjunction
(§4.3). -/
def translateAnyLiteral (lit : String) : Option WhereExpr :=
  (parseJsonStringArray lit).map disjOfList

/-! ### Query translator: CREATE TABLE with SERIAL and PRIMARY KEY (spec §4.3) -/

/-- A column definition as parsed from a PostgreSQL CREATE TABLE. -/
structure ColDef where
  name : String
  ty : String
  isSerial : Bool
  notNull : Bool
  inlinePk : Bool
deriving DecidableEq, Repr

/-- A table-level constraint of a CREATE TABLE. -/
inductive TableConstraint where
  | primaryKey : List String → TableConstraint
deriving DecidableEq, Repr

/-- A parsed PostgreSQL CREATE TABLE statement. -/
structure CreateStmt where
  table : String
  cols : List ColDef
  constraints : List TableConstraint
deriving DecidableEq, Repr

/-- A column of the translated storage-engine CREATE TABLE. -/
structure SqliteCol where
  name : String
  ty : String
  pk : Bool
  autoinc : Bool
  notNull : Bool
deriving DecidableEq, Repr

/-- The translated storage-engine CREATE TABLE: columns plus the
table-level primary-key constraints that were kept. -/
structure SqliteCreate where
  table : String
  cols : List SqliteCol
  pkConstraints : List (List String)
deriving DecidableEq, Repr

/-- Number of primary-key declarations the storage engine would see;
the engine rejects a table with more than one (spec §4.3). -/
def pkDeclCount (out : SqliteCreate) : Nat :=
  (out.cols.filter (fun col => col.pk)).length + out.pkConstraints.length

/-- A table constraint is mergeable into a serial column when it is a
single-column PRIMARY KEY naming that serial column. -/
def constraintMergeable (serialNames : List String) : TableConstraint → Bool
  | TableConstraint.primaryKey cols =>
      match cols with
      | [x] => serialNames.contains x
      | _ => false

/-- Translation of one column; a serial column that carries the primary
key (inline or merged from a table constraint) becomes the engine's
auto-increment integer primary key. -/
def translateColumn (mergedNames : List String) (d : ColDef) : SqliteCol :=
  if d.isSerial then
    { name := d.name, ty := "INTEGER",
      pk := d.inlinePk || mergedNames.contains d.name,
      autoinc := d.inlinePk || mergedNames.contains d.name,
      notNull := true }
  else
    { name := d.name, ty := d.ty, pk := d.inlinePk, autoinc := false,
      notNull := d.notNull }

/-- The column lists of the table constraints kept after merging. -/
def keptConstraintCols (serialNames : List String)
    (cons : List TableConstraint) : List (List String) :=
  (cons.filter (fun con => ¬ constraintMergeable serialNames con)).map
    (fun con => match con with | TableConstraint.primaryKey cs => cs)

/-- The names of the SERIAL/BIGSERIAL columns of a CREATE TABLE. -/
def serialNamesOf (c : CreateStmt) : List String :=
  (c.cols.filter (fun d => d.isSerial)).map (fun d => d.name)

/-- The serial columns into which a table-level PRIMARY KEY constraint is
merged. -/
def mergedNamesOf (c : CreateStmt) : List String :=
  ((c.constraints.filter (constraintMergeable (serialNamesOf c))).map
    (fun con => match con with | TableConstraint.primaryKey cs => cs)).flatten

/-- The translated storage-engine CREATE TABLE before validation. -/
def buildSqliteCreate (c : CreateStmt) : SqliteCreate :=
  { table := c.table,
    cols := c.cols.map (translateColumn (mergedNamesOf c)),
    pkConstraints := keptConstraintCols (serialNamesOf c) c.constraints }

/-- Modelled from the spec: the translator detects a SERIAL/BIGSERIAL
column combined with an explicit PRIMARY KEY constraint on the same
column and merges the two instead of emitting a duplicate primary-key
declaration the storage engine would reject (§4.3). -/
def translateCreateTable (c : CreateStmt) : Except String SqliteCreate :=
  if pkDeclCount (buildSqliteCreate c) ≤ 1 then
    Except.ok (buildSqliteCreate c)
  else Except.error "table has more than one primary key"

/-! ### Storage-engine database model (spec §6) -/

/-- A stored row: engine rowid plus column cells (text-encoded values). -/
structure Row where
  rowid : Nat
  cells : List (String × String)
deriving DecidableEq, Repr

/-- A stored table; `autoCol` is the auto-increment primary-key column
the translator produced, if any. -/
structure Table where
  name : String
  autoCol : Option String
  nextRowid : Nat
  rows : List Row
deriving DecidableEq, Repr

/-- The storage engine's database: a list of tables. -/
abbrev Db := List Table

def dbFindTable : Db → String → Option Table
  | [], _ => none
  | tbl :: rest, t => if tbl.name = t then some tbl else dbFindTable rest t

def dbSetTable (db : Db) (tbl : Table) : Db :=
  db.map (fun x => if x.name == tbl.name then tbl else x)

/-- The auto-increment column of a translated CREATE TABLE, if any. -/
def autoColOf (out : SqliteCreate) : Option String :=
  (out.cols.find? (fun col => col.autoinc)).map (fun col => col.name)

/-- Executing the translated CREATE TABLE against the engine. -/
def applyCreate (db : Db) (out : SqliteCreate) : Db :=
  db ++ [⟨out.table, autoColOf out, 1, []⟩]

/-- The row cells the engine actually stores: the auto-increment column
is filled in when the statement omits it. -/
def fillAutoCol (tbl : Table) (cells : List (String × String)) :
    List (String × String) :=
  match tbl.autoCol with
  | some ac =>
      match assocFind ac cells with
      | none => (ac, toString tbl.nextRowid) :: cells
      | some _ => cells
  | none => cells

/-- Executing an INSERT: auto-fills the auto-increment column when the
statement omits it, and returns the engine's last-inserted rowid. -/
def applyInsert (db : Db) (t : String) (cells : List (String × String)) :
    Option (Db × Nat) :=
  match dbFindTable db t with
  | none => none
  | some tbl =>
      some (dbSetTable db
        { tbl with
          rows := tbl.rows ++ [⟨tbl.nextRowid, fillAutoCol tbl cells⟩],
          nextRowid := tbl.nextRowid + 1 },
        tbl.nextRowid)

/-- The value of one cell of the row with the given rowid. -/
def rowCellValue (db : Db) (t : String) (rid : Nat) (c : String) :
    Option String :=
  match dbFindTable db t with
  | none => none
  | some tbl =>
      match tbl.rows.find? (fun r => r.rowid == rid) with
      | none => none
      | some r => assocFind c r.cells

/-! ### Transaction coordinator and sessions (spec §4.5, §3, §5) -/

/-- The storage engine's journal mode; the coordinator's guarantees must
hold regardless of it (spec §4.5). -/
inductive JournalMode where
  | walJ : JournalMode
  | deleteJ : JournalMode
  | truncateJ : JournalMode
  | memoryJ : JournalMode
deriving DecidableEq, Repr

/-- A write statement a session can execute. -/
inductive Write where
  | createW : SqliteCreate → Write
  | insertW : String → List (String × String) → Write
  | updateW : String → String → String → String → String → Write
  | deleteAllW : String → Write
deriving DecidableEq, Repr

/-- Updating one cell of a row (the latest binding shadows earlier ones
for `assocFind`). -/
def setCell (cells : List (String × String)) (c v : String) :
    List (String × String) :=
  (c, v) :: cells

/-- Applying one write statement to a database state. -/
def applyWrite (db : Db) : Write → Db
  | Write.createW out =>
      if (dbFindTable db out.table).isSome then db else applyCreate db out
  | Write.insertW t cells =>
      match applyInsert db t cells with
      | some (db', _) => db'
      | none => db
  | Write.updateW t sc sv wc wv =>
      match dbFindTable db t with
      | none => db
      | some tbl =>
          dbSetTable db
            { tbl with rows := tbl.rows.map (fun r =>
                if assocFind wc r.cells == some wv then
                  { r with cells := setCell r.cells sc sv }
                else r) }
  | Write.deleteAllW t =>
      match dbFindTable db t with
      | none => db
      | some tbl => dbSetTable db { tbl with rows := [] }

/-- Applying a list of writes in order. -/
def applyWrites (db : Db) (ws : List Write) : Db :=
  ws.foldl applyWrite db

/-- A SELECT of some columns from one table with an optional
cell-equality predicate. -/
structure SelectQ where
  table : String
  cols : List String
  whereCell : Option (String × String)
deriving DecidableEq, Repr

/-- The rows a SELECT's optional predicate keeps. -/
def queryRows (tbl : Table) : Option (String × String) → List Row
  | some (wc, wv) => tbl.rows.filter (fun r => assocFind wc r.cells == some wv)
  | none => tbl.rows

/-- Running a SELECT against a database state. -/
def runQuery (db : Db) (q : SelectQ) : List (List (Option String)) :=
  match dbFindTable db q.table with
  | none => []
  | some tbl =>
      (queryRows tbl q.whereCell).map
        (fun r => q.cols.map (fun col => assocFind col r.cells))

/-- Modelled from the spec: the storage engine access point — a committed
database state plus at most one active writer transaction engine-wide
(§4.5, §5). `journal` is carried so that theorems can quantify over it. -/
structure Engine where
  committed : Db
  txOwner : Option Nat
  pending : Db
  journal : JournalMode
deriving DecidableEq, Repr

/-- Modelled from the spec: the whole system — the engine plus the open
sessions, each recorded with its session id and whether it shares an
underlying engine handle (§4.5: the invariant must hold for both). -/
structure Sys where
  eng : Engine
  sessions : List (Nat × Bool)
deriving DecidableEq, Repr

/-- Whether a session id is currently open. -/
def isOpen (s : Sys) (sid : Nat) : Bool :=
  s.sessions.any (fun p => p.1 == sid)

/-- The observable wire-level events of the corpus's exercise scripts. -/
inductive Ev where
  | connect : Nat → Bool → Ev
  | exec : Nat → Write → Ev
  | commitEv : Nat → Ev
  | rollbackEv : Nat → Ev
  | disconnect : Nat → Ev
deriving DecidableEq, Repr

/-- Modelled from the spec: the Transaction Coordinator's step function
(§4.5). A session's first write implicitly opens the engine transaction;
`commit` publishes the pending state to `committed`; `rollback` and
`disconnect` with a pending transaction discard it (rollback-on-
disconnect); a second concurrent writer serializes (here: its write has
no effect until the lock is free). Reads go through a forced refresh
against the committed state (§4.5, §9), never a per-handle cache. -/
def stepSys (s : Sys) : Ev → Sys
  | Ev.connect sid sh =>
      if isOpen s sid then s
      else { s with sessions := s.sessions ++ [(sid, sh)] }
  | Ev.exec sid w =>
      if isOpen s sid then
        match s.eng.txOwner with
        | none =>
            { s with
              eng := { s.eng with
                       txOwner := some sid
                       pending := applyWrite s.eng.committed w } }
        | some owner =>
            if owner = sid then
              { s with
                eng := { s.eng with
                         pending := applyWrite s.eng.pending w } }
            else s
      else s
  | Ev.commitEv sid =>
      if s.eng.txOwner == some sid then
        { s with
          eng := { s.eng with
                   committed := s.eng.pending
                   txOwner := none } }
      else s
  | Ev.rollbackEv sid =>
      if s.eng.txOwner == some sid then
        { s with
          eng := { s.eng with
                   txOwner := none
                   pending := s.eng.committed } }
      else s
  | Ev.disconnect sid =>
      { eng :=
          if s.eng.txOwner == some sid then
            { s.eng with txOwner := none, pending := s.eng.committed }
          else s.eng,
        sessions := s.sessions.filter (fun p => ¬ p.1 == sid) }

/-- Running a trace of events. -/
def runTrace (evs : List Ev) (s : Sys) : Sys :=
  evs.foldl stepSys s

/-- A session's SELECT: inside its own open transaction it reads the
pending state, otherwise the committed state (forced refresh, §4.5). -/
def sessionSelect (s : Sys) (sid : Nat) (q : SelectQ) :
    List (List (Option String)) :=
  if s.eng.txOwner == some sid then runQuery s.eng.pending q
  else runQuery s.eng.committed q

/-- Whether a COMMIT by this session would return success reporting a
committed transaction. -/
def commitOk (s : Sys) (sid : Nat) : Bool :=
  s.eng.txOwner == some sid

/-- The trace of session A's write burst: connect, execute each write,
commit. -/
def sessionWritesTrace (a : Nat) (sh : Bool) (ws : List Write) : List Ev :=
  Ev.connect a sh :: ws.map (Ev.exec a) ++ [Ev.commitEv a]

/-- The trace where session A disconnects without committing. -/
def sessionAbortTrace (a : Nat) (sh : Bool) (ws : List Write) : List Ev :=
  Ev.connect a sh :: ws.map (Ev.exec a) ++ [Ev.disconnect a]

/-! ### RETURNING emulation (spec §4.3) -/

/-- A parsed INSERT statement, with its optional RETURNING clause. -/
structure InsertStmt where
  table : String
  cells : List (String × String)
  returning : Option (List String)
deriving DecidableEq, Repr

/-- Modelled from the spec: the translator strips the RETURNING clause
from the statement before handing it to the engine (§4.3). -/
def stripReturning (ins : InsertStmt) : InsertStmt × Option (List String) :=
  ({ ins with returning := none }, ins.returning)

/-- The follow-up lookup: requested columns of the row whose rowid is the
engine's last-inserted rowid. -/
def selectByRowid (db : Db) (t : String) (cols : List String) (rid : Nat) :
    List (List (Option String)) :=
  match dbFindTable db t with
  | none => []
  | some tbl =>
      (tbl.rows.filter (fun r => r.rowid == rid)).map
        (fun r => cols.map (fun c => assocFind c r.cells))

/-- Modelled from the spec: RETURNING emulation for INSERT — strip the
clause, execute the base statement, then materialize the requested
columns by a lookup keyed on the last-inserted rowid (§4.3). -/
def emulatedInsertReturning (db : Db) (ins : InsertStmt) :
    Option (Db × List (List (Option String))) :=
  match applyInsert db (stripReturning ins).1.table
      (stripReturning ins).1.cells with
  | none => none
  | some (db', lastId) =>
      match (stripReturning ins).2 with
      | none => some (db', [])
      | some retCols => some (db', selectByRowid db' ins.table retCols lastId)

/-- Reference semantics following the spec's words: a native RETURNING
produces, for each inserted row, that row's requested columns directly,
in the requested order. -/
def nativeInsertReturning (db : Db) (ins : InsertStmt) :
    Option (Db × List (List (Option String))) :=
  match dbFindTable db ins.table with
  | none => none
  | some tbl =>
      some (dbSetTable db
        { tbl with
          rows := tbl.rows ++ [⟨tbl.nextRowid, fillAutoCol tbl ins.cells⟩],
          nextRowid := tbl.nextRowid + 1 },
        match ins.returning with
        | none => []
        | some retCols =>
            [retCols.map (fun c => assocFind c (fillAutoCol tbl ins.cells))])

/-- Modelled from the spec: RETURNING emulation for UPDATE — execute the
update, then look the requested columns up by the original predicate
(§4.3). -/
def emulatedUpdateReturning (db : Db) (t sc sv : String)
    (pred : String × String) (retCols : List String) :
    Db × List (List (Option String)) :=
  (applyWrite db (Write.updateW t sc sv pred.1 pred.2),
    runQuery (applyWrite db (Write.updateW t sc sv pred.1 pred.2))
      ⟨t, retCols, some pred⟩)

/-- The engine invariant every reachable database satisfies: stored
rowids are below the table's next rowid. -/
def wfDb (db : Db) : Bool :=
  db.all (fun tbl => tbl.rows.all (fun r => r.rowid < tbl.nextRowid))

/-! ### Type catalog and row description (spec §3, §4.2) -/

/-- A declared PostgreSQL column type with precision/scale. -/
structure PgTypeDecl where
  base : String
  prec : Option Nat
  scale : Option Nat
deriving DecidableEq, Repr

/-- Parses an unsigned decimal number from characters. -/
def charsToNatAux : List Char → Nat → Option Nat
  | [], acc => some acc
  | c :: rest, acc =>
      if 48 ≤ c.toNat ∧ c.toNat ≤ 57 then
        charsToNatAux rest (acc * 10 + (c.toNat - 48))
      else none

/-- Parses a nonempty decimal digit string. -/
def charsToNat : List Char → Option Nat
  | [] => none
  | c :: rest => charsToNatAux (c :: rest) 0

/-- Modelled from the spec: parsing a declared type string such as
`NUMERIC(10,2)` into base name, precision and scale, persisted into the
ColumnTypeMapping (§4.3: parsed and persisted even though the engine
stores unconstrained numbers). -/
def parseTypeDecl (ty : String) : PgTypeDecl :=
  let cs := ty.data
  let nm := cs.takeWhile (fun ch => ch ≠ '(')
  match cs.dropWhile (fun ch => ch ≠ '(') with
  | '(' :: inner =>
      let body := inner.takeWhile (fun ch => ch ≠ ')')
      let p1 := body.takeWhile (fun ch => ch ≠ ',')
      match body.dropWhile (fun ch => ch ≠ ',') with
      | ',' :: p2 =>
          { base := String.mk nm, prec := charsToNat p1,
            scale := charsToNat p2 }
      | _ => { base := String.mk nm, prec := charsToNat p1, scale := none }
  | _ => { base := String.mk nm, prec := none, scale := none }

/-- The PostgreSQL type OID of a declared column type. -/
def oidOfDecl (d : PgTypeDecl) : Nat :=
  match d.base with
  | "NUMERIC" => 1700
  | "DECIMAL" => 1700
  | "INTEGER" => 23
  | "INT" => 23
  | "SERIAL" => 23
  | "BIGINT" => 20
  | "BIGSERIAL" => 20
  | "SMALLINT" => 21
  | "TEXT" => 25
  | "VARCHAR" => 1043
  | "CHAR" => 18
  | "DATE" => 1082
  | "TIME" => 1083
  | "TIMESTAMP" => 1114
  | "REAL" => 700
  | "DOUBLE PRECISION" => 701
  | "BOOLEAN" => 16
  | "UUID" => 2950
  | "JSON" => 114
  | "JSONB" => 3802
  | _ => 25

/-- Modelled from the spec: the persisted ColumnTypeMapping —
(table, column) → declared type with precision/scale (§3). -/
abbrev Catalog := List ((String × String) × PgTypeDecl)

/-- Lookup of a column's persisted mapping. -/
def mappingFind (t c : String) : Catalog → Option PgTypeDecl
  | [] => none
  | ((t', c'), d) :: rest =>
      if t = t' ∧ c = c' then some d else mappingFind t c rest

/-- Modelled from the spec: a translated CREATE TABLE persists exactly
one mapping per column (§3). -/
def registerMappings (cat : Catalog) (c : CreateStmt) : Catalog :=
  cat ++ c.cols.map (fun d => ((c.table, d.name), parseTypeDecl d.ty))

/-- A result expression of a SELECT: a possibly qualified column
reference, an explicit cast, or an aggregate. -/
inductive SelExpr where
  | colRef : Option String → String → SelExpr
  | castE : SelExpr → String → SelExpr
  | countStar : SelExpr
  | avgOf : SelExpr → SelExpr
deriving DecidableEq, Repr

/-- A SELECT over one table, possibly aliased, whose predicate compares a
column against the bound parameter ($1). -/
structure SelectStmt where
  fromTable : String
  fromAlias : Option String
  items : List (SelExpr × String)
  whereColParam : Option String
deriving DecidableEq, Repr

/-- Resolving a written qualifier to the real table of origin through the
parsed AST — the alias and the table name both resolve; anything else is
unresolvable (§9). -/
def resolveTableOf (stmt : SelectStmt) (qual : Option String) :
    Option String :=
  match qual with
  | none => some stmt.fromTable
  | some q =>
      if q = stmt.fromTable ∨ some q = stmt.fromAlias then
        some stmt.fromTable
      else none

/-- The generic textual fallback OID — a last resort (§4.2). -/
def fallbackOid : Nat := 25

/-- Modelled from the spec: type resolution for one result expression, in
the spec's order — explicit cast, then ColumnTypeMapping for a resolvable
table-qualified column, then function return-type rules, and only then
the generic fallback (§4.2). -/
def resolveOid (cat : Catalog) (stmt : SelectStmt) : SelExpr → Nat
  | SelExpr.castE _ ty => oidOfDecl (parseTypeDecl ty)
  | SelExpr.colRef qual c =>
      match resolveTableOf stmt qual with
      | some t =>
          match mappingFind t c cat with
          | some d => oidOfDecl d
          | none => fallbackOid
      | none => fallbackOid
  | SelExpr.countStar => 20
  | SelExpr.avgOf _ => 1700

/-- The row description of a SELECT: output name and resolved OID per
item. -/
def describeSelect (cat : Catalog) (stmt : SelectStmt) :
    List (String × Nat) :=
  stmt.items.map (fun it => (it.2, resolveOid cat stmt it.1))

/-- Modelled from the spec: the description the protocol layer computes
for a result set. It receives the database state and the bound
parameters, and resolution must not depend on either — only on static
schema and AST information (§9). -/
def rowDescriptionFor (cat : Catalog) (stmt : SelectStmt) (db : Db)
    (params : List String) : List (String × Nat) :=
  match db, params with
  | _, _ => describeSelect cat stmt

/-! ### Protocol state machine: extended query (spec §4.1) -/

/-- Backend wire messages relevant to the exercise scripts. -/
inductive WireMsg where
  | parseComplete : WireMsg
  | bindComplete : WireMsg
  | paramDescription : List Nat → WireMsg
  | rowDescription : List (String × Nat) → WireMsg
  | dataRow : List (Option String) → WireMsg
  | commandComplete : String → Nat → WireMsg
  | errorResponse : String → WireMsg
  | readyForQuery : WireMsg
deriving DecidableEq, Repr

/-- The value of one result expression at a row. -/
def itemValue (r : Row) : SelExpr → Option String
  | SelExpr.colRef _ c => assocFind c r.cells
  | SelExpr.castE e _ => itemValue r e
  | SelExpr.countStar => none
  | SelExpr.avgOf _ => none

/-- The rows kept by a parameter-driven predicate. -/
def paramRows (tbl : Table) :
    Option String → List String → List Row
  | some wc, pv :: _ =>
      tbl.rows.filter (fun r => assocFind wc r.cells == some pv)
  | some _, [] => tbl.rows
  | none, _ => tbl.rows

/-- Executing a bound SELECT against the database: the parameter feeds
the predicate, so the result set may be empty or not depending on it. -/
def execSelect (db : Db) (q : SelectStmt) (params : List String) :
    List (List (Option String)) :=
  match dbFindTable db q.fromTable with
  | none => []
  | some tbl =>
      (paramRows tbl q.whereColParam params).map
        (fun r => q.items.map (fun it => itemValue r it.1))

/-- A prepared statement as stored by Parse (§3). -/
structure Prepared where
  query : SelectStmt
  paramOids : List Nat
deriving DecidableEq, Repr

/-- A portal as produced by Bind (§3). -/
structure Portal where
  stmtName : String
  params : List String
deriving DecidableEq, Repr

/-- The per-session protocol state: named statements and portals (§3). -/
structure PState where
  stmts : List (String × Prepared)
  portals : List (String × Portal)
deriving DecidableEq, Repr

/-- Frontend extended-protocol messages. -/
inductive FMsg where
  | parseM : String → SelectStmt → List Nat → FMsg
  | bindM : String → String → List String → FMsg
  | describeStmt : String → FMsg
  | executeM : String → Nat → FMsg
  | syncM : FMsg

/-- Modelled from the spec: the extended-protocol state machine (§4.1).
Describe answers with ParameterDescription and RowDescription; Execute
streams only DataRows and a completion — it never re-sends the row
description. -/
def stepProto (cat : Catalog) (db : Db) (ps : PState) :
    FMsg → PState × List WireMsg
  | FMsg.parseM name q oids =>
      ({ ps with stmts := (name, ⟨q, oids⟩) :: ps.stmts },
        [WireMsg.parseComplete])
  | FMsg.bindM portal stmtName params =>
      match assocFind stmtName ps.stmts with
      | none => (ps, [WireMsg.errorResponse "unknown statement"])
      | some _ =>
          ({ ps with portals := (portal, ⟨stmtName, params⟩) :: ps.portals },
            [WireMsg.bindComplete])
  | FMsg.describeStmt name =>
      match assocFind name ps.stmts with
      | none => (ps, [WireMsg.errorResponse "unknown statement"])
      | some p =>
          (ps, [WireMsg.paramDescription p.paramOids,
            WireMsg.rowDescription
              (rowDescriptionFor cat p.query db [])])
  | FMsg.executeM portal _ =>
      match assocFind portal ps.portals with
      | none => (ps, [WireMsg.errorResponse "unknown portal"])
      | some po =>
          match assocFind po.stmtName ps.stmts with
          | none => (ps, [WireMsg.errorResponse "unknown statement"])
          | some p =>
              let rows := execSelect db p.query po.params
              (ps, rows.map WireMsg.dataRow ++
                [WireMsg.commandComplete "SELECT" rows.length])
  | FMsg.syncM => (ps, [WireMsg.readyForQuery])

/-- Running a list of frontend messages, concatenating the responses. -/
def runProto (cat : Catalog) (db : Db) (ps : PState) :
    List FMsg → PState × List WireMsg
  | [] => (ps, [])
  | m :: ms =>
      let step := stepProto cat db ps m
      let rest := runProto cat db step.1 ms
      (rest.1, step.2 ++ rest.2)

/-- The full Parse/Describe/Bind/Execute/Sync cycle of the exercise
scripts. -/
def extendedCycle (cat : Catalog) (db : Db) (q : SelectStmt)
    (oids : List Nat) (params : List String) : List WireMsg :=
  (runProto cat db ⟨[], []⟩
    [FMsg.parseM "s1" q oids, FMsg.describeStmt "s1",
     FMsg.bindM "p1" "s1" params, FMsg.executeM "p1" 0, FMsg.syncM]).2

/-- The row descriptions contained in a message list. -/
def rowDescsOf : List WireMsg → List (List (String × Nat))
  | [] => []
  | WireMsg.rowDescription d :: rest => d :: rowDescsOf rest
  | _ :: rest => rowDescsOf rest

/-- The data rows contained in a message list. -/
def dataRowsOf : List WireMsg → List (List (Option String))
  | [] => []
  | WireMsg.dataRow r :: rest => r :: dataRowsOf rest
  | _ :: rest => dataRowsOf rest

/-- A client's attempt to fetch a result row from the response. -/
def fetchOneRow (msgs : List WireMsg) : Option (List (Option String)) :=
  (dataRowsOf msgs).head?

/-- The description of an INSERT's RETURNING columns from the persisted
mappings. -/
def describeInsertCols (cat : Catalog) (t : String) (cols : List String) :
    List (String × Nat) :=
  cols.map (fun c =>
    (c, match mappingFind t c cat with
        | some d => oidOfDecl d
        | none => fallbackOid))

/-- Modelled from the spec: simple-query execution of an INSERT — without
RETURNING only a command completion with the affected-row count is sent;
with RETURNING, a row description and the materialized rows precede it
(§4.1, §4.3). -/
def execSimpleInsert (cat : Catalog) (db : Db) (ins : InsertStmt) :
    Db × List WireMsg :=
  match emulatedInsertReturning db ins with
  | none => (db, [WireMsg.errorResponse "no such table"])
  | some (db', rows) =>
      match ins.returning with
      | none => (db', [WireMsg.commandComplete "INSERT" 1])
      | some retCols =>
          (db', WireMsg.rowDescription (describeInsertCols cat ins.table retCols) ::
            rows.map WireMsg.dataRow ++ [WireMsg.commandComplete "INSERT" 1])

/-! ### Binary/Text codec: byte-level utilities (spec §4.2) -/

/-- Big-endian interpretation of a byte list. -/
def bytesToNatBE (bs : List Nat) : Nat :=
  bs.foldl (fun acc b => acc * 256 + b) 0

/-- The `w`-byte big-endian encoding of a number (network byte order,
§4.2). -/
def natToBytesBE : Nat → Nat → List Nat
  | 0, _ => []
  | w + 1, n => natToBytesBE w (n / 256) ++ [n % 256]

/-- Reads exactly `w` bytes, returning them and the rest. -/
def readBytes (w : Nat) (bs : List Nat) : Option (List Nat × List Nat) :=
  if w ≤ bs.length then some (bs.take w, bs.drop w) else none

/-- Two's-complement `w`-byte big-endian encoding of an integer. -/
def intToBytesBE (w : Nat) (i : Int) : List Nat :=
  natToBytesBE w (i % ((256 ^ w : Nat) : Int)).toNat

/-- Two's-complement decoding of a `w`-byte big-endian integer. -/
def bytesToIntBE (w : Nat) (bs : List Nat) : Int :=
  let n := bytesToNatBE bs
  if n < 256 ^ w / 2 then (n : Int) else (n : Int) - ((256 ^ w : Nat) : Int)

/-- The decimal digit characters of a number, most significant first. -/
def natDecBytes (n : Nat) : List Nat :=
  if n = 0 then [48] else (Nat.digits 10 n).reverse.map (fun d => d + 48)

/-- The value of a decimal digit character. -/
def decDigitVal (c : Nat) : Option Nat :=
  if 48 ≤ c ∧ c ≤ 57 then some (c - 48) else none

/-- Converts a string of digit characters to their values. -/
def parseDigitsAux : List Nat → Option (List Nat)
  | [] => some []
  | c :: rest =>
      match decDigitVal c, parseDigitsAux rest with
      | some d, some ds => some (d :: ds)
      | _, _ => none

/-- Parses a nonempty decimal digit string. -/
def parseNatBytes (cs : List Nat) : Option Nat :=
  if cs = [] then none
  else
    match parseDigitsAux cs with
    | some ds => some (Nat.ofDigits 10 ds.reverse)
    | none => none

/-- Signed decimal text of an integer. -/
def intDecBytes (i : Int) : List Nat :=
  if i < 0 then 45 :: natDecBytes i.natAbs else natDecBytes i.toNat

/-- Parses signed decimal text. -/
def parseIntBytes (cs : List Nat) : Option Int :=
  match cs with
  | [] => none
  | c :: rest =>
      if c = 45 then
        match parseNatBytes rest with
        | some n => some (-(n : Int))
        | none => none
      else
        match parseNatBytes (c :: rest) with
        | some n => some ((n : Int))
        | none => none

/-- Lowercase hex digit character of a value below 16. -/
def hexDigitChar (d : Nat) : Nat :=
  if d < 10 then 48 + d else 87 + d

/-- Two hex characters per byte. -/
def hexPairs : List Nat → List Nat
  | [] => []
  | b :: rest => hexDigitChar (b / 16) :: hexDigitChar (b % 16) :: hexPairs rest

/-- The value of a hex digit character. -/
def hexVal (c : Nat) : Option Nat :=
  if 48 ≤ c ∧ c ≤ 57 then some (c - 48)
  else if 97 ≤ c ∧ c ≤ 102 then some (c - 87) else none

/-- Parses pairs of hex characters back into bytes. -/
def unhexPairs : List Nat → Option (List Nat)
  | [] => some []
  | c1 :: c2 :: rest =>
      match hexVal c1, hexVal c2, unhexPairs rest with
      | some h, some l, some bs => some ((16 * h + l) :: bs)
      | _, _, _ => none
  | _ :: [] => none

/-- Joins byte-list parts with a separator byte. -/
def joinSep (sep : Nat) : List (List Nat) → List Nat
  | [] => []
  | p :: [] => p
  | p :: q :: qs => p ++ sep :: joinSep sep (q :: qs)

/-- Splits a byte list at a separator byte. -/
def splitSep (sep : Nat) : List Nat → List (List Nat)
  | [] => [[]]
  | c :: rest =>
      if c = sep then [] :: splitSep sep rest
      else
        match splitSep sep rest with
        | [] => [[c]]
        | p :: ps => (c :: p) :: ps

/-- Parses every part as a decimal number. -/
def parseAllNat : List (List Nat) → Option (List Nat)
  | [] => some []
  | p :: ps =>
      match parseNatBytes p, parseAllNat ps with
      | some n, some ns => some (n :: ns)
      | _, _ => none

/-- Zero-padded decimal of the fractional part, `width` digits wide. -/
def natDecPad (width : Nat) (n : Nat) : List Nat :=
  List.replicate (width - (natDecBytes n).length) 48 ++ natDecBytes n

/-- The decimal digit values of a number, most significant first. -/
def decDigitsOf (n : Nat) : List Nat :=
  if n = 0 then [0] else (Nat.digits 10 n).reverse

/-! ### Binary/Text codec: scalar values (spec §4.2) -/

/-- The logical scalar type families the codec supports (§4.2). -/
inductive PgTag where
  | tInt2 | tInt4 | tInt8
  | tFloat4 | tFloat8
  | tNumeric
  | tDate | tTime | tTimestamp
  | tUuid
  | tText | tJson | tJsonb
  | tMac | tMac8
  | tInet | tCidr
deriving DecidableEq, Repr

/-- A scalar wire value. Floats carry their IEEE bit pattern — the codec
moves bit patterns, never arithmetic values. `vnumeric` is sign, decimal
mantissa and scale (value = ±mantissa / 10^scale). Dates/times/timestamps
are the spec's integer encodings (days / microseconds, §4.2). Text-like
values are their payload bytes. -/
inductive PgScalar where
  | vint2 : Int → PgScalar
  | vint4 : Int → PgScalar
  | vint8 : Int → PgScalar
  | vfloat4 : Nat → PgScalar
  | vfloat8 : Nat → PgScalar
  | vnumeric : Bool → Nat → Nat → PgScalar
  | vdate : Int → PgScalar
  | vtime : Int → PgScalar
  | vtimestamp : Int → PgScalar
  | vuuid : List Nat → PgScalar
  | vtext : List Nat → PgScalar
  | vjson : List Nat → PgScalar
  | vjsonb : List Nat → PgScalar
  | vmac : List Nat → PgScalar
  | vmac8 : List Nat → PgScalar
  | vinet : Bool → Nat → List Nat → PgScalar
  | vcidr : Bool → Nat → List Nat → PgScalar
deriving DecidableEq, Repr

/-- The tag of a scalar value. -/
def scalarTag : PgScalar → PgTag
  | PgScalar.vint2 _ => PgTag.tInt2
  | PgScalar.vint4 _ => PgTag.tInt4
  | PgScalar.vint8 _ => PgTag.tInt8
  | PgScalar.vfloat4 _ => PgTag.tFloat4
  | PgScalar.vfloat8 _ => PgTag.tFloat8
  | PgScalar.vnumeric _ _ _ => PgTag.tNumeric
  | PgScalar.vdate _ => PgTag.tDate
  | PgScalar.vtime _ => PgTag.tTime
  | PgScalar.vtimestamp _ => PgTag.tTimestamp
  | PgScalar.vuuid _ => PgTag.tUuid
  | PgScalar.vtext _ => PgTag.tText
  | PgScalar.vjson _ => PgTag.tJson
  | PgScalar.vjsonb _ => PgTag.tJsonb
  | PgScalar.vmac _ => PgTag.tMac
  | PgScalar.vmac8 _ => PgTag.tMac8
  | PgScalar.vinet _ _ _ => PgTag.tInet
  | PgScalar.vcidr _ _ _ => PgTag.tCidr

/-- Whether a signed value fits in `w` two's-complement bytes. -/
def intFits (w : Nat) (i : Int) : Bool :=
  decide (-(((256 ^ w / 2 : Nat)) : Int) ≤ i) &&
  decide (i < ((256 ^ w / 2 : Nat) : Int))

/-- Address wellformedness for network values. -/
def inetWf (v6 : Bool) (p : Nat) (bs : List Nat) : Bool :=
  (if v6 then decide (bs.length = 16) && decide (p ≤ 128)
   else decide (bs.length = 4) && decide (p ≤ 32)) &&
  (bs.all (fun b => decide (b < 256))) && decide (0 < bs.length)

/-- Representable scalar values (§4.2): integers within their width,
float bit patterns within theirs, numeric with bounded digit count and
scale, byte payloads of the right length. -/
def wfScalar : PgScalar → Bool
  | PgScalar.vint2 i => intFits 2 i
  | PgScalar.vint4 i => intFits 4 i
  | PgScalar.vint8 i => intFits 8 i
  | PgScalar.vfloat4 b => decide (b < 256 ^ 4)
  | PgScalar.vfloat8 b => decide (b < 256 ^ 8)
  | PgScalar.vnumeric _ m scale =>
      decide (scale < 65536) &&
      decide ((Nat.digits 10000 m).length < 65535)
  | PgScalar.vdate d => intFits 4 d
  | PgScalar.vtime t => intFits 8 t
  | PgScalar.vtimestamp t => intFits 8 t
  | PgScalar.vuuid bs =>
      decide (bs.length = 16) && bs.all (fun b => decide (b < 256))
  | PgScalar.vtext bs =>
      bs.all (fun b => decide (b < 256)) &&
      decide (bs.length < 256 ^ 4 - 1)
  | PgScalar.vjson bs =>
      bs.all (fun b => decide (b < 256)) &&
      decide (bs.length < 256 ^ 4 - 1)
  | PgScalar.vjsonb bs =>
      bs.all (fun b => decide (b < 256)) &&
      decide (bs.length < 256 ^ 4 - 2)
  | PgScalar.vmac bs =>
      decide (bs.length = 6) && bs.all (fun b => decide (b < 256))
  | PgScalar.vmac8 bs =>
      decide (bs.length = 8) && bs.all (fun b => decide (b < 256))
  | PgScalar.vinet v6 p bs => inetWf v6 p bs
  | PgScalar.vcidr v6 p bs => inetWf v6 p bs

/-- The base-10000 digit groups of the numeric mantissa, most significant
first (the spec's digit-group layout, §4.2). -/
def numericGroups (m : Nat) : List Nat :=
  (Nat.digits 10000 m).reverse

/-- Modelled from the spec: the binary wire encoding of each scalar
family — fixed-width network byte order for integers and float bit
patterns; digit-group layout with weight/sign/scale header for numeric;
integer encodings for date/time/timestamp; 16 raw bytes for UUID; a
version-byte prefix for JSONB; 6/8 raw bytes for MACADDR/MACADDR8; a
family byte, prefix length, cidr marker, address length and address for
INET/CIDR (§4.2). -/
def encodeScalarBin : PgScalar → List Nat
  | PgScalar.vint2 i => intToBytesBE 2 i
  | PgScalar.vint4 i => intToBytesBE 4 i
  | PgScalar.vint8 i => intToBytesBE 8 i
  | PgScalar.vfloat4 b => natToBytesBE 4 b
  | PgScalar.vfloat8 b => natToBytesBE 8 b
  | PgScalar.vnumeric neg m scale =>
      natToBytesBE 2 (numericGroups m).length ++
      natToBytesBE 2 (numericGroups m).length ++
      natToBytesBE 2 (if neg then 16384 else 0) ++
      natToBytesBE 2 scale ++
      ((numericGroups m).map (natToBytesBE 2)).flatten
  | PgScalar.vdate d => intToBytesBE 4 d
  | PgScalar.vtime t => intToBytesBE 8 t
  | PgScalar.vtimestamp t => intToBytesBE 8 t
  | PgScalar.vuuid bs => bs
  | PgScalar.vtext bs => bs
  | PgScalar.vjson bs => bs
  | PgScalar.vjsonb bs => 1 :: bs
  | PgScalar.vmac bs => bs
  | PgScalar.vmac8 bs => bs
  | PgScalar.vinet v6 p bs =>
      (if v6 then 3 else 2) :: p :: 0 :: bs.length :: bs
  | PgScalar.vcidr v6 p bs =>
      (if v6 then 3 else 2) :: p :: 1 :: bs.length :: bs

/-- Reads `k` two-byte digit groups, consuming the whole input. -/
def readGroups : Nat → List Nat → Option (List Nat)
  | 0, [] => some []
  | 0, _ :: _ => none
  | k + 1, bs =>
      match readBytes 2 bs with
      | some (l, r) =>
          match readGroups k r with
          | some gs => some (bytesToNatBE l :: gs)
          | none => none
      | none => none

/-- Numeric binary decoding, stage 4: scale and digit groups. -/
def decodeNumericScale (ndigits : Nat) (neg : Bool) (bs : List Nat) :
    Option PgScalar :=
  match readBytes 2 bs with
  | some (l4, r4) =>
      match readGroups ndigits r4 with
      | some gs =>
          some (PgScalar.vnumeric neg (Nat.ofDigits 10000 gs.reverse)
            (bytesToNatBE l4))
      | none => none
  | none => none

/-- Numeric binary decoding, stage 3: sign word. -/
def decodeNumericSign (ndigits : Nat) (bs : List Nat) : Option PgScalar :=
  match readBytes 2 bs with
  | some (l3, r3) => decodeNumericScale ndigits (bytesToNatBE l3 == 16384) r3
  | none => none

/-- Numeric binary decoding, stage 2: weight word (derived, discarded). -/
def decodeNumericWeight (ndigits : Nat) (bs : List Nat) : Option PgScalar :=
  match readBytes 2 bs with
  | some (_, r2) => decodeNumericSign ndigits r2
  | none => none

/-- Numeric binary decoding, stage 1: digit-group count. -/
def decodeNumericBin (bs : List Nat) : Option PgScalar :=
  match readBytes 2 bs with
  | some (l1, r1) => decodeNumericWeight (bytesToNatBE l1) r1
  | none => none

/-- Binary decoding of a scalar from its complete wire chunk. -/
def decodeScalarBin : PgTag → List Nat → Option PgScalar
  | PgTag.tInt2, bs =>
      if bs.length = 2 then some (PgScalar.vint2 (bytesToIntBE 2 bs)) else none
  | PgTag.tInt4, bs =>
      if bs.length = 4 then some (PgScalar.vint4 (bytesToIntBE 4 bs)) else none
  | PgTag.tInt8, bs =>
      if bs.length = 8 then some (PgScalar.vint8 (bytesToIntBE 8 bs)) else none
  | PgTag.tFloat4, bs =>
      if bs.length = 4 then some (PgScalar.vfloat4 (bytesToNatBE bs)) else none
  | PgTag.tFloat8, bs =>
      if bs.length = 8 then some (PgScalar.vfloat8 (bytesToNatBE bs)) else none
  | PgTag.tNumeric, bs => decodeNumericBin bs
  | PgTag.tDate, bs =>
      if bs.length = 4 then some (PgScalar.vdate (bytesToIntBE 4 bs)) else none
  | PgTag.tTime, bs =>
      if bs.length = 8 then some (PgScalar.vtime (bytesToIntBE 8 bs)) else none
  | PgTag.tTimestamp, bs =>
      if bs.length = 8 then
        some (PgScalar.vtimestamp (bytesToIntBE 8 bs))
      else none
  | PgTag.tUuid, bs =>
      if bs.length = 16 then some (PgScalar.vuuid bs) else none
  | PgTag.tText, bs => some (PgScalar.vtext bs)
  | PgTag.tJson, bs => some (PgScalar.vjson bs)
  | PgTag.tJsonb, bs =>
      match bs with
      | 1 :: rest => some (PgScalar.vjsonb rest)
      | _ => none
  | PgTag.tMac, bs =>
      if bs.length = 6 then some (PgScalar.vmac bs) else none
  | PgTag.tMac8, bs =>
      if bs.length = 8 then some (PgScalar.vmac8 bs) else none
  | PgTag.tInet, bs =>
      match bs with
      | fam :: p :: 0 :: len :: rest =>
          if rest.length = len ∧ (fam = 2 ∨ fam = 3) then
            some (PgScalar.vinet (fam == 3) p rest)
          else none
      | _ => none
  | PgTag.tCidr, bs =>
      match bs with
      | fam :: p :: 1 :: len :: rest =>
          if rest.length = len ∧ (fam = 2 ∨ fam = 3) then
            some (PgScalar.vcidr (fam == 3) p rest)
          else none
      | _ => none

/-- The text form of a numeric mantissa at a scale: integer part, then a
dot and the zero-padded fractional digits when the scale is positive. -/
def numericTextBody (m scale : Nat) : List Nat :=
  if scale = 0 then natDecBytes m
  else natDecBytes (m / 10 ^ scale) ++ 46 :: natDecPad scale (m % 10 ^ scale)

/-- The canonical 36-character UUID text: 32 lowercase hex characters
with dashes after 8, 12, 16 and 20 (§4.2). -/
def uuidTextOf (bs : List Nat) : List Nat :=
  let h := hexPairs bs
  h.take 8 ++ 45 :: ((h.drop 8).take 4 ++ 45 ::
    (((h.drop 8).drop 4).take 4 ++ 45 ::
      ((((h.drop 8).drop 4).drop 4).take 4 ++ 45 ::
        (((h.drop 8).drop 4).drop 4).drop 4)))

/-- MAC address text: two hex characters per byte, colon-separated. -/
def macTextOf (bs : List Nat) : List Nat :=
  joinSep 58 (bs.map (fun b => [hexDigitChar (b / 16), hexDigitChar (b % 16)]))

/-- Network address text: dotted decimal for IPv4, 32 plain hex
characters for IPv6 (a canonical reversible form; the spec fixes only the
binary layout), then a slash and the prefix length. -/
def inetTextOf (v6 : Bool) (p : Nat) (bs : List Nat) : List Nat :=
  (if v6 then hexPairs bs else joinSep 46 (bs.map natDecBytes)) ++
    47 :: natDecBytes p

/-- Modelled from the spec: the text wire encoding per scalar family.
The spec specifies layouts only for the binary format and the 36-char
UUID text; the remaining text forms are the canonical decimal/hex
renderings. -/
def textEncodeScalar : PgScalar → List Nat
  | PgScalar.vint2 i => intDecBytes i
  | PgScalar.vint4 i => intDecBytes i
  | PgScalar.vint8 i => intDecBytes i
  | PgScalar.vfloat4 b => natDecBytes b
  | PgScalar.vfloat8 b => natDecBytes b
  | PgScalar.vnumeric neg m scale =>
      (if neg then [45] else []) ++ numericTextBody m scale
  | PgScalar.vdate d => intDecBytes d
  | PgScalar.vtime t => intDecBytes t
  | PgScalar.vtimestamp t => intDecBytes t
  | PgScalar.vuuid bs => uuidTextOf bs
  | PgScalar.vtext bs => bs
  | PgScalar.vjson bs => bs
  | PgScalar.vjsonb bs => bs
  | PgScalar.vmac bs => macTextOf bs
  | PgScalar.vmac8 bs => macTextOf bs
  | PgScalar.vinet v6 p bs => inetTextOf v6 p bs
  | PgScalar.vcidr v6 p bs => inetTextOf v6 p bs

/-- Parses numeric text (after the sign): either a plain integer or
integer-dot-fraction, the scale being the fraction width. -/
def parseNumericBody (cs : List Nat) : Option (Nat × Nat) :=
  match splitSep 46 cs with
  | [ip] =>
      match parseNatBytes ip with
      | some m => some (m, 0)
      | none => none
  | [ip, fp] =>
      match parseNatBytes ip, parseNatBytes fp with
      | some i, some f => some (i * 10 ^ fp.length + f, fp.length)
      | _, _ => none
  | _ => none

/-- Parses network address text back into family, prefix and bytes. -/
def parseInetText (cs : List Nat) : Option (Bool × Nat × List Nat) :=
  match splitSep 47 cs with
  | [addr, pfx] =>
      match parseNatBytes pfx with
      | some p =>
          if 46 ∈ addr then
            match parseAllNat (splitSep 46 addr) with
            | some bs => some (false, p, bs)
            | none => none
          else
            match unhexPairs addr with
            | some bs => some (true, p, bs)
            | none => none
      | none => none
  | _ => none

/-- Text decoding of a scalar from its complete text chunk. -/
def textDecodeScalar : PgTag → List Nat → Option PgScalar
  | PgTag.tInt2, cs => (parseIntBytes cs).map PgScalar.vint2
  | PgTag.tInt4, cs => (parseIntBytes cs).map PgScalar.vint4
  | PgTag.tInt8, cs => (parseIntBytes cs).map PgScalar.vint8
  | PgTag.tFloat4, cs => (parseNatBytes cs).map PgScalar.vfloat4
  | PgTag.tFloat8, cs => (parseNatBytes cs).map PgScalar.vfloat8
  | PgTag.tNumeric, cs =>
      match cs with
      | [] => none
      | c :: rest =>
          if c = 45 then
            match parseNumericBody rest with
            | some (m, scale) => some (PgScalar.vnumeric true m scale)
            | none => none
          else
            match parseNumericBody (c :: rest) with
            | some (m, scale) => some (PgScalar.vnumeric false m scale)
            | none => none
  | PgTag.tDate, cs => (parseIntBytes cs).map PgScalar.vdate
  | PgTag.tTime, cs => (parseIntBytes cs).map PgScalar.vtime
  | PgTag.tTimestamp, cs => (parseIntBytes cs).map PgScalar.vtimestamp
  | PgTag.tUuid, cs =>
      if cs.length = 36 then
        match unhexPairs (cs.filter (fun c => c != 45)) with
        | some bs => if bs.length = 16 then some (PgScalar.vuuid bs) else none
        | none => none
      else none
  | PgTag.tText, cs => some (PgScalar.vtext cs)
  | PgTag.tJson, cs => some (PgScalar.vjson cs)
  | PgTag.tJsonb, cs => some (PgScalar.vjsonb cs)
  | PgTag.tMac, cs =>
      match unhexPairs (cs.filter (fun c => c != 58)) with
      | some bs => if bs.length = 6 then some (PgScalar.vmac bs) else none
      | none => none
  | PgTag.tMac8, cs =>
      match unhexPairs (cs.filter (fun c => c != 58)) with
      | some bs => if bs.length = 8 then some (PgScalar.vmac8 bs) else none
      | none => none
  | PgTag.tInet, cs =>
      match parseInetText cs with
      | some (v6, p, bs) => some (PgScalar.vinet v6 p bs)
      | none => none
  | PgTag.tCidr, cs =>
      match parseInetText cs with
      | some (v6, p, bs) => some (PgScalar.vcidr v6 p bs)
      | none => none

/-! ### Binary/Text codec: composite values — arrays and ranges (spec §4.2) -/

/-- The catalog OID of each scalar tag (§3). -/
def oidOfTag : PgTag → Nat
  | PgTag.tInt2 => 21
  | PgTag.tInt4 => 23
  | PgTag.tInt8 => 20
  | PgTag.tFloat4 => 700
  | PgTag.tFloat8 => 701
  | PgTag.tNumeric => 1700
  | PgTag.tDate => 1082
  | PgTag.tTime => 1083
  | PgTag.tTimestamp => 1114
  | PgTag.tUuid => 2950
  | PgTag.tText => 25
  | PgTag.tJson => 114
  | PgTag.tJsonb => 3802
  | PgTag.tMac => 829
  | PgTag.tMac8 => 774
  | PgTag.tInet => 869
  | PgTag.tCidr => 650

/-- One bound of a range value: absent, inclusive or exclusive. -/
inductive RangeBound where
  | unbounded : RangeBound
  | incl : PgScalar → RangeBound
  | excl : PgScalar → RangeBound
deriving DecidableEq, Repr

/-- A range value: the canonical empty range, or a pair of bounds (§4.2:
a flags byte plus zero, one, or two bound values). -/
inductive RangeRep where
  | emptyR : RangeRep
  | bounds : RangeBound → RangeBound → RangeRep
deriving DecidableEq, Repr

/-- A logical wire value: a scalar, a one-dimensional array of optional
(nullable) elements of one scalar tag, or a range over a scalar tag. -/
inductive PgValue where
  | scalar : PgScalar → PgValue
  | arrayV : PgTag → List (Option PgScalar) → PgValue
  | rangeV : PgTag → RangeRep → PgValue
deriving DecidableEq, Repr

/-- A logical wire type: scalar, array or range over a scalar family. -/
inductive PgType where
  | base : PgTag → PgType
  | arrayT : PgTag → PgType
  | rangeT : PgTag → PgType
deriving DecidableEq, Repr

/-- The type of a value. -/
def typeOfValue : PgValue → PgType
  | PgValue.scalar v => PgType.base (scalarTag v)
  | PgValue.arrayV t _ => PgType.arrayT t
  | PgValue.rangeV t _ => PgType.rangeT t

/-- The scalar families over which range types exist (int4range,
int8range, numrange, daterange, tsrange). -/
def rangeableTag : PgTag → Bool
  | PgTag.tInt4 => true
  | PgTag.tInt8 => true
  | PgTag.tNumeric => true
  | PgTag.tDate => true
  | PgTag.tTimestamp => true
  | _ => false

/-- Backslash-escaping of quote and backslash bytes, for quoted array
element text. -/
def escBytes : List Nat → List Nat
  | [] => []
  | c :: rest =>
      if c = 34 ∨ c = 92 then 92 :: c :: escBytes rest
      else c :: escBytes rest

/-- Undoes `escBytes`; fails on a dangling escape or a bare quote. -/
def unescBytes : List Nat → Option (List Nat)
  | [] => some []
  | c :: rest =>
      if c = 92 then
        match rest with
        | [] => none
        | d :: rest2 =>
            match unescBytes rest2 with
            | some s => some (d :: s)
            | none => none
      else if c = 34 then none
      else
        match unescBytes rest with
        | some s => some (c :: s)
        | none => none

/-- Prepends a byte to the first part of a split result. -/
def consHead (c : Nat) : List (List Nat) → List (List Nat)
  | [] => [[c]]
  | p :: ps => (c :: p) :: ps

/-- Prepends a whole byte list to the first part of a split result. -/
def prepAll : List Nat → List (List Nat) → List (List Nat)
  | [], ps => ps
  | c :: cs, ps => consHead c (prepAll cs ps)

/-- Splits array-body text at top-level commas, respecting double-quoted
segments and backslash escapes inside them; the flag says whether the
scan is inside a quoted segment. -/
def splitQ : Bool → List Nat → List (List Nat)
  | _, [] => [[]]
  | false, c :: rest =>
      if c = 44 then [] :: splitQ false rest
      else if c = 34 then consHead c (splitQ true rest)
      else consHead c (splitQ false rest)
  | true, c :: rest =>
      if c = 92 then
        match rest with
        | [] => [[c]]
        | d :: rest2 => consHead c (consHead d (splitQ true rest2))
      else if c = 34 then consHead c (splitQ false rest)
      else consHead c (splitQ true rest)

/-- Array element text: `NULL` for an absent element, otherwise the
always-quoted, backslash-escaped scalar text. -/
def elemTextOf : Option PgScalar → List Nat
  | none => [78, 85, 76, 76]
  | some v => 34 :: escBytes (textEncodeScalar v) ++ [34]

/-- Array text: the comma-joined quoted elements in curly braces. -/
def encodeArrayText (elems : List (Option PgScalar)) : List Nat :=
  123 :: joinSep 44 (elems.map elemTextOf) ++ [125]

/-- Parses one array element text: `NULL`, or a quoted escaped scalar. -/
def parseElemText (t : PgTag) (p : List Nat) : Option (Option PgScalar) :=
  if p = [78, 85, 76, 76] then some none
  else
    match p with
    | 34 :: rest =>
        match rest.getLast? with
        | some c =>
            if c = 34 then
              match unescBytes rest.dropLast with
              | some s =>
                  match textDecodeScalar t s with
                  | some v => some (some v)
                  | none => none
              | none => none
            else none
        | none => none
    | _ => none

/-- Parses every split part as an array element. -/
def parseElemsText (t : PgTag) :
    List (List Nat) → Option (List (Option PgScalar))
  | [] => some []
  | p :: ps =>
      match parseElemText t p, parseElemsText t ps with
      | some e, some es => some (e :: es)
      | _, _ => none

/-- Text decoding of an array: strip the braces, split at top-level
commas, parse each element. -/
def decodeArrayText (t : PgTag) (cs : List Nat) :
    Option (List (Option PgScalar)) :=
  match cs with
  | 123 :: rest =>
      match rest.getLast? with
      | some c =>
          if c = 125 then
            if rest.dropLast = [] then some []
            else parseElemsText t (splitQ false rest.dropLast)
          else none
      | none => none
  | _ => none

/-- The text of one range bound: empty when unbounded. -/
def boundTextOf : RangeBound → List Nat
  | RangeBound.unbounded => []
  | RangeBound.incl v => textEncodeScalar v
  | RangeBound.excl v => textEncodeScalar v

/-- The opening bracket of a range text: `[` inclusive, `(` otherwise. -/
def loBracket : RangeBound → Nat
  | RangeBound.incl _ => 91
  | RangeBound.excl _ => 40
  | RangeBound.unbounded => 40

/-- The closing bracket of a range text: `]` inclusive, `)` otherwise. -/
def hiBracket : RangeBound → Nat
  | RangeBound.incl _ => 93
  | RangeBound.excl _ => 41
  | RangeBound.unbounded => 41

/-- Range text: `empty`, or bracketed comma-separated bound texts. -/
def encodeRangeText : RangeRep → List Nat
  | RangeRep.emptyR => [101, 109, 112, 116, 121]
  | RangeRep.bounds lo hi =>
      loBracket lo :: boundTextOf lo ++ 44 :: boundTextOf hi ++ [hiBracket hi]

/-- Parses one range bound text; empty text means unbounded, the flag
carries whether the adjacent bracket was the inclusive one. -/
def parseBoundText (t : PgTag) (inc : Bool) (s : List Nat) :
    Option RangeBound :=
  if s = [] then some RangeBound.unbounded
  else
    match textDecodeScalar t s with
    | some v =>
        some (if inc then RangeBound.incl v else RangeBound.excl v)
    | none => none

/-- Text decoding of a range value. -/
def decodeRangeText (t : PgTag) (cs : List Nat) : Option RangeRep :=
  if cs = [101, 109, 112, 116, 121] then some RangeRep.emptyR
  else
    match cs with
    | c0 :: rest =>
        match rest.getLast? with
        | some cN =>
            if (c0 = 91 ∨ c0 = 40) ∧ (cN = 93 ∨ cN = 41) then
              match splitSep 44 rest.dropLast with
              | [loT, hiT] =>
                  match parseBoundText t (c0 == 91) loT,
                    parseBoundText t (cN == 93) hiT with
                  | some lo, some hi => some (RangeRep.bounds lo hi)
                  | _, _ => none
              | _ => none
            else none
        | none => none
    | [] => none

/-- The per-element null bitmap of an array (§4.2): one marker byte per
element, 1 for NULL. -/
def nullBitmap (elems : List (Option PgScalar)) : List Nat :=
  elems.map (fun e => match e with
    | some _ => 0
    | none => 1)

/-- The length-prefixed binary chunks of the non-null array elements. -/
def elemChunksBin (elems : List (Option PgScalar)) : List Nat :=
  (elems.map (fun e => match e with
    | some v =>
        natToBytesBE 4 (encodeScalarBin v).length ++ encodeScalarBin v
    | none => [])).flatten

/-- Modelled from the spec: binary array layout — dimension/bound header
(one dimension, element count, lower bound, element OID), the
per-element null bitmap, then the recursively encoded elements (§4.2). -/
def encodeArrayBin (t : PgTag) (elems : List (Option PgScalar)) : List Nat :=
  natToBytesBE 4 1 ++ natToBytesBE 4 elems.length ++ natToBytesBE 4 1 ++
    natToBytesBE 4 (oidOfTag t) ++ nullBitmap elems ++ elemChunksBin elems

/-- Reads the elements guided by the null bitmap: a 1 marker yields a
NULL element, a 0 marker a length-prefixed scalar chunk. -/
def readElemsBin (t : PgTag) :
    List Nat → List Nat → Option (List (Option PgScalar))
  | [], rest => if rest = [] then some [] else none
  | b :: bm, bs =>
      if b = 1 then
        match readElemsBin t bm bs with
        | some es => some (none :: es)
        | none => none
      else if b = 0 then
        match readBytes 4 bs with
        | some (l, r) =>
            match readBytes (bytesToNatBE l) r with
            | some (chunk, r2) =>
                match decodeScalarBin t chunk with
                | some v =>
                    match readElemsBin t bm r2 with
                    | some es => some (some v :: es)
                    | none => none
                | none => none
            | none => none
        | none => none
      else none

/-- Binary array decoding, stage 5: null bitmap, then the elements. -/
def decodeArrayBitmap (t : PgTag) (count : Nat) (bs : List Nat) :
    Option (List (Option PgScalar)) :=
  match readBytes count bs with
  | some (bm, r) => readElemsBin t bm r
  | none => none

/-- Binary array decoding, stage 4: element OID word. -/
def decodeArrayOid (t : PgTag) (count : Nat) (bs : List Nat) :
    Option (List (Option PgScalar)) :=
  match readBytes 4 bs with
  | some (l, r) =>
      if bytesToNatBE l = oidOfTag t then decodeArrayBitmap t count r
      else none
  | none => none

/-- Binary array decoding, stage 3: lower-bound word. -/
def decodeArrayLb (t : PgTag) (count : Nat) (bs : List Nat) :
    Option (List (Option PgScalar)) :=
  match readBytes 4 bs with
  | some (l, r) =>
      if bytesToNatBE l = 1 then decodeArrayOid t count r else none
  | none => none

/-- Binary array decoding, stage 2: element-count word. -/
def decodeArrayCount (t : PgTag) (bs : List Nat) :
    Option (List (Option PgScalar)) :=
  match readBytes 4 bs with
  | some (l, r) => decodeArrayLb t (bytesToNatBE l) r
  | none => none

/-- Binary decoding of an array from its complete wire chunk: stage 1,
the dimension word. -/
def decodeArrayBin (t : PgTag) (bs : List Nat) :
    Option (List (Option PgScalar)) :=
  match readBytes 4 bs with
  | some (l, r) =>
      if bytesToNatBE l = 1 then decodeArrayCount t r else none
  | none => none

/-- The lower-bound contribution to the range flags byte: 2 = inclusive,
8 = infinite (§4.2). -/
def loFlag : RangeBound → Nat
  | RangeBound.incl _ => 2
  | RangeBound.excl _ => 0
  | RangeBound.unbounded => 8

/-- The upper-bound contribution to the range flags byte: 4 = inclusive,
16 = infinite (§4.2). -/
def hiFlag : RangeBound → Nat
  | RangeBound.incl _ => 4
  | RangeBound.excl _ => 0
  | RangeBound.unbounded => 16

/-- Whether a bound is absent (infinite). -/
def isUnb : RangeBound → Bool
  | RangeBound.unbounded => true
  | RangeBound.incl _ => false
  | RangeBound.excl _ => false

/-- Whether a bound is inclusive. -/
def isIncl : RangeBound → Bool
  | RangeBound.incl _ => true
  | RangeBound.excl _ => false
  | RangeBound.unbounded => false

/-- The length-prefixed binary chunk of one bound; absent bounds
contribute no bytes (§4.2: zero, one, or two bound values). -/
def boundChunkBin : RangeBound → List Nat
  | RangeBound.unbounded => []
  | RangeBound.incl v =>
      natToBytesBE 4 (encodeScalarBin v).length ++ encodeScalarBin v
  | RangeBound.excl v =>
      natToBytesBE 4 (encodeScalarBin v).length ++ encodeScalarBin v

/-- Modelled from the spec: binary range layout — a flags byte (1 =
empty, 2/4 = inclusive bounds, 8/16 = infinite bounds) followed by the
present bound values (§4.2). -/
def encodeRangeBin : RangeRep → List Nat
  | RangeRep.emptyR => [1]
  | RangeRep.bounds lo hi =>
      (loFlag lo + hiFlag hi) :: boundChunkBin lo ++ boundChunkBin hi

/-- Reads one bound per the flag bits: infinite bounds consume nothing,
finite ones a length-prefixed scalar chunk. -/
def decodeBoundBin (t : PgTag) (inf inc : Bool) (bs : List Nat) :
    Option (RangeBound × List Nat) :=
  if inf then some (RangeBound.unbounded, bs)
  else
    match readBytes 4 bs with
    | some (l, r) =>
        match readBytes (bytesToNatBE l) r with
        | some (chunk, r2) =>
            match decodeScalarBin t chunk with
            | some v =>
                some
                  ((if inc then RangeBound.incl v else RangeBound.excl v), r2)
            | none => none
        | none => none
    | none => none

/-- Binary decoding of a range from its complete wire chunk. -/
def decodeRangeBin (t : PgTag) : List Nat → Option RangeRep
  | [] => none
  | f :: rest =>
      if f = 1 then (if rest = [] then some RangeRep.emptyR else none)
      else
        match decodeBoundBin t (f.testBit 3) (f.testBit 1) rest with
        | some (lo, r1) =>
            match decodeBoundBin t (f.testBit 4) (f.testBit 2) r1 with
            | some (hi, r2) =>
                if r2 = [] then some (RangeRep.bounds lo hi) else none
            | none => none
        | none => none

/-- Binary encoding of a whole logical value. -/
def encodeValueBin : PgValue → List Nat
  | PgValue.scalar v => encodeScalarBin v
  | PgValue.arrayV t elems => encodeArrayBin t elems
  | PgValue.rangeV _ r => encodeRangeBin r

/-- Text encoding of a whole logical value. -/
def encodeValueText : PgValue → List Nat
  | PgValue.scalar v => textEncodeScalar v
  | PgValue.arrayV _ elems => encodeArrayText elems
  | PgValue.rangeV _ r => encodeRangeText r

/-- Binary decoding of a whole logical value at a type. -/
def decodeValueBin : PgType → List Nat → Option PgValue
  | PgType.base t, bs => (decodeScalarBin t bs).map PgValue.scalar
  | PgType.arrayT t, bs => (decodeArrayBin t bs).map (PgValue.arrayV t)
  | PgType.rangeT t, bs => (decodeRangeBin t bs).map (PgValue.rangeV t)

/-- Text decoding of a whole logical value at a type. -/
def decodeValueText : PgType → List Nat → Option PgValue
  | PgType.base t, cs => (textDecodeScalar t cs).map PgValue.scalar
  | PgType.arrayT t, cs => (decodeArrayText t cs).map (PgValue.arrayV t)
  | PgType.rangeT t, cs => (decodeRangeText t cs).map (PgValue.rangeV t)

/-- Wellformedness of one array element: NULL, or a representable scalar
of the array's element family whose chunk fits its length prefix. -/
def wfElem (t : PgTag) : Option PgScalar → Bool
  | none => true
  | some v =>
      (scalarTag v == t) && wfScalar v &&
        decide ((encodeScalarBin v).length < 2 ^ 32)

/-- Wellformedness of one range bound. -/
def wfBound (t : PgTag) : RangeBound → Bool
  | RangeBound.unbounded => true
  | RangeBound.incl v =>
      (scalarTag v == t) && wfScalar v &&
        decide ((encodeScalarBin v).length < 2 ^ 32)
  | RangeBound.excl v =>
      (scalarTag v == t) && wfScalar v &&
        decide ((encodeScalarBin v).length < 2 ^ 32)

/-- Structural wellformedness of a logical value. -/
def wfValueCore : PgValue → Bool
  | PgValue.scalar v => wfScalar v
  | PgValue.arrayV t elems =>
      elems.all (wfElem t) && decide (elems.length < 2 ^ 32)
  | PgValue.rangeV t r =>
      rangeableTag t &&
        (match r with
         | RangeRep.emptyR => true
         | RangeRep.bounds lo hi => wfBound t lo && wfBound t hi)

/-- Representable logical values: structurally wellformed, and both wire
encodings fit a four-byte field length header below the NULL marker. -/
def wfValue (v : PgValue) : Bool :=
  wfValueCore v && decide ((encodeValueBin v).length < 2 ^ 32 - 1) &&
    decide ((encodeValueText v).length < 2 ^ 32 - 1)

/-- Modelled from the spec: DataRow field framing — a four-byte length
header then the payload in the chosen format; NULL is the length marker
`2^32 - 1` with no payload, independent of the value encoding (§4.1,
§4.2). -/
def fieldEncode (binary : Bool) : Option PgValue → List Nat
  | none => natToBytesBE 4 (2 ^ 32 - 1)
  | some v =>
      (fun payload => natToBytesBE 4 payload.length ++ payload)
        (if binary then encodeValueBin v else encodeValueText v)

/-- Decodes a framed field at a type: the NULL marker yields NULL, any
other header length must match the payload, which is decoded in the
chosen format. -/
def fieldDecode (binary : Bool) (ty : PgType) (bs : List Nat) :
    Option (Option PgValue) :=
  match readBytes 4 bs with
  | some (l, r) =>
      if bytesToNatBE l = 2 ^ 32 - 1 then
        (if r = [] then some none else none)
      else
        if r.length = bytesToNatBE l then
          (if binary then decodeValueBin ty r
           else decodeValueText ty r).map some
        else none
  | none => none

/-! ### Proofs -/

lemma assocFind_mem {s : String} {o : Nat} :
    ∀ {l : List (String × Nat)}, assocFind s l = some o → (s, o) ∈ l := by
  intro l
  induction l with
  | nil => intro h; simp [assocFind] at h
  | cons p rest ih =>
      intro h
      cases p with
      | mk k v =>
          rw [assocFind] at h
          by_cases hs : s = k
          · simp only [if_pos hs, Option.some.injEq] at h
            subst hs
            subst h
            exact List.mem_cons_self _ _
          · simp only [if_neg hs] at h
            exact List.mem_cons_of_mem _ (ih h)

lemma filterRowsE_pointwise (pred : CatExpr) (p : PgTypeRow → Bool)
    (l : List PgTypeRow)
    (h : ∀ r ∈ l, evalCatExpr r pred = Except.ok (SqlVal.vbool (p r))) :
    filterRowsE pred l = Except.ok (l.filter p) := by
  induction l with
  | nil => simp [filterRowsE]
  | cons r rs ih =>
      have hr := h r (List.mem_cons_self r rs)
      have hrest := ih (fun x hx => h x (List.mem_cons_of_mem r hx))
      rw [filterRowsE, hr, hrest]
      by_cases hp : p r
      · rw [hp]
        simp [List.filter_cons, hp]
      · rw [Bool.not_eq_true] at hp
        rw [hp]
        simp [List.filter_cons, hp]

lemma filter_oid_nodup :
    ∀ (l : List PgTypeRow) (o : Nat),
      (l.map (fun r => r.oid)).Nodup → o ∈ l.map (fun r => r.oid) →
      ∃ r, r ∈ l ∧ r.oid = o ∧ l.filter (fun x => x.oid == o) = [r] := by
  intro l
  induction l with
  | nil => intro o _ h; simp at h
  | cons r rs ih =>
      intro o hnd hmem
      rw [List.map_cons, List.nodup_cons] at hnd
      by_cases ho : r.oid = o
      · refine ⟨r, List.mem_cons_self r rs, ho, ?_⟩
        have hnone : rs.filter (fun x => x.oid == o) = [] := by
          apply List.filter_eq_nil_iff.2
          intro x hx hxo
          apply hnd.1
          rw [List.mem_map]
          rw [beq_iff_eq] at hxo
          exact ⟨x, hx, by rw [hxo, ho]⟩
        have hbeq : (r.oid == o) = true := beq_iff_eq.2 ho
        simp [List.filter_cons, hbeq, hnone]
      · rw [List.mem_map] at hmem
        rcases hmem with ⟨x, hxmem, hxo⟩
        rcases List.mem_cons.1 hxmem with hx | hx
        · exact absurd (hx ▸ hxo) ho
        · rcases ih o hnd.2 (List.mem_map.2 ⟨x, hx, hxo⟩) with ⟨r', hr'⟩
          refine ⟨r', List.mem_cons_of_mem r hr'.1, hr'.2.1, ?_⟩
          have hbeq : (r.oid == o) = false := by
            rw [beq_eq_false_iff_ne]
            exact ho
          simp [List.filter_cons, hbeq, hr'.2.2]

lemma alias_oid_in_table {s : String} {o : Nat} (h : to_regtype s = some o) :
    o ∈ pgTypeTable.map (fun r => r.oid) := by
  have hmem := assocFind_mem h
  have hall : ∀ p ∈ typeNameAliases, p.2 ∈ pgTypeTable.map (fun r => r.oid) := by
    decide
  exact hall _ hmem

/-- C7: For every type-name argument s, a query filtering on
`to_regtype(s)` returns zero rows without error when s names no known
type, and exactly one row — the row carrying the canonical short type
name for the resolved OID — when s names a known type. -/
theorem to_regtype_query_correct (s : String) :
    ∃ rows, runCatalogQuery (regtypePred s) = Except.ok rows ∧
      (to_regtype s = none → rows = []) ∧
      (∀ o, to_regtype s = some o →
        ∃ r, r ∈ pgTypeTable ∧ r.oid = o ∧ rows = [r]) := by
  cases hreg : to_regtype s with
  | none =>
      refine ⟨[], ?_, fun _ => rfl, fun o ho => by simp at ho⟩
      have hpt : ∀ r ∈ pgTypeTable,
          evalCatExpr r (regtypePred s) = Except.ok (SqlVal.vbool false) := by
        intro r _
        simp [regtypePred, evalCatExpr, hreg, sqlEq]
      rw [runCatalogQuery, filterRowsE_pointwise _ (fun _ => false) _ hpt]
      simp
  | some o =>
      have hmem := alias_oid_in_table hreg
      have hnd : (pgTypeTable.map (fun r => r.oid)).Nodup := by decide
      rcases filter_oid_nodup pgTypeTable o hnd hmem with ⟨r, hrmem, hroid, hfilter⟩
      refine ⟨[r], ?_, fun hn => by simp at hn, fun o' ho' => ?_⟩
      · have hpt : ∀ x ∈ pgTypeTable,
            evalCatExpr x (regtypePred s) = Except.ok (SqlVal.vbool (x.oid == o)) := by
          intro x _
          simp [regtypePred, evalCatExpr, hreg, sqlEq]
        rw [runCatalogQuery, filterRowsE_pointwise _ (fun x => x.oid == o) _ hpt, hfilter]
      · have : o = o' := Option.some.inj ho'
        exact ⟨r, hrmem, this ▸ hroid, rfl⟩

lemma evalWhere_disjOfList (v : String) (l : List String) :
    evalWhere v (disjOfList l) = true ↔ v ∈ l := by
  induction l with
  | nil => simp [disjOfList, evalWhere]
  | cons x xs ih =>
      rw [disjOfList, List.foldr_cons]
      show evalWhere v (WhereExpr.orW (WhereExpr.eqLit x) (disjOfList xs)) = true ↔ _
      rw [evalWhere, Bool.or_eq_true, List.mem_cons]
      constructor
      · rintro (h | h)
        · left
          exact beq_iff_eq.1 h
        · right
          exact ih.1 h
      · rintro (h | h)
        · left
          exact beq_iff_eq.2 h
        · right
          exact ih.2 h

/-- C9: for every query predicate `expr = ANY(lit)` whose string literal
parses into elements, the translation succeeds and the translated
predicate keeps exactly the rows whose expression value equals some
element of the parsed array — not the rows whose value equals the whole
literal string. -/
theorem any_literal_translation_correct (lit : String) (elems : List String)
    (rows : List (Nat × String)) (h : parseJsonStringArray lit = some elems) :
    ∃ d, translateAnyLiteral lit = some d ∧
      rows.filter (fun r => evalWhere r.2 d) =
        rows.filter (fun r => elems.contains r.2) ∧
      (∀ v, evalWhere v d = true ↔ v ∈ elems) := by
  refine ⟨disjOfList elems, by rw [translateAnyLiteral, h]; rfl, ?_, fun v =>
    evalWhere_disjOfList v elems⟩
  apply List.filter_congr
  intro r _
  rw [Bool.eq_iff_iff, evalWhere_disjOfList]
  have hc : elems.contains r.2 = true ↔ r.2 ∈ elems := by simp
  exact hc.symm

/-- C9 witness: the SQLAlchemy-style literal from the exercise script,
over the script's rows (ids 1..4 with kinds r, v, t, p). -/
theorem any_literal_translation_correct_witness :
    ∃ d, translateAnyLiteral "[\"r\",\"p\",\"f\",\"v\",\"m\"]" = some d ∧
      ([(1, "r"), (2, "v"), (3, "t"), (4, "p")] : List (Nat × String)).filter
          (fun r => evalWhere r.2 d) =
        ([(1, "r"), (2, "v"), (3, "t"), (4, "p")] : List (Nat × String)).filter
          (fun r => (["r", "p", "f", "v", "m"] : List String).contains r.2) ∧
      (∀ v, evalWhere v d = true ↔ v ∈ (["r", "p", "f", "v", "m"] : List String)) :=
  any_literal_translation_correct "[\"r\",\"p\",\"f\",\"v\",\"m\"]"
    ["r", "p", "f", "v", "m"] [(1, "r"), (2, "v"), (3, "t"), (4, "p")] (by rfl)

/-- C7 witness: `to_regtype('hstore')` filters to zero rows without error,
and `to_regtype('integer')` filters to exactly one row, the canonical
`int4` row. -/
theorem to_regtype_query_correct_witness :
    (∃ rows, runCatalogQuery (regtypePred "integer") = Except.ok rows ∧
      (to_regtype "integer" = none → rows = []) ∧
      (∀ o, to_regtype "integer" = some o →
        ∃ r, r ∈ pgTypeTable ∧ r.oid = o ∧ rows = [r])) ∧
    runCatalogQuery (regtypePred "hstore") = Except.ok [] ∧
    runCatalogQuery (regtypePred "integer") =
      Except.ok [⟨"int4", 23, 1007, ","⟩] := by
  refine ⟨to_regtype_query_correct "integer", ?_, ?_⟩ <;> rfl

lemma serialNames_head (t c : String) (others : List ColDef)
    (cons : List TableConstraint)
    (hns : ∀ d ∈ others, d.isSerial = false ∧ d.inlinePk = false) :
    serialNamesOf ⟨t, ⟨c, "SERIAL", true, true, false⟩ :: others, cons⟩ = [c] := by
  have hfil : others.filter (fun d => d.isSerial) = [] := by
    apply List.filter_eq_nil_iff.2
    intro d hd
    simp [(hns d hd).1]
  simp [serialNamesOf, List.filter_cons, hfil]

/-- C8: a CREATE TABLE whose column list contains a SERIAL column together
with a separate explicit PRIMARY KEY constraint on that column translates
successfully with exactly one primary-key declaration (the two are merged),
and an INSERT into the created table that omits that column auto-generates
the id (value 1 for the first row). -/
theorem serial_pk_merge_correct (t c : String) (others : List ColDef)
    (cells : List (String × String))
    (hns : ∀ d ∈ others, d.isSerial = false ∧ d.inlinePk = false)
    (hc : assocFind c cells = none) :
    ∃ out, translateCreateTable
        ⟨t, ⟨c, "SERIAL", true, true, false⟩ :: others,
          [TableConstraint.primaryKey [c]]⟩ = Except.ok out ∧
      pkDeclCount out = 1 ∧
      ∃ db', applyInsert (applyCreate [] out) t cells = some (db', 1) ∧
        rowCellValue db' t 1 c = some "1" := by
  set stmt : CreateStmt :=
    ⟨t, ⟨c, "SERIAL", true, true, false⟩ :: others,
      [TableConstraint.primaryKey [c]]⟩ with hstmt
  have hsn : serialNamesOf stmt = [c] := serialNames_head t c others _ hns
  have hmerge : constraintMergeable (serialNamesOf stmt)
      (TableConstraint.primaryKey [c]) = true := by
    rw [hsn]
    simp [constraintMergeable]
  have hmn : mergedNamesOf stmt = [c] := by
    rw [mergedNamesOf]
    show (List.map _ (List.filter _ [TableConstraint.primaryKey [c]])).flatten = [c]
    rw [List.filter_cons]
    simp [hmerge]
  have hkept : keptConstraintCols (serialNamesOf stmt)
      stmt.constraints = [] := by
    show keptConstraintCols _ [TableConstraint.primaryKey [c]] = []
    rw [keptConstraintCols, List.filter_cons]
    simp [hmerge]
  have hcols : (buildSqliteCreate stmt).cols =
      translateColumn [c] ⟨c, "SERIAL", true, true, false⟩ ::
        others.map (translateColumn [c]) := by
    rw [buildSqliteCreate, hmn]
    rfl
  have hheadcol : translateColumn [c] ⟨c, "SERIAL", true, true, false⟩ =
      ⟨c, "INTEGER", true, true, true⟩ := by
    simp [translateColumn]
  have hrest : (others.map (translateColumn [c])).filter
      (fun col => col.pk) = [] := by
    apply List.filter_eq_nil_iff.2
    intro x hx
    rw [List.mem_map] at hx
    rcases hx with ⟨d, hd, hdx⟩
    rcases hns d hd with ⟨hd1, hd2⟩
    subst hdx
    simp [translateColumn, hd1, hd2]
  have hcount : pkDeclCount (buildSqliteCreate stmt) = 1 := by
    rw [pkDeclCount, hcols, hheadcol]
    show (List.filter _ (_ :: _)).length + (buildSqliteCreate stmt).pkConstraints.length = 1
    rw [List.filter_cons]
    have hpkc : (buildSqliteCreate stmt).pkConstraints = [] := by
      rw [buildSqliteCreate]
      exact hkept
    simp [hrest, hpkc]
  refine ⟨buildSqliteCreate stmt, ?_, hcount, ?_⟩
  · rw [translateCreateTable, if_pos (by rw [hcount])]
  · have hauto : autoColOf (buildSqliteCreate stmt) = some c := by
      rw [autoColOf, hcols, hheadcol]
      rw [List.find?_cons_of_pos _ (by rfl)]
      rfl
    have hcreate : applyCreate [] (buildSqliteCreate stmt) =
        [⟨t, some c, 1, []⟩] := by
      rw [applyCreate, hauto]
      rw [buildSqliteCreate]
      rfl
    rw [hcreate]
    have hfind : dbFindTable [(⟨t, some c, 1, []⟩ : Table)] t =
        some ⟨t, some c, 1, []⟩ := by
      rw [dbFindTable, if_pos rfl]
    rw [applyInsert, hfind]
    refine ⟨[⟨t, some c, 2, [⟨1, (c, toString 1) :: cells⟩]⟩], ?_, ?_⟩
    · simp [dbSetTable, fillAutoCol, hc]
    · rw [rowCellValue, dbFindTable, if_pos rfl]
      show (match List.find? (fun r => r.rowid == 1)
          [(⟨1, (c, toString 1) :: cells⟩ : Row)] with
        | none => none
        | some r => assocFind c r.cells) = some "1"
      rw [List.find?_cons_of_pos _ (by rfl)]
      show assocFind c ((c, toString 1) :: cells) = some "1"
      rw [assocFind, if_pos rfl]
      rfl

/-- C8 witness: the SQLAlchemy-generated shape from the exercise script —
`CREATE TABLE test_users (id SERIAL NOT NULL, username VARCHAR(50) NOT
NULL, PRIMARY KEY (id))`, then `INSERT ... (username) VALUES ('test')`. -/
theorem serial_pk_merge_correct_witness :
    ∃ out, translateCreateTable
        ⟨"test_users", ⟨"id", "SERIAL", true, true, false⟩ ::
          [⟨"username", "VARCHAR(50)", false, true, false⟩],
          [TableConstraint.primaryKey ["id"]]⟩ = Except.ok out ∧
      pkDeclCount out = 1 ∧
      ∃ db', applyInsert (applyCreate [] out) "test_users"
          [("username", "test")] = some (db', 1) ∧
        rowCellValue db' "test_users" 1 "id" = some "1" :=
  serial_pk_merge_correct "test_users" "id"
    [⟨"username", "VARCHAR(50)", false, true, false⟩] [("username", "test")]
    (by decide) (by decide)

lemma runTrace_append (l1 l2 : List Ev) (s : Sys) :
    runTrace (l1 ++ l2) s = runTrace l2 (runTrace l1 s) := by
  rw [runTrace, runTrace, runTrace, List.foldl_append]

lemma runTrace_cons (e : Ev) (l : List Ev) (s : Sys) :
    runTrace (e :: l) s = runTrace l (stepSys s e) := rfl

lemma runTrace_one (e : Ev) (s : Sys) : runTrace [e] s = stepSys s e := rfl

lemma stepSys_connect_eng (s : Sys) (sid : Nat) (sh : Bool) :
    (stepSys s (Ev.connect sid sh)).eng = s.eng := by
  rw [stepSys]
  by_cases h : isOpen s sid <;> simp [h]

lemma stepSys_connect_isOpen (s : Sys) (sid : Nat) (sh : Bool) :
    isOpen (stepSys s (Ev.connect sid sh)) sid = true := by
  rw [stepSys]
  by_cases h : isOpen s sid
  · rw [if_pos h]
    exact h
  · rw [if_neg h]
    rw [isOpen]
    simp [List.any_append]

lemma stepSys_exec_owner (s : Sys) (a : Nat) (w : Write)
    (hopen : isOpen s a = true) (howner : s.eng.txOwner = some a) :
    stepSys s (Ev.exec a w) =
      { s with eng := { s.eng with pending := applyWrite s.eng.pending w } } := by
  rw [stepSys, if_pos hopen, howner]
  simp

lemma stepSys_exec_fresh (s : Sys) (a : Nat) (w : Write)
    (hopen : isOpen s a = true) (hfree : s.eng.txOwner = none) :
    stepSys s (Ev.exec a w) =
      { s with eng := { s.eng with txOwner := some a, pending := applyWrite s.eng.committed w } } := by
  rw [stepSys, if_pos hopen, hfree]

lemma runTrace_execs_facts (a : Nat) (ws : List Write) :
    ∀ s : Sys, isOpen s a = true → s.eng.txOwner = some a →
      (runTrace (ws.map (Ev.exec a)) s).eng.committed = s.eng.committed ∧
      (runTrace (ws.map (Ev.exec a)) s).eng.txOwner = some a ∧
      (runTrace (ws.map (Ev.exec a)) s).eng.pending
          = applyWrites s.eng.pending ws ∧
      (runTrace (ws.map (Ev.exec a)) s).sessions = s.sessions := by
  induction ws with
  | nil =>
      intro s _ h2
      exact ⟨rfl, h2, rfl, rfl⟩
  | cons w ws ih =>
      intro s h1 h2
      have key := ih
        { s with eng := { s.eng with pending := applyWrite s.eng.pending w } }
        h1 h2
      rw [List.map_cons, runTrace_cons, stepSys_exec_owner s a w h1 h2]
      exact key

lemma stepSys_commit_of_owner (s : Sys) (a : Nat)
    (h : s.eng.txOwner = some a) :
    stepSys s (Ev.commitEv a) =
      { s with eng := { s.eng with committed := s.eng.pending, txOwner := none } } := by
  simp [stepSys, h]

lemma stepSys_commit_of_free (s : Sys) (a : Nat) (h : s.eng.txOwner = none) :
    stepSys s (Ev.commitEv a) = s := by
  simp [stepSys, h]

lemma stepSys_commit_facts (s : Sys) (a : Nat) (h : s.eng.txOwner = some a) :
    (stepSys s (Ev.commitEv a)).eng.committed = s.eng.pending ∧
    (stepSys s (Ev.commitEv a)).eng.txOwner = none := by
  rw [stepSys_commit_of_owner s a h]
  exact ⟨rfl, rfl⟩

lemma stepSys_disconnect_facts (s : Sys) (a : Nat) :
    (stepSys s (Ev.disconnect a)).eng.committed = s.eng.committed ∧
    (stepSys s (Ev.disconnect a)).eng.txOwner ≠ some a ∧
    (s.eng.txOwner = some a ∨ s.eng.txOwner = none →
      (stepSys s (Ev.disconnect a)).eng.txOwner = none) := by
  rw [stepSys]
  by_cases h : (s.eng.txOwner == some a) = true
  · rw [if_pos h]
    exact ⟨rfl, by simp, fun _ => rfl⟩
  · rw [if_neg h]
    refine ⟨rfl, ?_, fun hcase => ?_⟩
    · intro hc
      rw [hc] at h
      simp at h
    · rcases hcase with hc | hc
      · rw [hc] at h
        simp at h
      · exact hc

lemma sessionSelect_committed (s : Sys) (sid : Nat) (q : SelectQ)
    (h : s.eng.txOwner = none) :
    sessionSelect s sid q = runQuery s.eng.committed q := by
  rw [sessionSelect, h]
  simp

lemma runTrace_connect_execs (s0 : Sys) (a : Nat) (sha : Bool)
    (ws : List Write) (hfree : s0.eng.txOwner = none) :
    ((runTrace (Ev.connect a sha :: ws.map (Ev.exec a)) s0).eng.committed
        = s0.eng.committed) ∧
    (ws = [] →
      (runTrace (Ev.connect a sha :: ws.map (Ev.exec a)) s0).eng.txOwner
        = none) ∧
    (ws ≠ [] →
      (runTrace (Ev.connect a sha :: ws.map (Ev.exec a)) s0).eng.txOwner
          = some a ∧
      (runTrace (Ev.connect a sha :: ws.map (Ev.exec a)) s0).eng.pending
          = applyWrites s0.eng.committed ws) := by
  rw [runTrace_cons]
  have h1eng : (stepSys s0 (Ev.connect a sha)).eng = s0.eng :=
    stepSys_connect_eng s0 a sha
  have h1open : isOpen (stepSys s0 (Ev.connect a sha)) a = true :=
    stepSys_connect_isOpen s0 a sha
  have hfree1 : (stepSys s0 (Ev.connect a sha)).eng.txOwner = none := by
    rw [h1eng]
    exact hfree
  cases ws with
  | nil =>
      refine ⟨?_, fun _ => ?_, fun h => absurd rfl h⟩
      · exact congrArg Engine.committed h1eng
      · exact hfree1
  | cons w ws' =>
      rw [List.map_cons, runTrace_cons]
      have hopen2 : isOpen (stepSys (stepSys s0 (Ev.connect a sha))
          (Ev.exec a w)) a = true := by
        rw [stepSys_exec_fresh _ a w h1open hfree1]
        exact h1open
      have hown2 : (stepSys (stepSys s0 (Ev.connect a sha))
          (Ev.exec a w)).eng.txOwner = some a := by
        rw [stepSys_exec_fresh _ a w h1open hfree1]
      have hcom2 : (stepSys (stepSys s0 (Ev.connect a sha))
          (Ev.exec a w)).eng.committed = s0.eng.committed := by
        rw [stepSys_exec_fresh _ a w h1open hfree1]
        have hstep : (stepSys s0 (Ev.connect a sha)).eng.committed
            = s0.eng.committed := congrArg Engine.committed h1eng
        exact hstep
      have hpend2 : (stepSys (stepSys s0 (Ev.connect a sha))
          (Ev.exec a w)).eng.pending
          = applyWrite s0.eng.committed w := by
        rw [stepSys_exec_fresh _ a w h1open hfree1]
        have hstep : applyWrite (stepSys s0 (Ev.connect a sha)).eng.committed w
            = applyWrite s0.eng.committed w :=
          congrArg (fun e => applyWrite e.committed w) h1eng
        exact hstep
      obtain ⟨hc, ho, hp, _⟩ := runTrace_execs_facts a ws'
        (stepSys (stepSys s0 (Ev.connect a sha)) (Ev.exec a w)) hopen2 hown2
      refine ⟨hc.trans hcom2,
        ⟨fun hnil => absurd hnil (List.cons_ne_nil w ws'),
          fun _ => ⟨ho, ?_⟩⟩⟩
      rw [hp, hpend2]
      rfl

/-- C1: after session A connects, executes its writes and commits
successfully, every session B opened strictly after the commit observes
A's final committed values with its SELECT — for any prior system state
with no transaction in progress, any journal mode recorded in the engine,
and any handle-sharing flags of the two sessions. -/
theorem commit_visibility (s0 : Sys) (a b : Nat) (sha shb : Bool)
    (ws : List Write) (q : SelectQ) (hfree : s0.eng.txOwner = none) :
    sessionSelect
        (runTrace (sessionWritesTrace a sha ws ++ [Ev.connect b shb]) s0) b q
      = runQuery (applyWrites s0.eng.committed ws) q ∧
    (runTrace (sessionWritesTrace a sha ws ++ [Ev.connect b shb])
        s0).eng.committed = applyWrites s0.eng.committed ws ∧
    (ws ≠ [] →
      commitOk (runTrace (Ev.connect a sha :: ws.map (Ev.exec a)) s0) a
        = true) := by
  have htr : runTrace (sessionWritesTrace a sha ws ++ [Ev.connect b shb]) s0
      = stepSys (stepSys
          (runTrace (Ev.connect a sha :: ws.map (Ev.exec a)) s0)
          (Ev.commitEv a)) (Ev.connect b shb) := by
    rw [sessionWritesTrace, runTrace_append, runTrace_one, runTrace_cons,
      runTrace_append, runTrace_one, runTrace_cons]
  obtain ⟨hcom, hnil, hcons⟩ := runTrace_connect_execs s0 a sha ws hfree
  rw [htr]
  cases hws : ws with
  | nil =>
      subst hws
      have hown := hnil rfl
      rw [stepSys_commit_of_free _ a hown]
      have hengF := stepSys_connect_eng
        (runTrace (Ev.connect a sha :: List.map (Ev.exec a) []) s0) b shb
      have hownF : (stepSys
          (runTrace (Ev.connect a sha :: List.map (Ev.exec a) []) s0)
          (Ev.connect b shb)).eng.txOwner = none := by
        rw [hengF]
        exact hown
      refine ⟨?_, ?_, fun h => absurd rfl h⟩
      · rw [sessionSelect_committed _ b q hownF, hengF, hcom]
        rfl
      · rw [hengF, hcom]
        rfl
  | cons w ws' =>
      subst hws
      obtain ⟨hown, hpend⟩ := hcons (by simp)
      obtain ⟨hCcom, hCown⟩ := stepSys_commit_facts _ a hown
      have hengF := stepSys_connect_eng
        (stepSys (runTrace (Ev.connect a sha ::
          List.map (Ev.exec a) (w :: ws')) s0) (Ev.commitEv a)) b shb
      have hownF : (stepSys (stepSys
          (runTrace (Ev.connect a sha :: List.map (Ev.exec a) (w :: ws')) s0)
          (Ev.commitEv a)) (Ev.connect b shb)).eng.txOwner = none := by
        rw [hengF]
        exact hCown
      refine ⟨?_, ?_, fun _ => ?_⟩
      · rw [sessionSelect_committed _ b q hownF, hengF, hCcom, hpend]
      · rw [hengF, hCcom, hpend]
      · rw [commitOk, hown]
        simp

/-- C1 witness: the simple-visibility scenario — session 0 creates
`simple_test`, inserts (1, 'initial'), updates to 'updated', commits;
session 1, opened after the commit, selects the value for id 1 and sees
'updated'. -/
theorem commit_visibility_witness :
    (sessionSelect
        (runTrace (sessionWritesTrace 0 false
            [Write.createW ⟨"simple_test",
                [⟨"id", "INTEGER", false, false, false⟩,
                 ⟨"value", "TEXT", false, false, false⟩], []⟩,
             Write.insertW "simple_test" [("id", "1"), ("value", "initial")],
             Write.updateW "simple_test" "value" "updated" "id" "1"] ++
            [Ev.connect 1 true])
          ⟨⟨[], none, [], JournalMode.walJ⟩, []⟩) 1
        ⟨"simple_test", ["value"], some ("id", "1")⟩
      = runQuery (applyWrites
          (⟨⟨[], none, [], JournalMode.walJ⟩, []⟩ : Sys).eng.committed
          [Write.createW ⟨"simple_test",
              [⟨"id", "INTEGER", false, false, false⟩,
               ⟨"value", "TEXT", false, false, false⟩], []⟩,
           Write.insertW "simple_test" [("id", "1"), ("value", "initial")],
           Write.updateW "simple_test" "value" "updated" "id" "1"])
          ⟨"simple_test", ["value"], some ("id", "1")⟩) ∧
    runQuery (applyWrites ([] : Db)
        [Write.createW ⟨"simple_test",
            [⟨"id", "INTEGER", false, false, false⟩,
             ⟨"value", "TEXT", false, false, false⟩], []⟩,
         Write.insertW "simple_test" [("id", "1"), ("value", "initial")],
         Write.updateW "simple_test" "value" "updated" "id" "1"])
        ⟨"simple_test", ["value"], some ("id", "1")⟩
      = [[some "updated"]] :=
  ⟨commit_visibility ⟨⟨[], none, [], JournalMode.walJ⟩, []⟩ 0 1 false true
      [Write.createW ⟨"simple_test",
          [⟨"id", "INTEGER", false, false, false⟩,
           ⟨"value", "TEXT", false, false, false⟩], []⟩,
       Write.insertW "simple_test" [("id", "1"), ("value", "initial")],
       Write.updateW "simple_test" "value" "updated" "id" "1"]
      ⟨"simple_test", ["value"], some ("id", "1")⟩ rfl |>.1, by rfl⟩

/-- C6: a session that connects, executes writes in a transaction, and
disconnects without committing leaves the committed state exactly as of
the last successful commit; a session opened afterwards observes that
state with its SELECT. -/
theorem rollback_on_disconnect (s0 : Sys) (a b : Nat) (sha shb : Bool)
    (ws : List Write) (q : SelectQ) (hfree : s0.eng.txOwner = none) :
    sessionSelect
        (runTrace (sessionAbortTrace a sha ws ++ [Ev.connect b shb]) s0) b q
      = runQuery s0.eng.committed q ∧
    (runTrace (sessionAbortTrace a sha ws ++ [Ev.connect b shb])
        s0).eng.committed = s0.eng.committed := by
  have htr : runTrace (sessionAbortTrace a sha ws ++ [Ev.connect b shb]) s0
      = stepSys (stepSys
          (runTrace (Ev.connect a sha :: ws.map (Ev.exec a)) s0)
          (Ev.disconnect a)) (Ev.connect b shb) := by
    rw [sessionAbortTrace, runTrace_append, runTrace_one, runTrace_cons,
      runTrace_append, runTrace_one, runTrace_cons]
  obtain ⟨hcom, hnil, hcons⟩ := runTrace_connect_execs s0 a sha ws hfree
  rw [htr]
  have hSEown : (runTrace (Ev.connect a sha :: ws.map (Ev.exec a))
        s0).eng.txOwner = some a ∨
      (runTrace (Ev.connect a sha :: ws.map (Ev.exec a))
        s0).eng.txOwner = none := by
    cases ws with
    | nil => exact Or.inr (hnil rfl)
    | cons w ws' => exact Or.inl (hcons (List.cons_ne_nil w ws')).1
  obtain ⟨hDcom, _, hDnone⟩ := stepSys_disconnect_facts
    (runTrace (Ev.connect a sha :: ws.map (Ev.exec a)) s0) a
  have hDown := hDnone hSEown
  have hengF := stepSys_connect_eng
    (stepSys (runTrace (Ev.connect a sha :: ws.map (Ev.exec a)) s0)
      (Ev.disconnect a)) b shb
  have hownF : (stepSys (stepSys
      (runTrace (Ev.connect a sha :: ws.map (Ev.exec a)) s0)
      (Ev.disconnect a)) (Ev.connect b shb)).eng.txOwner = none := by
    rw [hengF]
    exact hDown
  refine ⟨?_, ?_⟩
  · rw [sessionSelect_committed _ b q hownF, hengF, hDcom, hcom]
  · rw [hengF, hDcom, hcom]

/-- C6 witness: the implicit-transaction scenario — the committed state
holds (1, 'updated') in `implicit_test`; session 0 updates the value to
'will_this_persist' without committing and disconnects; session 1 then
selects the value for id 1 and still sees 'updated'. -/
theorem rollback_on_disconnect_witness :
    (sessionSelect
        (runTrace (sessionAbortTrace 0 false
            [Write.updateW "implicit_test" "value" "will_this_persist"
              "id" "1"] ++ [Ev.connect 1 false])
          ⟨⟨[⟨"implicit_test", none, 2,
              [⟨1, [("value", "updated"), ("id", "1")]⟩]⟩], none,
            [⟨"implicit_test", none, 2,
              [⟨1, [("value", "updated"), ("id", "1")]⟩]⟩],
            JournalMode.deleteJ⟩, []⟩) 1
        ⟨"implicit_test", ["value"], some ("id", "1")⟩
      = runQuery
          (⟨⟨[⟨"implicit_test", none, 2,
              [⟨1, [("value", "updated"), ("id", "1")]⟩]⟩], none,
            [⟨"implicit_test", none, 2,
              [⟨1, [("value", "updated"), ("id", "1")]⟩]⟩],
            JournalMode.deleteJ⟩, []⟩ : Sys).eng.committed
          ⟨"implicit_test", ["value"], some ("id", "1")⟩) ∧
    runQuery
        ([⟨"implicit_test", none, 2,
          [⟨1, [("value", "updated"), ("id", "1")]⟩]⟩] : Db)
        ⟨"implicit_test", ["value"], some ("id", "1")⟩
      = [[some "updated"]] :=
  ⟨rollback_on_disconnect
      ⟨⟨[⟨"implicit_test", none, 2,
          [⟨1, [("value", "updated"), ("id", "1")]⟩]⟩], none,
        [⟨"implicit_test", none, 2,
          [⟨1, [("value", "updated"), ("id", "1")]⟩]⟩],
        JournalMode.deleteJ⟩, []⟩ 0 1 false false
      [Write.updateW "implicit_test" "value" "will_this_persist" "id" "1"]
      ⟨"implicit_test", ["value"], some ("id", "1")⟩ rfl |>.1, by rfl⟩

lemma name_eq_of_dbFindTable {db : Db} {t : String} {tbl : Table} :
    dbFindTable db t = some tbl → tbl.name = t := by
  induction db with
  | nil => intro h; simp [dbFindTable] at h
  | cons x xs ih =>
      intro h
      rw [dbFindTable] at h
      by_cases hx : x.name = t
      · rw [if_pos hx] at h
        injection h with hxe
        rw [← hxe]
        exact hx
      · rw [if_neg hx] at h
        exact ih h

lemma mem_of_dbFindTable {db : Db} {t : String} {tbl : Table} :
    dbFindTable db t = some tbl → tbl ∈ db := by
  induction db with
  | nil => intro h; simp [dbFindTable] at h
  | cons x xs ih =>
      intro h
      rw [dbFindTable] at h
      by_cases hx : x.name = t
      · rw [if_pos hx] at h
        injection h with hxe
        rw [hxe]
        exact List.mem_cons_self _ _
      · rw [if_neg hx] at h
        exact List.mem_cons_of_mem _ (ih h)

lemma dbFindTable_setTable {db : Db} {t : String} {tbl : Table}
    (h : dbFindTable db t = some tbl) (tbl' : Table)
    (hname : tbl'.name = tbl.name) :
    dbFindTable (dbSetTable db tbl') t = some tbl' := by
  induction db with
  | nil => simp [dbFindTable] at h
  | cons x xs ih =>
      rw [dbFindTable] at h
      rw [dbSetTable, List.map_cons]
      by_cases hx : x.name = t
      · rw [if_pos hx] at h
        injection h with hxe
        subst hxe
        rw [if_pos (by rw [beq_iff_eq, hname])]
        rw [dbFindTable, if_pos (by rw [hname]; exact hx)]
      · rw [if_neg hx] at h
        have htn : tbl.name = t := name_eq_of_dbFindTable h
        have hcond : (x.name == tbl'.name) = false := by
          rw [beq_eq_false_iff_ne, hname, htn]
          exact hx
        rw [if_neg (by rw [hcond]; exact Bool.false_ne_true)]
        rw [dbFindTable, if_neg hx]
        exact ih h

lemma rows_lt_of_wf {db : Db} {t : String} {tbl : Table}
    (hwf : wfDb db = true) (h : dbFindTable db t = some tbl) :
    ∀ r ∈ tbl.rows, r.rowid < tbl.nextRowid := by
  intro r hr
  rw [wfDb, List.all_eq_true] at hwf
  have htbl := hwf tbl (mem_of_dbFindTable h)
  rw [List.all_eq_true] at htbl
  simpa using htbl r hr

lemma filter_rowid_append (rows : List Row) (rid : Nat)
    (cells : List (String × String)) (hlt : ∀ r ∈ rows, r.rowid < rid) :
    (rows ++ [(⟨rid, cells⟩ : Row)]).filter (fun r => r.rowid == rid) =
      [(⟨rid, cells⟩ : Row)] := by
  rw [List.filter_append]
  have h1 : rows.filter (fun r => r.rowid == rid) = [] := by
    apply List.filter_eq_nil_iff.2
    intro r hr hbeq
    exact absurd (beq_iff_eq.1 hbeq) (Nat.ne_of_lt (hlt r hr))
  rw [h1]
  simp [List.filter_cons]

lemma selectByRowid_after_insert (db : Db) (ins : InsertStmt)
    (retCols : List String) (tbl : Table) (hwf : wfDb db = true)
    (hft : dbFindTable db ins.table = some tbl) :
    selectByRowid
        (dbSetTable db
          { tbl with
            rows := tbl.rows ++ [⟨tbl.nextRowid, fillAutoCol tbl ins.cells⟩],
            nextRowid := tbl.nextRowid + 1 })
        ins.table retCols tbl.nextRowid =
      [retCols.map (fun c => assocFind c (fillAutoCol tbl ins.cells))] := by
  have hset := dbFindTable_setTable hft
    { tbl with
      rows := tbl.rows ++ [⟨tbl.nextRowid, fillAutoCol tbl ins.cells⟩],
      nextRowid := tbl.nextRowid + 1 } rfl
  rw [selectByRowid, hset]
  show ((tbl.rows ++
      [(⟨tbl.nextRowid, fillAutoCol tbl ins.cells⟩ : Row)]).filter
        (fun r => r.rowid == tbl.nextRowid)).map
      (fun r => retCols.map (fun c => assocFind c r.cells)) =
    [retCols.map (fun c => assocFind c (fillAutoCol tbl ins.cells))]
  rw [filter_rowid_append tbl.rows tbl.nextRowid _
    (rows_lt_of_wf hwf hft)]
  rfl

lemma emulated_eq_native (db : Db) (ins : InsertStmt)
    (hwf : wfDb db = true) :
    emulatedInsertReturning db ins = nativeInsertReturning db ins := by
  have hstrip : (stripReturning ins).1.table = ins.table := rfl
  have hstripc : (stripReturning ins).1.cells = ins.cells := rfl
  have hstripr : (stripReturning ins).2 = ins.returning := rfl
  rw [emulatedInsertReturning, hstrip, hstripc, hstripr, applyInsert,
    nativeInsertReturning]
  cases hft : dbFindTable db ins.table with
  | none => rfl
  | some tbl =>
      cases hr : ins.returning with
      | none => rfl
      | some retCols =>
          exact congrArg (fun rs =>
            (some (dbSetTable db
              { tbl with
                rows := tbl.rows ++
                  [⟨tbl.nextRowid, fillAutoCol tbl ins.cells⟩],
                nextRowid := tbl.nextRowid + 1 }, rs) :
              Option (Db × List (List (Option String)))))
            (selectByRowid_after_insert db ins retCols tbl hwf hft)

lemma emulated_insert_single (db : Db) (ins : InsertStmt)
    (retCols : List String) (tbl : Table) (hwf : wfDb db = true)
    (hft : dbFindTable db ins.table = some tbl)
    (hret : ins.returning = some retCols) :
    emulatedInsertReturning db ins =
      some (dbSetTable db
        { tbl with
          rows := tbl.rows ++ [⟨tbl.nextRowid, fillAutoCol tbl ins.cells⟩],
          nextRowid := tbl.nextRowid + 1 },
        [retCols.map (fun c => assocFind c (fillAutoCol tbl ins.cells))]) := by
  rw [emulated_eq_native db ins hwf, nativeInsertReturning, hft, hret]

/-- C5: the RETURNING emulation (strip the clause, execute the base
statement, look up by last-inserted rowid) produces exactly the result a
native RETURNING would: the whole outcome coincides with the reference
semantics; with a RETURNING clause the emulation yields exactly one row
per inserted row, equal to the row a subsequent SELECT of the requested
columns keyed on the last-inserted rowid returns; for UPDATE the
follow-up lookup uses the original predicate. -/
theorem returning_emulation_correct (db : Db) (ins : InsertStmt)
    (hwf : wfDb db = true) :
    emulatedInsertReturning db ins = nativeInsertReturning db ins ∧
    (∀ retCols tbl, ins.returning = some retCols →
      dbFindTable db ins.table = some tbl →
      ∃ db' row, emulatedInsertReturning db ins = some (db', [row]) ∧
        row = retCols.map (fun c => assocFind c (fillAutoCol tbl ins.cells)) ∧
        selectByRowid db' ins.table retCols tbl.nextRowid = [row]) ∧
    (∀ t sc sv pred retCols,
      (emulatedUpdateReturning db t sc sv pred retCols).2 =
        runQuery (applyWrite db (Write.updateW t sc sv pred.1 pred.2))
          ⟨t, retCols, some pred⟩) := by
  refine ⟨emulated_eq_native db ins hwf, ?_,
    fun t sc sv pred retCols => rfl⟩
  intro retCols tbl hret hft
  exact ⟨_, _, emulated_insert_single db ins retCols tbl hwf hft hret, rfl,
    selectByRowid_after_insert db ins retCols tbl hwf hft⟩

/-- C5 witness: `INSERT INTO psycopg2_test (name) VALUES ('Test User')
RETURNING id` against a fresh table with auto-increment id: the emulation
returns exactly one row carrying id 1, matching the follow-up SELECT. -/
theorem returning_emulation_correct_witness :
    (emulatedInsertReturning [⟨"psycopg2_test", some "id", 1, []⟩]
        ⟨"psycopg2_test", [("name", "Test User")], some ["id"]⟩ =
      nativeInsertReturning [⟨"psycopg2_test", some "id", 1, []⟩]
        ⟨"psycopg2_test", [("name", "Test User")], some ["id"]⟩) ∧
    emulatedInsertReturning [⟨"psycopg2_test", some "id", 1, []⟩]
        ⟨"psycopg2_test", [("name", "Test User")], some ["id"]⟩ =
      some ([⟨"psycopg2_test", some "id", 2,
          [⟨1, [("id", "1"), ("name", "Test User")]⟩]⟩],
        [[some "1"]]) :=
  ⟨(returning_emulation_correct [⟨"psycopg2_test", some "id", 1, []⟩]
      ⟨"psycopg2_test", [("name", "Test User")], some ["id"]⟩
      (by decide)).1, by rfl⟩

lemma emulated_insert_none (db : Db) (ins : InsertStmt) (tbl : Table)
    (hwf : wfDb db = true) (hft : dbFindTable db ins.table = some tbl)
    (hret : ins.returning = none) :
    emulatedInsertReturning db ins =
      some (dbSetTable db
        { tbl with
          rows := tbl.rows ++ [⟨tbl.nextRowid, fillAutoCol tbl ins.cells⟩],
          nextRowid := tbl.nextRowid + 1 }, []) := by
  rw [emulated_eq_native db ins hwf, nativeInsertReturning, hft, hret]

/-- C10: an INSERT without RETURNING produces no RowDescription and no
DataRow — only the INSERT command completion with affected-row count 1 —
so a client fetch finds no row; the same INSERT with RETURNING produces
exactly one row description and exactly one data row, and the fetch
yields the inserted row. -/
theorem insert_message_shape (cat : Catalog) (db : Db) (ins : InsertStmt)
    (tbl : Table) (hwf : wfDb db = true)
    (hft : dbFindTable db ins.table = some tbl) :
    (ins.returning = none →
      (execSimpleInsert cat db ins).2 =
        [WireMsg.commandComplete "INSERT" 1] ∧
      rowDescsOf (execSimpleInsert cat db ins).2 = [] ∧
      dataRowsOf (execSimpleInsert cat db ins).2 = [] ∧
      fetchOneRow (execSimpleInsert cat db ins).2 = none) ∧
    (∀ retCols, ins.returning = some retCols →
      (rowDescsOf (execSimpleInsert cat db ins).2).length = 1 ∧
      (dataRowsOf (execSimpleInsert cat db ins).2).length = 1 ∧
      fetchOneRow (execSimpleInsert cat db ins).2 =
        some (retCols.map (fun c => assocFind c (fillAutoCol tbl ins.cells)))) := by
  constructor
  · intro hret
    have hemu := emulated_insert_none db ins tbl hwf hft hret
    refine ⟨?_, ?_, ?_, ?_⟩ <;> (rw [execSimpleInsert, hemu, hret]; try rfl)
  · intro retCols hret
    have hemu := emulated_insert_single db ins retCols tbl hwf hft hret
    refine ⟨?_, ?_, ?_⟩ <;> (rw [execSimpleInsert, hemu, hret]; try rfl)

/-- C10 witness: the psycopg2 exercise — the INSERT without RETURNING
yields only `CommandComplete INSERT 1` and the fetch fails; the INSERT
with `RETURNING id` yields one row description, one data row, and the
fetch returns id 1. -/
theorem insert_message_shape_witness :
    ((execSimpleInsert [] [⟨"psycopg2_test", some "id", 1, []⟩]
        ⟨"psycopg2_test", [("name", "Test User 2")], none⟩).2 =
        [WireMsg.commandComplete "INSERT" 1] ∧
      rowDescsOf (execSimpleInsert [] [⟨"psycopg2_test", some "id", 1, []⟩]
        ⟨"psycopg2_test", [("name", "Test User 2")], none⟩).2 = [] ∧
      dataRowsOf (execSimpleInsert [] [⟨"psycopg2_test", some "id", 1, []⟩]
        ⟨"psycopg2_test", [("name", "Test User 2")], none⟩).2 = [] ∧
      fetchOneRow (execSimpleInsert [] [⟨"psycopg2_test", some "id", 1, []⟩]
        ⟨"psycopg2_test", [("name", "Test User 2")], none⟩).2 = none) ∧
    ((rowDescsOf (execSimpleInsert [] [⟨"psycopg2_test", some "id", 1, []⟩]
        ⟨"psycopg2_test", [("name", "Test User")], some ["id"]⟩).2).length
        = 1 ∧
      (dataRowsOf (execSimpleInsert [] [⟨"psycopg2_test", some "id", 1, []⟩]
        ⟨"psycopg2_test", [("name", "Test User")], some ["id"]⟩).2).length
        = 1 ∧
      fetchOneRow (execSimpleInsert [] [⟨"psycopg2_test", some "id", 1, []⟩]
        ⟨"psycopg2_test", [("name", "Test User")], some ["id"]⟩).2 =
        some (["id"].map (fun c => assocFind c
          (fillAutoCol ⟨"psycopg2_test", some "id", 1, []⟩
            [("name", "Test User")])))) :=
  ⟨(insert_message_shape [] [⟨"psycopg2_test", some "id", 1, []⟩]
      ⟨"psycopg2_test", [("name", "Test User 2")], none⟩
      ⟨"psycopg2_test", some "id", 1, []⟩ (by decide) (by rfl)).1 rfl,
    (insert_message_shape [] [⟨"psycopg2_test", some "id", 1, []⟩]
      ⟨"psycopg2_test", [("name", "Test User")], some ["id"]⟩
      ⟨"psycopg2_test", some "id", 1, []⟩ (by decide) (by rfl)).2
      ["id"] rfl⟩

lemma rowDescsOf_append (l1 l2 : List WireMsg) :
    rowDescsOf (l1 ++ l2) = rowDescsOf l1 ++ rowDescsOf l2 := by
  induction l1 with
  | nil => rfl
  | cons m rest ih => cases m <;> simp [rowDescsOf, ih]

lemma rowDescsOf_dataRows (rows : List (List (Option String))) :
    rowDescsOf (rows.map WireMsg.dataRow) = [] := by
  induction rows with
  | nil => rfl
  | cons r rest ih => simp [rowDescsOf, ih]

lemma extendedCycle_rowDescs (cat : Catalog) (q : SelectStmt)
    (oids : List Nat) (db0 : Db) (params0 : List String) :
    rowDescsOf (extendedCycle cat db0 q oids params0) =
      [describeSelect cat q] := by
  show rowDescsOf
      (WireMsg.parseComplete ::
        WireMsg.paramDescription oids ::
        WireMsg.rowDescription (describeSelect cat q) ::
        WireMsg.bindComplete ::
        (((execSelect db0 q params0).map WireMsg.dataRow ++
          [WireMsg.commandComplete "SELECT"
            (execSelect db0 q params0).length]) ++
          ([WireMsg.readyForQuery] ++ []))) = [describeSelect cat q]
  simp [rowDescsOf, rowDescsOf_append, rowDescsOf_dataRows]

/-- C3: in the extended protocol, a Parse/Describe/Bind/Execute/Sync
cycle sends exactly one RowDescription — the one Describe computed; the
Execute never re-sends it; and the description (hence every reported
column type OID) is the same for every database state and every bound
parameter list, in particular whether the result set is empty or not. -/
theorem describe_execute_single_rowdesc (cat : Catalog) (db : Db)
    (q : SelectStmt) (oids : List Nat) (params : List String) :
    rowDescsOf (extendedCycle cat db q oids params) =
      [describeSelect cat q] ∧
    (rowDescsOf (extendedCycle cat db q oids params)).length = 1 ∧
    (∀ db' params', rowDescsOf (extendedCycle cat db q oids params) =
      rowDescsOf (extendedCycle cat db' q oids params')) :=
  ⟨extendedCycle_rowDescs cat q oids db params,
    by rw [extendedCycle_rowDescs cat q oids db params]; rfl,
    fun db' params' => by
      rw [extendedCycle_rowDescs cat q oids db params,
        extendedCycle_rowDescs cat q oids db' params']⟩

lemma mappingFind_append_none (t c : String) (l1 l2 : Catalog)
    (h : mappingFind t c l1 = none) :
    mappingFind t c (l1 ++ l2) = mappingFind t c l2 := by
  induction l1 with
  | nil => rfl
  | cons p rest ih =>
      obtain ⟨⟨t', c'⟩, dd⟩ := p
      rw [mappingFind] at h
      rw [List.cons_append, mappingFind]
      by_cases hcond : t = t' ∧ c = c'
      · rw [if_pos hcond] at h
        cases h
      · rw [if_neg hcond] at h
        rw [if_neg hcond]
        exact ih h

lemma mappingFind_register_cols (tname c : String) (cols : List ColDef)
    (d : ColDef) (hmem : d ∈ cols) (hname : d.name = c)
    (hfirst : ∀ e ∈ cols, e.name = c → e = d) :
    mappingFind tname c
        (cols.map (fun e => ((tname, e.name), parseTypeDecl e.ty))) =
      some (parseTypeDecl d.ty) := by
  induction cols with
  | nil => cases hmem
  | cons e rest ih =>
      rw [List.map_cons, mappingFind]
      by_cases hn : e.name = c
      · have hed : e = d := hfirst e (List.mem_cons_self e rest) hn
        rw [if_pos ⟨rfl, hn.symm⟩, hed]
      · rw [if_neg (fun hcontra => hn hcontra.2.symm)]
        have hmem' : d ∈ rest := by
          rcases List.mem_cons.1 hmem with he | hr
          · exact absurd (he ▸ hname) hn
          · exact hr
        exact ih hmem'
          (fun e' he' hn' => hfirst e' (List.mem_cons_of_mem _ he') hn')

/-- C4: a column declared NUMERIC(10,2) through a translated CREATE TABLE
is reported with type OID 1700 in every SELECT description that resolves
to it — including alias-qualified references — for every database state
and parameter list (empty or non-empty result sets alike); and in
general the fallback never overrides an existing ColumnTypeMapping. -/
theorem numeric_column_reports_1700 (cat0 : Catalog) (cs : CreateStmt)
    (d : ColDef) (hmem : d ∈ cs.cols) (hty : d.ty = "NUMERIC(10,2)")
    (hfirst : ∀ e ∈ cs.cols, e.name = d.name → e = d)
    (h0 : mappingFind cs.table d.name cat0 = none)
    (q : SelectStmt) (qual : Option String)
    (hqual : resolveTableOf q qual = some cs.table) :
    resolveOid (registerMappings cat0 cs) q (SelExpr.colRef qual d.name)
        = 1700 ∧
    (∀ db params db' params',
      rowDescriptionFor (registerMappings cat0 cs) q db params =
        rowDescriptionFor (registerMappings cat0 cs) q db' params') ∧
    (∀ (cat : Catalog) (stmt : SelectStmt) (qu : Option String)
        (col t' : String) (dd : PgTypeDecl),
      resolveTableOf stmt qu = some t' → mappingFind t' col cat = some dd →
      resolveOid cat stmt (SelExpr.colRef qu col) = oidOfDecl dd) := by
  have hreg : mappingFind cs.table d.name (registerMappings cat0 cs) =
      some (parseTypeDecl d.ty) := by
    rw [registerMappings, mappingFind_append_none _ _ _ _ h0]
    exact mappingFind_register_cols cs.table d.name cs.cols d hmem rfl hfirst
  refine ⟨?_, fun db params db' params' => rfl, ?_⟩
  · rw [resolveOid, hqual]
    show (match mappingFind cs.table d.name (registerMappings cat0 cs) with
      | some dd => oidOfDecl dd
      | none => fallbackOid) = 1700
    rw [hreg, hty]
    rfl
  · intro cat stmt qu col t' dd h1 h2
    rw [resolveOid, h1]
    show (match mappingFind t' col cat with
      | some x => oidOfDecl x
      | none => fallbackOid) = oidOfDecl dd
    rw [h2]

/-- C4 witness: `CREATE TABLE orders (id SERIAL, total_amount
NUMERIC(10,2))` then the alias-qualified parameterized SELECT of
`o.total_amount`: the description reports OID 1700. -/
theorem numeric_column_reports_1700_witness :
    resolveOid
        (registerMappings []
          ⟨"orders",
            [⟨"id", "SERIAL", true, true, false⟩,
             ⟨"total_amount", "NUMERIC(10,2)", false, false, false⟩], []⟩)
        ⟨"orders", some "o",
          [(SelExpr.colRef (some "o") "total_amount",
            "orders_total_amount")], some "customer_id"⟩
        (SelExpr.colRef (some "o") "total_amount") = 1700 :=
  (numeric_column_reports_1700 []
    ⟨"orders",
      [⟨"id", "SERIAL", true, true, false⟩,
       ⟨"total_amount", "NUMERIC(10,2)", false, false, false⟩], []⟩
    ⟨"total_amount", "NUMERIC(10,2)", false, false, false⟩
    (by decide) rfl (by decide) rfl
    ⟨"orders", some "o",
      [(SelExpr.colRef (some "o") "total_amount",
        "orders_total_amount")], some "customer_id"⟩
    (some "o") (by decide)).1

lemma length_natToBytesBE (w n : Nat) : (natToBytesBE w n).length = w := by
  induction w generalizing n with
  | zero => rfl
  | succ w ih => simp [natToBytesBE, ih]

lemma bytesToNatBE_append_single (bs : List Nat) (b : Nat) :
    bytesToNatBE (bs ++ [b]) = bytesToNatBE bs * 256 + b := by
  rw [bytesToNatBE, bytesToNatBE, List.foldl_append]
  rfl

lemma bytesToNatBE_natToBytesBE (w : Nat) :
    ∀ n : Nat, n < 256 ^ w → bytesToNatBE (natToBytesBE w n) = n := by
  induction w with
  | zero =>
      intro n h
      interval_cases n
      rfl
  | succ w ih =>
      intro n h
      rw [natToBytesBE, bytesToNatBE_append_single]
      have hdiv : n / 256 < 256 ^ w := by
        rw [Nat.div_lt_iff_lt_mul (by norm_num : (0:Nat) < 256)]
        calc n < 256 ^ (w + 1) := h
        _ = 256 ^ w * 256 := by rw [pow_succ]
      rw [ih (n / 256) hdiv]
      omega

lemma readBytes_exact {w : Nat} {l : List Nat} (rest : List Nat)
    (h : l.length = w) : readBytes w (l ++ rest) = some (l, rest) := by
  rw [readBytes, if_pos (by rw [List.length_append]; omega)]
  rw [List.take_left' h, List.drop_left' h]

lemma natToBytesBE_lt (w n : Nat) : ∀ b ∈ natToBytesBE w n, b < 256 := by
  induction w generalizing n with
  | zero => intro b hb; cases hb
  | succ w ih =>
      intro b hb
      rw [natToBytesBE] at hb
      rcases List.mem_append.1 hb with h1 | h1
      · exact ih (n / 256) b h1
      · rcases List.mem_singleton.1 h1 with rfl
        exact Nat.mod_lt _ (by norm_num)

lemma bytesToIntBE_intToBytesBE (w : Nat) (hw : 0 < w) (i : Int)
    (h1 : -(((256 ^ w / 2 : Nat)) : Int) ≤ i)
    (h2 : i < ((256 ^ w / 2 : Nat) : Int)) :
    bytesToIntBE w (intToBytesBE w i) = i := by
  have hM0 : (0:Nat) < 256 ^ w := Nat.pos_pow_of_pos w (by norm_num)
  have hMeven : 256 ^ w / 2 * 2 = 256 ^ w := by
    apply Nat.div_mul_cancel
    exact dvd_pow (by norm_num) (Nat.pos_iff_ne_zero.1 hw)
  have hMZ : ((256 ^ w : Nat) : Int) > 0 := by exact_mod_cast hM0
  have hmod_nonneg : 0 ≤ i % ((256 ^ w : Nat) : Int) :=
    Int.emod_nonneg i (by omega)
  have hmod_lt : i % ((256 ^ w : Nat) : Int) < ((256 ^ w : Nat) : Int) :=
    Int.emod_lt_of_pos i hMZ
  have htoNat : ((i % ((256 ^ w : Nat) : Int)).toNat : Int) =
      i % ((256 ^ w : Nat) : Int) := Int.toNat_of_nonneg hmod_nonneg
  have hlt : (i % ((256 ^ w : Nat) : Int)).toNat < 256 ^ w := by
    omega
  rw [bytesToIntBE, intToBytesBE, bytesToNatBE_natToBytesBE w _ hlt]
  by_cases hpos : 0 ≤ i
  · have hiM : i < ((256 ^ w : Nat) : Int) := by
      have : ((256 ^ w / 2 : Nat) : Int) ≤ ((256 ^ w : Nat) : Int) := by
        exact_mod_cast Nat.div_le_self _ _
      omega
    have hmod : i % ((256 ^ w : Nat) : Int) = i := Int.emod_eq_of_lt hpos hiM
    rw [hmod] at htoNat ⊢
    have hcond : i.toNat < 256 ^ w / 2 := by omega
    rw [if_pos hcond]
    omega
  · have hmod : i % ((256 ^ w : Nat) : Int) = i + ((256 ^ w : Nat) : Int) := by
      have heq : (i + ((256 ^ w : Nat) : Int)) % ((256 ^ w : Nat) : Int) =
          i % ((256 ^ w : Nat) : Int) := by
        rw [show i + ((256 ^ w : Nat) : Int) =
          i + ((256 ^ w : Nat) : Int) * 1 by ring, Int.add_mul_emod_self_left]
      have hin : 0 ≤ i + ((256 ^ w : Nat) : Int) := by
        have : (((256 ^ w / 2 : Nat)) : Int) ≤ ((256 ^ w : Nat) : Int) := by
          exact_mod_cast Nat.div_le_self _ _
        omega
      have hin2 : i + ((256 ^ w : Nat) : Int) < ((256 ^ w : Nat) : Int) := by
        omega
      rw [← heq]
      exact Int.emod_eq_of_lt hin hin2
    rw [hmod] at htoNat ⊢
    have hcond : ¬ ((i + ((256 ^ w : Nat) : Int)).toNat < 256 ^ w / 2) := by
      have hhalf : (((256 ^ w / 2 : Nat)) : Int) * 2 = ((256 ^ w : Nat) : Int) := by
        exact_mod_cast hMeven
      omega
    rw [if_neg hcond]
    omega

lemma decDigitVal_add (d : Nat) (h : d < 10) :
    decDigitVal (d + 48) = some d := by
  rw [decDigitVal, if_pos (by omega)]
  simp

lemma parseDigitsAux_map (l : List Nat) (h : ∀ d ∈ l, d < 10) :
    parseDigitsAux (l.map (fun d => d + 48)) = some l := by
  induction l with
  | nil => rfl
  | cons d rest ih =>
      rw [List.map_cons, parseDigitsAux,
        decDigitVal_add d (h d (List.mem_cons_self d rest)),
        ih (fun x hx => h x (List.mem_cons_of_mem d hx))]

lemma natDecBytes_ne_nil (n : Nat) : natDecBytes n ≠ [] := by
  rw [natDecBytes]
  by_cases h : n = 0
  · simp [h]
  · rw [if_neg h]
    simp [Nat.digits_ne_nil_iff_ne_zero.2 h]

lemma natDecBytes_mem (n : Nat) : ∀ c ∈ natDecBytes n, 48 ≤ c ∧ c ≤ 57 := by
  rw [natDecBytes]
  by_cases h : n = 0
  · simp [h]
  · rw [if_neg h]
    intro c hc
    rw [List.mem_map] at hc
    rcases hc with ⟨d, hd, rfl⟩
    have := Nat.digits_lt_base (by norm_num) (List.mem_reverse.1 hd)
    omega

lemma parseNatBytes_natDecBytes (n : Nat) :
    parseNatBytes (natDecBytes n) = some n := by
  by_cases h : n = 0
  · subst h
    rfl
  · rw [natDecBytes, if_neg h]
    have hne : (Nat.digits 10 n).reverse.map (fun d => d + 48) ≠ [] := by
      simp [Nat.digits_ne_nil_iff_ne_zero.2 h]
    rw [parseNatBytes, if_neg hne]
    rw [parseDigitsAux_map _ (fun d hd =>
      Nat.digits_lt_base (by norm_num) (List.mem_reverse.1 hd))]
    show some (Nat.ofDigits 10 (Nat.digits 10 n).reverse.reverse) = some n
    rw [List.reverse_reverse, Nat.ofDigits_digits]

lemma parseIntBytes_intDecBytes (i : Int) :
    parseIntBytes (intDecBytes i) = some i := by
  by_cases h : i < 0
  · rw [intDecBytes, if_pos h, parseIntBytes, if_pos rfl,
      parseNatBytes_natDecBytes]
    show some (-((i.natAbs : Nat) : Int)) = some i
    rw [Int.ofNat_natAbs_of_nonpos (le_of_lt h), neg_neg]
  · rw [intDecBytes, if_neg h]
    cases hcs : natDecBytes i.toNat with
    | nil => exact absurd hcs (natDecBytes_ne_nil _)
    | cons c rest =>
        have hc : 48 ≤ c ∧ c ≤ 57 := by
          apply natDecBytes_mem i.toNat
          rw [hcs]
          exact List.mem_cons_self _ _
        rw [parseIntBytes, if_neg (by omega), ← hcs,
          parseNatBytes_natDecBytes]
        show some ((i.toNat : Int)) = some i
        rw [Int.toNat_of_nonneg (not_lt.1 h)]

lemma hexVal_hexDigitChar (d : Nat) (h : d < 16) :
    hexVal (hexDigitChar d) = some d := by
  rw [hexDigitChar]
  by_cases h10 : d < 10
  · rw [if_pos h10, hexVal, if_pos (by omega)]
    congr 1
    omega
  · rw [if_neg h10, hexVal, if_neg (by omega), if_pos (by omega)]
    congr 1
    omega

lemma hexDigitChar_range (d : Nat) :
    (48 ≤ hexDigitChar d ∧ hexDigitChar d ≤ 57) ∨
    (97 ≤ hexDigitChar d ∧ hexDigitChar d ≤ 102 + d) := by
  rw [hexDigitChar]
  by_cases h : d < 10
  · rw [if_pos h]
    left
    omega
  · rw [if_neg h]
    right
    omega

lemma hexPairs_mem (bs : List Nat) (hbs : ∀ b ∈ bs, b < 256) :
    ∀ c ∈ hexPairs bs, (48 ≤ c ∧ c ≤ 57) ∨ (97 ≤ c ∧ c ≤ 102) := by
  induction bs with
  | nil => intro c hc; cases hc
  | cons b rest ih =>
      intro c hc
      have hb : b < 256 := hbs b (List.mem_cons_self b rest)
      rw [hexPairs] at hc
      rcases List.mem_cons.1 hc with rfl | hc2
      · have h16 : b / 16 < 16 := by omega
        rw [hexDigitChar]
        by_cases h : b / 16 < 10
        · rw [if_pos h]; left; omega
        · rw [if_neg h]; right; omega
      · rcases List.mem_cons.1 hc2 with rfl | hc3
        · have h16 : b % 16 < 16 := Nat.mod_lt _ (by norm_num)
          rw [hexDigitChar]
          by_cases h : b % 16 < 10
          · rw [if_pos h]; left; omega
          · rw [if_neg h]; right; omega
        · exact ih (fun x hx => hbs x (List.mem_cons_of_mem b hx)) c hc3

lemma unhexPairs_hexPairs (bs : List Nat) (hbs : ∀ b ∈ bs, b < 256) :
    unhexPairs (hexPairs bs) = some bs := by
  induction bs with
  | nil => rfl
  | cons b rest ih =>
      have hb : b < 256 := hbs b (List.mem_cons_self b rest)
      rw [hexPairs, unhexPairs,
        hexVal_hexDigitChar (b / 16) (by omega),
        hexVal_hexDigitChar (b % 16) (Nat.mod_lt _ (by norm_num)),
        ih (fun x hx => hbs x (List.mem_cons_of_mem b hx))]
      show some ((16 * (b / 16) + b % 16) :: rest) = some (b :: rest)
      have hb16 : 16 * (b / 16) + b % 16 = b := by omega
      rw [hb16]

lemma length_hexPairs (bs : List Nat) :
    (hexPairs bs).length = 2 * bs.length := by
  induction bs with
  | nil => rfl
  | cons b rest ih => simp [hexPairs, ih]; omega

lemma splitSep_not_mem (sep : Nat) (a : List Nat) (h : sep ∉ a) :
    splitSep sep a = [a] := by
  induction a with
  | nil => rfl
  | cons c rest ih =>
      rw [splitSep, if_neg (fun hc => h (by
          rw [← hc]
          exact List.mem_cons_self c rest)),
        ih (fun hm => h (List.mem_cons_of_mem c hm))]

lemma splitSep_append (sep : Nat) (a b : List Nat) (h : sep ∉ a) :
    splitSep sep (a ++ sep :: b) = a :: splitSep sep b := by
  induction a with
  | nil =>
      rw [List.nil_append, splitSep, if_pos rfl]
  | cons c rest ih =>
      rw [List.cons_append, splitSep,
        if_neg (fun hc => h (by
          rw [← hc]
          exact List.mem_cons_self c rest)),
        ih (fun hm => h (List.mem_cons_of_mem c hm))]

lemma splitSep_joinSep (sep : Nat) (parts : List (List Nat))
    (hne : parts ≠ []) (hfree : ∀ p ∈ parts, sep ∉ p) :
    splitSep sep (joinSep sep parts) = parts := by
  induction parts with
  | nil => exact absurd rfl hne
  | cons p ps ih =>
      cases ps with
      | nil =>
          rw [joinSep, splitSep_not_mem sep p
            (hfree p (List.mem_cons_self p []))]
      | cons q qs =>
          have hrec := ih (List.cons_ne_nil q qs)
            (fun x hx => hfree x (List.mem_cons_of_mem p hx))
          rw [joinSep, splitSep_append sep p _
            (hfree p (List.mem_cons_self p _)), hrec]

lemma parseAllNat_decs (bs : List Nat) :
    parseAllNat (bs.map natDecBytes) = some bs := by
  induction bs with
  | nil => rfl
  | cons b rest ih =>
      rw [List.map_cons, parseAllNat, parseNatBytes_natDecBytes, ih]

lemma length_intToBytesBE (w : Nat) (i : Int) :
    (intToBytesBE w i).length = w := by
  rw [intToBytesBE, length_natToBytesBE]

lemma intFits_roundtrip {w : Nat} (hw : 0 < w) {i : Int}
    (h : intFits w i = true) : bytesToIntBE w (intToBytesBE w i) = i := by
  rw [intFits, Bool.and_eq_true, decide_eq_true_eq, decide_eq_true_eq] at h
  exact bytesToIntBE_intToBytesBE w hw i h.1 h.2

lemma readGroups_encode :
    ∀ gs : List Nat, (∀ g ∈ gs, g < 65536) →
      readGroups gs.length ((gs.map (natToBytesBE 2)).flatten) = some gs := by
  intro gs
  induction gs with
  | nil => intro _; rfl
  | cons g rest ih =>
      intro h
      rw [List.map_cons, List.flatten_cons, List.length_cons, readGroups,
        readBytes_exact _ (length_natToBytesBE 2 g)]
      show (match readGroups rest.length
          ((rest.map (natToBytesBE 2)).flatten) with
        | some gs => some (bytesToNatBE (natToBytesBE 2 g) :: gs)
        | none => none) = some (g :: rest)
      rw [ih (fun x hx => h x (List.mem_cons_of_mem g hx)),
        bytesToNatBE_natToBytesBE 2 g
          (by exact_mod_cast h g (List.mem_cons_self g rest))]

lemma numericGroups_lt (m : Nat) : ∀ g ∈ numericGroups m, g < 65536 := by
  intro g hg
  have := Nat.digits_lt_base (by norm_num : (1:Nat) < 10000)
    (List.mem_reverse.1 hg)
  omega

lemma decodeScalarBin_roundtrip (v : PgScalar) (h : wfScalar v = true) :
    decodeScalarBin (scalarTag v) (encodeScalarBin v) = some v := by
  cases v with
  | vint2 i =>
      show decodeScalarBin PgTag.tInt2 (intToBytesBE 2 i) = _
      rw [decodeScalarBin, if_pos (length_intToBytesBE 2 i),
        intFits_roundtrip (by norm_num) h]
  | vint4 i =>
      show decodeScalarBin PgTag.tInt4 (intToBytesBE 4 i) = _
      rw [decodeScalarBin, if_pos (length_intToBytesBE 4 i),
        intFits_roundtrip (by norm_num) h]
  | vint8 i =>
      show decodeScalarBin PgTag.tInt8 (intToBytesBE 8 i) = _
      rw [decodeScalarBin, if_pos (length_intToBytesBE 8 i),
        intFits_roundtrip (by norm_num) h]
  | vfloat4 b =>
      show decodeScalarBin PgTag.tFloat4 (natToBytesBE 4 b) = _
      rw [decodeScalarBin, if_pos (length_natToBytesBE 4 b),
        bytesToNatBE_natToBytesBE 4 b (by
          rw [wfScalar, decide_eq_true_eq] at h
          exact h)]
  | vfloat8 b =>
      show decodeScalarBin PgTag.tFloat8 (natToBytesBE 8 b) = _
      rw [decodeScalarBin, if_pos (length_natToBytesBE 8 b),
        bytesToNatBE_natToBytesBE 8 b (by
          rw [wfScalar, decide_eq_true_eq] at h
          exact h)]
  | vnumeric neg m scale =>
      rw [wfScalar, Bool.and_eq_true, decide_eq_true_eq,
        decide_eq_true_eq] at h
      have hlen : (numericGroups m).length < 256 ^ 2 := by
        have : (numericGroups m).length = (Nat.digits 10000 m).length := by
          rw [numericGroups, List.length_reverse]
        omega
      have hm : Nat.ofDigits 10000 (numericGroups m).reverse = m := by
        rw [numericGroups, List.reverse_reverse, Nat.ofDigits_digits]
      show decodeNumericBin
        (natToBytesBE 2 (numericGroups m).length ++
          (natToBytesBE 2 (numericGroups m).length ++
            (natToBytesBE 2 (if neg then 16384 else 0) ++
              (natToBytesBE 2 scale ++
                ((numericGroups m).map (natToBytesBE 2)).flatten)))) = _
      rw [decodeNumericBin, readBytes_exact _ (length_natToBytesBE 2 _)]
      show decodeNumericWeight (bytesToNatBE (natToBytesBE 2
          (numericGroups m).length))
        (natToBytesBE 2 (numericGroups m).length ++
          (natToBytesBE 2 (if neg then 16384 else 0) ++
            (natToBytesBE 2 scale ++
              ((numericGroups m).map (natToBytesBE 2)).flatten))) = _
      rw [bytesToNatBE_natToBytesBE 2 _ hlen, decodeNumericWeight,
        readBytes_exact _ (length_natToBytesBE 2 _)]
      show decodeNumericSign (numericGroups m).length
        (natToBytesBE 2 (if neg then 16384 else 0) ++
          (natToBytesBE 2 scale ++
            ((numericGroups m).map (natToBytesBE 2)).flatten)) = _
      rw [decodeNumericSign, readBytes_exact _ (length_natToBytesBE 2 _)]
      show decodeNumericScale (numericGroups m).length
        (bytesToNatBE (natToBytesBE 2 (if neg then 16384 else 0)) == 16384)
        (natToBytesBE 2 scale ++
          ((numericGroups m).map (natToBytesBE 2)).flatten) = _
      have hsign : (bytesToNatBE (natToBytesBE 2
          (if neg then 16384 else 0)) == 16384) = neg := by
        cases neg with
        | true =>
            rw [if_pos rfl, bytesToNatBE_natToBytesBE 2 16384 (by norm_num)]
            rfl
        | false =>
            rw [if_neg (by simp), bytesToNatBE_natToBytesBE 2 0 (by norm_num)]
            rfl
      rw [hsign, decodeNumericScale, readBytes_exact _ (length_natToBytesBE 2 _)]
      show (match readGroups (numericGroups m).length
          (((numericGroups m).map (natToBytesBE 2)).flatten) with
        | some gs =>
            some (PgScalar.vnumeric neg (Nat.ofDigits 10000 gs.reverse)
              (bytesToNatBE (natToBytesBE 2 scale)))
        | none => none) = _
      rw [readGroups_encode _ (numericGroups_lt m),
        bytesToNatBE_natToBytesBE 2 scale (by omega)]
      show some (PgScalar.vnumeric neg
        (Nat.ofDigits 10000 (numericGroups m).reverse) scale) = _
      rw [hm]
  | vdate d =>
      show decodeScalarBin PgTag.tDate (intToBytesBE 4 d) = _
      rw [decodeScalarBin, if_pos (length_intToBytesBE 4 d),
        intFits_roundtrip (by norm_num) h]
  | vtime t =>
      show decodeScalarBin PgTag.tTime (intToBytesBE 8 t) = _
      rw [decodeScalarBin, if_pos (length_intToBytesBE 8 t),
        intFits_roundtrip (by norm_num) h]
  | vtimestamp t =>
      show decodeScalarBin PgTag.tTimestamp (intToBytesBE 8 t) = _
      rw [decodeScalarBin, if_pos (length_intToBytesBE 8 t),
        intFits_roundtrip (by norm_num) h]
  | vuuid bs =>
      rw [wfScalar, Bool.and_eq_true, decide_eq_true_eq] at h
      show decodeScalarBin PgTag.tUuid bs = _
      rw [decodeScalarBin, if_pos h.1]
  | vtext bs => rfl
  | vjson bs => rfl
  | vjsonb bs => rfl
  | vmac bs =>
      rw [wfScalar, Bool.and_eq_true, decide_eq_true_eq] at h
      show decodeScalarBin PgTag.tMac bs = _
      rw [decodeScalarBin, if_pos h.1]
  | vmac8 bs =>
      rw [wfScalar, Bool.and_eq_true, decide_eq_true_eq] at h
      show decodeScalarBin PgTag.tMac8 bs = _
      rw [decodeScalarBin, if_pos h.1]
  | vinet v6 p bs =>
      cases v6 with
      | true =>
          show decodeScalarBin PgTag.tInet (3 :: p :: 0 :: bs.length :: bs) = _
          rw [decodeScalarBin, if_pos ⟨rfl, Or.inr rfl⟩]
          rfl
      | false =>
          show decodeScalarBin PgTag.tInet (2 :: p :: 0 :: bs.length :: bs) = _
          rw [decodeScalarBin, if_pos ⟨rfl, Or.inl rfl⟩]
          rfl
  | vcidr v6 p bs =>
      cases v6 with
      | true =>
          show decodeScalarBin PgTag.tCidr (3 :: p :: 1 :: bs.length :: bs) = _
          rw [decodeScalarBin, if_pos ⟨rfl, Or.inr rfl⟩]
          rfl
      | false =>
          show decodeScalarBin PgTag.tCidr (2 :: p :: 1 :: bs.length :: bs) = _
          rw [decodeScalarBin, if_pos ⟨rfl, Or.inl rfl⟩]
          rfl

lemma natDecBytes_eq_map (n : Nat) :
    natDecBytes n = (decDigitsOf n).map (fun d => d + 48) := by
  rw [natDecBytes, decDigitsOf]
  by_cases h : n = 0
  · rw [if_pos h, if_pos h]
    rfl
  · rw [if_neg h, if_neg h]

lemma decDigitsOf_lt (n : Nat) : ∀ d ∈ decDigitsOf n, d < 10 := by
  rw [decDigitsOf]
  by_cases h : n = 0
  · rw [if_pos h]
    intro d hd
    rcases List.mem_singleton.1 hd with rfl
    norm_num
  · rw [if_neg h]
    intro d hd
    exact Nat.digits_lt_base (by norm_num) (List.mem_reverse.1 hd)

lemma ofDigits_decDigitsOf (n : Nat) :
    Nat.ofDigits 10 (decDigitsOf n).reverse = n := by
  rw [decDigitsOf]
  by_cases h : n = 0
  · rw [if_pos h, h]
    rfl
  · rw [if_neg h, List.reverse_reverse, Nat.ofDigits_digits]

lemma ofDigits_replicate_zero (b k : Nat) :
    Nat.ofDigits b (List.replicate k 0) = 0 := by
  induction k with
  | zero => rfl
  | succ k ih =>
      rw [List.replicate_succ, Nat.ofDigits_cons, ih]
      ring

lemma decDigitsOf_ne_nil (n : Nat) : decDigitsOf n ≠ [] := by
  rw [decDigitsOf]
  by_cases h : n = 0
  · rw [if_pos h]
    exact List.cons_ne_nil 0 []
  · rw [if_neg h]
    simp [Nat.digits_ne_nil_iff_ne_zero.2 h]

lemma parseNatBytes_pad (k r : Nat) :
    parseNatBytes (List.replicate k 48 ++ natDecBytes r) = some r := by
  have hrep : List.replicate k 48 =
      (List.replicate k 0).map (fun d => d + 48) := by
    rw [List.map_replicate]
  have hshape : List.replicate k 48 ++ natDecBytes r =
      (List.replicate k 0 ++ decDigitsOf r).map (fun d => d + 48) := by
    rw [List.map_append, ← hrep, natDecBytes_eq_map]
  have hlenpos : (decDigitsOf r).length ≠ 0 := by
    intro h0
    exact decDigitsOf_ne_nil r (List.length_eq_zero.1 h0)
  rw [hshape, parseNatBytes, if_neg (by
    intro hcontra
    have hlen := congrArg List.length hcontra
    rw [List.length_map, List.length_append, List.length_replicate,
      List.length_nil] at hlen
    omega)]
  rw [parseDigitsAux_map _ (by
    intro d hd
    rcases List.mem_append.1 hd with h1 | h1
    · rcases List.eq_of_mem_replicate h1 with rfl
      norm_num
    · exact decDigitsOf_lt r d h1)]
  show some (Nat.ofDigits 10
    (List.replicate k 0 ++ decDigitsOf r).reverse) = some r
  rw [List.reverse_append, List.reverse_replicate, Nat.ofDigits_append,
    ofDigits_replicate_zero, ofDigits_decDigitsOf]
  simp

lemma natDecBytes_len_le {r s : Nat} (hr : r < 10 ^ s) (hs : 0 < s) :
    (natDecBytes r).length ≤ s := by
  rw [natDecBytes]
  by_cases h : r = 0
  · rw [if_pos h]
    simpa using hs
  · rw [if_neg h, List.length_map, List.length_reverse]
    by_contra hlen
    push_neg at hlen
    have h1 : 10 ^ (Nat.digits 10 r).length ≤ 10 * r :=
      Nat.base_pow_length_digits_le 10 r (by norm_num) h
    have h2 : 10 ^ (s + 1) ≤ 10 ^ (Nat.digits 10 r).length :=
      Nat.pow_le_pow_right (by norm_num) (by omega)
    rw [pow_succ] at h2
    have h3 : 10 ^ s * 10 ≤ 10 * r := le_trans h2 h1
    omega

lemma not_mem46_natDecBytes (n : Nat) : (46 : Nat) ∉ natDecBytes n := by
  intro hm
  have := natDecBytes_mem n 46 hm
  omega

lemma not_mem47_natDecBytes (n : Nat) : (47 : Nat) ∉ natDecBytes n := by
  intro hm
  have := natDecBytes_mem n 47 hm
  omega

lemma not_mem_natDecPad (c : Nat) (hc : c < 48 ∨ 57 < c) (w n : Nat) :
    c ∉ natDecPad w n := by
  intro hm
  rw [natDecPad] at hm
  rcases List.mem_append.1 hm with h1 | h1
  · rcases List.eq_of_mem_replicate h1 with rfl
    omega
  · have := natDecBytes_mem n c h1
    omega

lemma parseNumericBody_roundtrip (m scale : Nat) :
    parseNumericBody (numericTextBody m scale) = some (m, scale) := by
  rw [numericTextBody]
  by_cases h : scale = 0
  · rw [if_pos h, parseNumericBody,
      splitSep_not_mem 46 _ (not_mem46_natDecBytes m)]
    show (match parseNatBytes (natDecBytes m) with
      | some x => some (x, 0)
      | none => none) = some (m, scale)
    rw [parseNatBytes_natDecBytes, h]
  · rw [if_neg h, parseNumericBody,
      splitSep_append 46 _ _ (not_mem46_natDecBytes _),
      splitSep_not_mem 46 _ (by
        intro hm
        exact not_mem_natDecPad 46 (by omega) scale (m % 10 ^ scale) hm)]
    show (match parseNatBytes (natDecBytes (m / 10 ^ scale)),
        parseNatBytes (natDecPad scale (m % 10 ^ scale)) with
      | some i, some f =>
          some (i * 10 ^ (natDecPad scale (m % 10 ^ scale)).length + f,
            (natDecPad scale (m % 10 ^ scale)).length)
      | _, _ => none) = some (m, scale)
    rw [parseNatBytes_natDecBytes, natDecPad, parseNatBytes_pad]
    have hlt : m % 10 ^ scale < 10 ^ scale :=
      Nat.mod_lt _ (Nat.pos_pow_of_pos scale (by norm_num))
    have hlen : (List.replicate
        (scale - (natDecBytes (m % 10 ^ scale)).length) 48 ++
        natDecBytes (m % 10 ^ scale)).length = scale := by
      rw [List.length_append, List.length_replicate]
      have := natDecBytes_len_le hlt (by omega)
      omega
    rw [hlen]
    show some (m / 10 ^ scale * 10 ^ scale + m % 10 ^ scale, scale) =
      some (m, scale)
    have hdm : m / 10 ^ scale * 10 ^ scale + m % 10 ^ scale = m := by
      rw [Nat.mul_comm]
      exact Nat.div_add_mod m (10 ^ scale)
    rw [hdm]

lemma hexPairs_not45 (bs : List Nat) (hbs : ∀ b ∈ bs, b < 256) :
    ∀ c ∈ hexPairs bs, (c != 45) = true := by
  intro c hc
  rcases hexPairs_mem bs hbs c hc with h1 | h1 <;>
    (rw [bne_iff_ne]; omega)

lemma hexPairs_not58 (bs : List Nat) (hbs : ∀ b ∈ bs, b < 256) :
    ∀ c ∈ hexPairs bs, (c != 58) = true := by
  intro c hc
  rcases hexPairs_mem bs hbs c hc with h1 | h1 <;>
    (rw [bne_iff_ne]; omega)

lemma not_mem46_hexPairs (bs : List Nat) (hbs : ∀ b ∈ bs, b < 256) :
    (46 : Nat) ∉ hexPairs bs := by
  intro hm
  rcases hexPairs_mem bs hbs 46 hm with h1 | h1 <;> omega

lemma not_mem47_hexPairs (bs : List Nat) (hbs : ∀ b ∈ bs, b < 256) :
    (47 : Nat) ∉ hexPairs bs := by
  intro hm
  rcases hexPairs_mem bs hbs 47 hm with h1 | h1 <;> omega

lemma filter_uuidTextOf (bs : List Nat) (hbs : ∀ b ∈ bs, b < 256) :
    (uuidTextOf bs).filter (fun c => c != 45) = hexPairs bs := by
  rw [uuidTextOf]
  have hseg : ∀ l : List Nat, (∀ c ∈ l, c ∈ hexPairs bs) →
      l.filter (fun c => c != 45) = l := by
    intro l hl
    apply List.filter_eq_self.2
    intro c hc
    exact hexPairs_not45 bs hbs c (hl c hc)
  have h45 : ((45 : Nat) != 45) = false := by rw [bne_self_eq_false]
  rw [List.filter_append, List.filter_cons_of_neg (by simp)]
  rw [List.filter_append, List.filter_cons_of_neg (by simp)]
  rw [List.filter_append, List.filter_cons_of_neg (by simp)]
  rw [List.filter_append, List.filter_cons_of_neg (by simp)]
  rw [hseg _ (fun c hc => List.mem_of_mem_take hc),
    hseg _ (fun c hc =>
      List.mem_of_mem_drop (List.mem_of_mem_take hc)),
    hseg _ (fun c hc =>
      List.mem_of_mem_drop (List.mem_of_mem_drop (List.mem_of_mem_take hc))),
    hseg _ (fun c hc => List.mem_of_mem_drop (List.mem_of_mem_drop
      (List.mem_of_mem_drop (List.mem_of_mem_take hc)))),
    hseg _ (fun c hc => List.mem_of_mem_drop (List.mem_of_mem_drop
      (List.mem_of_mem_drop (List.mem_of_mem_drop hc))))]
  rw [List.take_append_drop, List.take_append_drop, List.take_append_drop,
    List.take_append_drop]

lemma length_uuidTextOf (bs : List Nat) (hlen : bs.length = 16) :
    (uuidTextOf bs).length = 36 := by
  rw [uuidTextOf]
  have hh : (hexPairs bs).length = 32 := by
    rw [length_hexPairs, hlen]
  simp [List.length_append, List.length_take, List.length_drop, hh]

lemma filter_ne_joinSep (sep : Nat) :
    ∀ parts : List (List Nat), (∀ p ∈ parts, ∀ c ∈ p, (c != sep) = true) →
      (joinSep sep parts).filter (fun c => c != sep) = parts.flatten := by
  intro parts
  induction parts with
  | nil => intro _; rfl
  | cons p ps ih =>
      intro h
      cases ps with
      | nil =>
          rw [joinSep, List.flatten_cons, List.flatten_nil, List.append_nil]
          exact List.filter_eq_self.2 (h p (List.mem_cons_self p []))
      | cons q qs =>
          rw [joinSep, List.flatten_cons, List.filter_append,
            List.filter_cons_of_neg (by simp),
            List.filter_eq_self.2 (h p (List.mem_cons_self p _)),
            ih (fun x hx c hc => h x (List.mem_cons_of_mem p hx) c hc)]

lemma hexPairs_eq_flatten (bs : List Nat) :
    (bs.map (fun b => [hexDigitChar (b / 16), hexDigitChar (b % 16)])).flatten
      = hexPairs bs := by
  induction bs with
  | nil => rfl
  | cons b rest ih =>
      rw [List.map_cons, List.flatten_cons, hexPairs, ih]
      rfl

lemma filter_macTextOf (bs : List Nat) (hbs : ∀ b ∈ bs, b < 256) :
    (macTextOf bs).filter (fun c => c != 58) = hexPairs bs := by
  rw [macTextOf, filter_ne_joinSep 58 _ (by
    intro p hp c hc
    rw [List.mem_map] at hp
    rcases hp with ⟨b, hb, rfl⟩
    have hmem : c ∈ hexPairs [b] := by
      rw [hexPairs]
      rcases List.mem_cons.1 hc with rfl | hc2
      · exact List.mem_cons_self _ _
      · rcases List.mem_cons.1 hc2 with rfl | hc3
        · exact List.mem_cons_of_mem _ (List.mem_cons_self _ _)
        · cases hc3
    exact hexPairs_not58 [b] (by
      intro x hx
      have hxb : x = b := List.mem_singleton.1 hx
      rw [hxb]
      exact hbs b hb) c hmem),
    hexPairs_eq_flatten]

lemma mem_sep_joinSep (sep : Nat) (p q : List Nat) (qs : List (List Nat)) :
    sep ∈ joinSep sep (p :: q :: qs) := by
  rw [joinSep]
  exact List.mem_append_right p (List.mem_cons_self sep _)

lemma not_mem_joinSep (c sep : Nat) (hc : c ≠ sep) :
    ∀ parts : List (List Nat), (∀ p ∈ parts, c ∉ p) →
      c ∉ joinSep sep parts := by
  intro parts
  induction parts with
  | nil => intro _ hm; exact List.not_mem_nil c hm
  | cons p ps ih =>
      intro h
      cases ps with
      | nil =>
          rw [joinSep]
          exact h p (List.mem_cons_self p [])
      | cons q qs =>
          rw [joinSep]
          intro hm
          rcases List.mem_append.1 hm with hm1 | hm2
          · exact h p (List.mem_cons_self p _) hm1
          · rcases List.mem_cons.1 hm2 with rfl | hm3
            · exact hc rfl
            · exact ih (fun x hx => h x (List.mem_cons_of_mem p hx)) hm3

lemma parseInetText_roundtrip (v6 : Bool) (p : Nat) (bs : List Nat)
    (h : inetWf v6 p bs = true) :
    parseInetText (inetTextOf v6 p bs) = some (v6, p, bs) := by
  cases v6 with
  | true =>
      simp only [inetWf, if_true, Bool.and_eq_true, decide_eq_true_eq,
        List.all_eq_true] at h
      have hall : ∀ b ∈ bs, b < 256 := fun b hb => h.1.2 b hb
      rw [inetTextOf, if_pos rfl, parseInetText,
        splitSep_append 47 _ _ (not_mem47_hexPairs bs hall),
        splitSep_not_mem 47 _ (not_mem47_natDecBytes p)]
      show (match parseNatBytes (natDecBytes p) with
        | some q =>
            if 46 ∈ hexPairs bs then
              match parseAllNat (splitSep 46 (hexPairs bs)) with
              | some cs => some (false, q, cs)
              | none => none
            else
              match unhexPairs (hexPairs bs) with
              | some cs => some (true, q, cs)
              | none => none
        | none => none) = some (true, p, bs)
      rw [parseNatBytes_natDecBytes]
      show (if 46 ∈ hexPairs bs then
          match parseAllNat (splitSep 46 (hexPairs bs)) with
          | some cs => some (false, p, cs)
          | none => none
        else
          match unhexPairs (hexPairs bs) with
          | some cs => some (true, p, cs)
          | none => none) = some (true, p, bs)
      rw [if_neg (not_mem46_hexPairs bs hall), unhexPairs_hexPairs bs hall]
  | false =>
      have hflat : ((decide (bs.length = 4) && decide (p ≤ 32)) &&
          bs.all (fun b => decide (b < 256)) && decide (0 < bs.length)) =
          true := h
      simp only [Bool.and_eq_true, decide_eq_true_eq,
        List.all_eq_true] at hflat
      have hall : ∀ b ∈ bs, b < 256 := fun b hb => hflat.1.2 b hb
      have hlen : bs.length = 4 := hflat.1.1.1
      cases bs with
      | nil => simp at hlen
      | cons b0 tl =>
          cases tl with
          | nil => simp at hlen
          | cons b1 tl2 =>
              have hfree46 : ∀ pp ∈ (b0 :: b1 :: tl2).map natDecBytes,
                  (46 : Nat) ∉ pp := by
                intro pp hpp
                rcases List.mem_map.1 hpp with ⟨x, _, rfl⟩
                exact not_mem46_natDecBytes x
              have h47 : (47 : Nat) ∉
                  joinSep 46 ((b0 :: b1 :: tl2).map natDecBytes) := by
                apply not_mem_joinSep 47 46 (by omega)
                intro pp hpp
                rcases List.mem_map.1 hpp with ⟨x, _, rfl⟩
                exact not_mem47_natDecBytes x
              rw [inetTextOf, if_neg (by simp), parseInetText,
                splitSep_append 47 _ _ h47,
                splitSep_not_mem 47 _ (not_mem47_natDecBytes p)]
              show (match parseNatBytes (natDecBytes p) with
                | some q =>
                    if 46 ∈ joinSep 46 ((b0 :: b1 :: tl2).map natDecBytes) then
                      match parseAllNat (splitSep 46
                          (joinSep 46 ((b0 :: b1 :: tl2).map natDecBytes))) with
                      | some cs => some (false, q, cs)
                      | none => none
                    else
                      match unhexPairs
                          (joinSep 46 ((b0 :: b1 :: tl2).map natDecBytes)) with
                      | some cs => some (true, q, cs)
                      | none => none
                | none => none) = some (false, p, b0 :: b1 :: tl2)
              rw [parseNatBytes_natDecBytes]
              show (if 46 ∈ joinSep 46 ((b0 :: b1 :: tl2).map natDecBytes) then
                  match parseAllNat (splitSep 46
                      (joinSep 46 ((b0 :: b1 :: tl2).map natDecBytes))) with
                  | some cs => some (false, p, cs)
                  | none => none
                else
                  match unhexPairs
                      (joinSep 46 ((b0 :: b1 :: tl2).map natDecBytes)) with
                  | some cs => some (true, p, cs)
                  | none => none) = some (false, p, b0 :: b1 :: tl2)
              rw [if_pos (by
                rw [List.map_cons, List.map_cons]
                exact mem_sep_joinSep 46 _ _ _),
                splitSep_joinSep 46 _ (by simp) hfree46, parseAllNat_decs]

lemma textDecodeScalar_roundtrip (v : PgScalar) (h : wfScalar v = true) :
    textDecodeScalar (scalarTag v) (textEncodeScalar v) = some v := by
  cases v with
  | vint2 i =>
      show (parseIntBytes (intDecBytes i)).map PgScalar.vint2 = _
      rw [parseIntBytes_intDecBytes]
      rfl
  | vint4 i =>
      show (parseIntBytes (intDecBytes i)).map PgScalar.vint4 = _
      rw [parseIntBytes_intDecBytes]
      rfl
  | vint8 i =>
      show (parseIntBytes (intDecBytes i)).map PgScalar.vint8 = _
      rw [parseIntBytes_intDecBytes]
      rfl
  | vfloat4 b =>
      show (parseNatBytes (natDecBytes b)).map PgScalar.vfloat4 = _
      rw [parseNatBytes_natDecBytes]
      rfl
  | vfloat8 b =>
      show (parseNatBytes (natDecBytes b)).map PgScalar.vfloat8 = _
      rw [parseNatBytes_natDecBytes]
      rfl
  | vnumeric neg m scale =>
      cases neg with
      | true =>
          show textDecodeScalar PgTag.tNumeric
            (45 :: numericTextBody m scale) = _
          rw [textDecodeScalar, if_pos rfl, parseNumericBody_roundtrip]
      | false =>
          obtain ⟨c, rest, heq, h1, h2⟩ :
              ∃ c rest, numericTextBody m scale = c :: rest ∧
                48 ≤ c ∧ c ≤ 57 := by
            rw [numericTextBody]
            by_cases hs : scale = 0
            · rw [if_pos hs]
              rcases hx : natDecBytes m with _ | ⟨c, rest⟩
              · exact absurd hx (natDecBytes_ne_nil m)
              · exact ⟨c, rest, rfl, natDecBytes_mem m c (by
                  rw [hx]
                  exact List.mem_cons_self c rest)⟩
            · rw [if_neg hs]
              rcases hx : natDecBytes (m / 10 ^ scale) with _ | ⟨c, rest⟩
              · exact absurd hx (natDecBytes_ne_nil _)
              · exact ⟨c, rest ++ 46 :: natDecPad scale (m % 10 ^ scale),
                  by rw [List.cons_append], natDecBytes_mem _ c (by
                    rw [hx]
                    exact List.mem_cons_self c rest)⟩
          show textDecodeScalar PgTag.tNumeric
            ([] ++ numericTextBody m scale) = _
          rw [List.nil_append, heq, textDecodeScalar,
            if_neg (by omega), ← heq, parseNumericBody_roundtrip]
  | vdate d =>
      show (parseIntBytes (intDecBytes d)).map PgScalar.vdate = _
      rw [parseIntBytes_intDecBytes]
      rfl
  | vtime t =>
      show (parseIntBytes (intDecBytes t)).map PgScalar.vtime = _
      rw [parseIntBytes_intDecBytes]
      rfl
  | vtimestamp t =>
      show (parseIntBytes (intDecBytes t)).map PgScalar.vtimestamp = _
      rw [parseIntBytes_intDecBytes]
      rfl
  | vuuid bs =>
      simp only [wfScalar, Bool.and_eq_true, decide_eq_true_eq,
        List.all_eq_true] at h
      have hall : ∀ b ∈ bs, b < 256 := fun b hb => h.2 b hb
      show textDecodeScalar PgTag.tUuid (uuidTextOf bs) = _
      rw [textDecodeScalar, length_uuidTextOf bs h.1, if_pos rfl,
        filter_uuidTextOf bs hall, unhexPairs_hexPairs bs hall]
      show (if bs.length = 16 then some (PgScalar.vuuid bs) else none) = _
      rw [if_pos h.1]
  | vtext bs => rfl
  | vjson bs => rfl
  | vjsonb bs => rfl
  | vmac bs =>
      simp only [wfScalar, Bool.and_eq_true, decide_eq_true_eq,
        List.all_eq_true] at h
      have hall : ∀ b ∈ bs, b < 256 := fun b hb => h.2 b hb
      show textDecodeScalar PgTag.tMac (macTextOf bs) = _
      rw [textDecodeScalar, filter_macTextOf bs hall,
        unhexPairs_hexPairs bs hall]
      show (if bs.length = 6 then some (PgScalar.vmac bs) else none) = _
      rw [if_pos h.1]
  | vmac8 bs =>
      simp only [wfScalar, Bool.and_eq_true, decide_eq_true_eq,
        List.all_eq_true] at h
      have hall : ∀ b ∈ bs, b < 256 := fun b hb => h.2 b hb
      show textDecodeScalar PgTag.tMac8 (macTextOf bs) = _
      rw [textDecodeScalar, filter_macTextOf bs hall,
        unhexPairs_hexPairs bs hall]
      show (if bs.length = 8 then some (PgScalar.vmac8 bs) else none) = _
      rw [if_pos h.1]
  | vinet v6 p bs =>
      show textDecodeScalar PgTag.tInet (inetTextOf v6 p bs) = _
      rw [textDecodeScalar, parseInetText_roundtrip v6 p bs h]
  | vcidr v6 p bs =>
      show textDecodeScalar PgTag.tCidr (inetTextOf v6 p bs) = _
      rw [textDecodeScalar, parseInetText_roundtrip v6 p bs h]

lemma unescBytes_cons (c : Nat) (rest : List Nat) :
    unescBytes (c :: rest) =
      if c = 92 then
        match rest with
        | [] => none
        | d :: rest2 =>
            match unescBytes rest2 with
            | some s => some (d :: s)
            | none => none
      else if c = 34 then none
      else
        match unescBytes rest with
        | some s => some (c :: s)
        | none => none := by
  cases rest with
  | nil => rfl
  | cons d rest2 => rfl

lemma splitQ_false_cons (c : Nat) (rest : List Nat) :
    splitQ false (c :: rest) =
      if c = 44 then [] :: splitQ false rest
      else if c = 34 then consHead c (splitQ true rest)
      else consHead c (splitQ false rest) := rfl

lemma splitQ_true_cons (c : Nat) (rest : List Nat) :
    splitQ true (c :: rest) =
      if c = 92 then
        match rest with
        | [] => [[c]]
        | d :: rest2 => consHead c (consHead d (splitQ true rest2))
      else if c = 34 then consHead c (splitQ false rest)
      else consHead c (splitQ true rest) := by
  cases rest with
  | nil => rfl
  | cons d rest2 => rfl

lemma unescBytes_escBytes (s : List Nat) :
    unescBytes (escBytes s) = some s := by
  induction s with
  | nil => rfl
  | cons c rest ih =>
      rw [escBytes]
      by_cases hc : c = 34 ∨ c = 92
      · rw [if_pos hc]
        show (match unescBytes (escBytes rest) with
          | some s => some (c :: s)
          | none => none) = some (c :: rest)
        rw [ih]
      · rw [if_neg hc, unescBytes_cons, if_neg (fun h => hc (Or.inr h)),
          if_neg (fun h => hc (Or.inl h))]
        show (match unescBytes (escBytes rest) with
          | some s => some (c :: s)
          | none => none) = some (c :: rest)
        rw [ih]

lemma prepAll_cons_part (cs p : List Nat) (ps : List (List Nat)) :
    prepAll cs (p :: ps) = (cs ++ p) :: ps := by
  induction cs with
  | nil => rfl
  | cons c cs ih =>
      rw [prepAll, ih]
      rfl

lemma splitQ_true_esc (s rest : List Nat) :
    splitQ true (escBytes s ++ 34 :: rest) =
      prepAll (escBytes s) (consHead 34 (splitQ false rest)) := by
  induction s with
  | nil =>
      show splitQ true (34 :: rest) = consHead 34 (splitQ false rest)
      rw [splitQ_true_cons, if_neg (by omega), if_pos rfl]
  | cons c s ih =>
      rw [escBytes]
      by_cases hc : c = 34 ∨ c = 92
      · rw [if_pos hc]
        show splitQ true (92 :: (c :: (escBytes s ++ 34 :: rest))) = _
        rw [splitQ_true_cons, if_pos rfl]
        show consHead 92 (consHead c
          (splitQ true (escBytes s ++ 34 :: rest))) = _
        rw [ih]
        rfl
      · rw [if_neg hc]
        show splitQ true (c :: (escBytes s ++ 34 :: rest)) = _
        rw [splitQ_true_cons, if_neg (fun h => hc (Or.inr h)),
          if_neg (fun h => hc (Or.inl h)), ih]
        rfl

lemma splitQ_free_append (p : List Nat) (hp : ∀ c ∈ p, c ≠ 44 ∧ c ≠ 34)
    (rest : List Nat) :
    splitQ false (p ++ 44 :: rest) = p :: splitQ false rest := by
  induction p with
  | nil => rw [List.nil_append, splitQ_false_cons, if_pos rfl]
  | cons c p ih =>
      have hc := hp c (List.mem_cons_self c p)
      rw [List.cons_append, splitQ_false_cons, if_neg hc.1, if_neg hc.2,
        ih (fun x hx => hp x (List.mem_cons_of_mem c hx))]
      rfl

lemma splitQ_free_nil (p : List Nat) (hp : ∀ c ∈ p, c ≠ 44 ∧ c ≠ 34) :
    splitQ false p = [p] := by
  induction p with
  | nil => rfl
  | cons c p ih =>
      have hc := hp c (List.mem_cons_self c p)
      rw [splitQ_false_cons, if_neg hc.1, if_neg hc.2,
        ih (fun x hx => hp x (List.mem_cons_of_mem c hx))]
      rfl

lemma splitQ_quoted_append (s rest : List Nat) :
    splitQ false ((34 :: escBytes s ++ [34]) ++ 44 :: rest) =
      (34 :: escBytes s ++ [34]) :: splitQ false rest := by
  have hassoc : (34 :: escBytes s ++ [34]) ++ 44 :: rest =
      34 :: (escBytes s ++ 34 :: (44 :: rest)) := by
    simp [List.append_assoc]
  rw [hassoc, splitQ_false_cons, if_neg (by omega), if_pos rfl,
    splitQ_true_esc s (44 :: rest), splitQ_false_cons, if_pos rfl]
  show consHead 34 (prepAll (escBytes s) ([34] :: splitQ false rest)) = _
  rw [prepAll_cons_part]
  rfl

lemma splitQ_quoted_nil (s : List Nat) :
    splitQ false (34 :: escBytes s ++ [34]) =
      [34 :: escBytes s ++ [34]] := by
  have hassoc : (34 :: escBytes s) ++ [34] =
      34 :: (escBytes s ++ 34 :: ([] : List Nat)) := by
    simp
  rw [hassoc, splitQ_false_cons, if_neg (by omega), if_pos rfl,
    splitQ_true_esc s []]
  show consHead 34 (prepAll (escBytes s) [[34]]) = _
  rw [prepAll_cons_part]
  rfl

lemma splitQ_joinSep (parts : List (List Nat)) (hne : parts ≠ [])
    (h : ∀ p ∈ parts, (∀ c ∈ p, c ≠ 44 ∧ c ≠ 34) ∨
      ∃ s, p = 34 :: escBytes s ++ [34]) :
    splitQ false (joinSep 44 parts) = parts := by
  induction parts with
  | nil => exact absurd rfl hne
  | cons p ps ih =>
      cases ps with
      | nil =>
          rw [joinSep]
          rcases h p (List.mem_cons_self p []) with hfree | ⟨s, rfl⟩
          · exact splitQ_free_nil p hfree
          · exact splitQ_quoted_nil s
      | cons q qs =>
          rw [joinSep]
          have hrec := ih (List.cons_ne_nil q qs)
            (fun x hx => h x (List.mem_cons_of_mem p hx))
          rcases h p (List.mem_cons_self p _) with hfree | ⟨s, rfl⟩
          · rw [splitQ_free_append p hfree, hrec]
          · rw [splitQ_quoted_append s, hrec]

lemma parseElemText_roundtrip (t : PgTag) (e : Option PgScalar)
    (h : wfElem t e = true) :
    parseElemText t (elemTextOf e) = some e := by
  cases e with
  | none => rfl
  | some v =>
      simp only [wfElem, Bool.and_eq_true, beq_iff_eq,
        decide_eq_true_eq] at h
      show (match (escBytes (textEncodeScalar v) ++ [34]).getLast? with
        | some c =>
            if c = 34 then
              match unescBytes
                  (escBytes (textEncodeScalar v) ++ [34]).dropLast with
              | some s =>
                  match textDecodeScalar t s with
                  | some v2 => some (some v2)
                  | none => none
              | none => none
            else none
        | none => none) = some (some v)
      rw [List.getLast?_concat, List.dropLast_concat]
      show (if (34 : Nat) = 34 then
          match unescBytes (escBytes (textEncodeScalar v)) with
          | some s =>
              match textDecodeScalar t s with
              | some v2 => some (some v2)
              | none => none
          | none => none
        else none) = some (some v)
      rw [if_pos rfl, unescBytes_escBytes]
      show (match textDecodeScalar t (textEncodeScalar v) with
        | some v2 => some (some v2)
        | none => none) = some (some v)
      rw [← h.1.1, textDecodeScalar_roundtrip v h.1.2]

lemma parseElemsText_roundtrip (t : PgTag) (elems : List (Option PgScalar))
    (h : elems.all (wfElem t) = true) :
    parseElemsText t (elems.map elemTextOf) = some elems := by
  induction elems with
  | nil => rfl
  | cons e es ih =>
      rw [List.all_cons, Bool.and_eq_true] at h
      rw [List.map_cons, parseElemsText, parseElemText_roundtrip t e h.1,
        ih h.2]

lemma elemTextOf_ne_nil (e : Option PgScalar) : elemTextOf e ≠ [] := by
  cases e <;> simp [elemTextOf]

lemma elemTextOf_good (e : Option PgScalar) :
    (∀ c ∈ elemTextOf e, c ≠ 44 ∧ c ≠ 34) ∨
      ∃ s, elemTextOf e = 34 :: escBytes s ++ [34] := by
  cases e with
  | none =>
      left
      intro c hc
      fin_cases hc <;> exact ⟨by decide, by decide⟩
  | some v => exact Or.inr ⟨textEncodeScalar v, rfl⟩

lemma joinSep_ne_nil (sep : Nat) (p : List Nat) (ps : List (List Nat))
    (hp : p ≠ []) : joinSep sep (p :: ps) ≠ [] := by
  cases ps with
  | nil =>
      rw [joinSep]
      exact hp
  | cons q qs =>
      rw [joinSep]
      simp

lemma decodeArrayText_roundtrip (t : PgTag) (elems : List (Option PgScalar))
    (h : elems.all (wfElem t) = true) :
    decodeArrayText t (encodeArrayText elems) = some elems := by
  rw [encodeArrayText]
  show (match (joinSep 44 (elems.map elemTextOf) ++ [125]).getLast? with
    | some c =>
        if c = 125 then
          if (joinSep 44 (elems.map elemTextOf) ++ [125]).dropLast = []
          then some []
          else parseElemsText t (splitQ false
            (joinSep 44 (elems.map elemTextOf) ++ [125]).dropLast)
        else none
    | none => none) = some elems
  rw [List.getLast?_concat, List.dropLast_concat]
  show (if (125 : Nat) = 125 then
      if joinSep 44 (elems.map elemTextOf) = [] then some []
      else parseElemsText t (splitQ false (joinSep 44 (elems.map elemTextOf)))
    else none) = some elems
  rw [if_pos rfl]
  cases elems with
  | nil => rfl
  | cons e es =>
      rw [List.map_cons,
        if_neg (joinSep_ne_nil 44 _ _ (elemTextOf_ne_nil e)),
        ← List.map_cons]
      have hgood : ∀ p ∈ (e :: es).map elemTextOf,
          (∀ c ∈ p, c ≠ 44 ∧ c ≠ 34) ∨
            ∃ s, p = 34 :: escBytes s ++ [34] := by
        intro p hp
        rcases List.mem_map.1 hp with ⟨x, _, rfl⟩
        exact elemTextOf_good x
      rw [splitQ_joinSep _ (by simp) hgood,
        parseElemsText_roundtrip t _ h]

lemma intDecBytes_mem (i : Int) :
    ∀ c ∈ intDecBytes i, c = 45 ∨ (48 ≤ c ∧ c ≤ 57) := by
  intro c hc
  rw [intDecBytes] at hc
  by_cases h : i < 0
  · rw [if_pos h] at hc
    rcases List.mem_cons.1 hc with rfl | hm
    · exact Or.inl rfl
    · exact Or.inr (natDecBytes_mem _ c hm)
  · rw [if_neg h] at hc
    exact Or.inr (natDecBytes_mem _ c hc)

lemma natDecPad_mem (w n : Nat) :
    ∀ c ∈ natDecPad w n, 48 ≤ c ∧ c ≤ 57 := by
  intro c hc
  rw [natDecPad] at hc
  rcases List.mem_append.1 hc with hm | hm
  · have hc48 : c = 48 := List.eq_of_mem_replicate hm
    omega
  · exact natDecBytes_mem _ c hm

lemma numericTextBody_mem (m scale : Nat) :
    ∀ c ∈ numericTextBody m scale, c = 46 ∨ (48 ≤ c ∧ c ≤ 57) := by
  intro c hc
  rw [numericTextBody] at hc
  by_cases h : scale = 0
  · rw [if_pos h] at hc
    exact Or.inr (natDecBytes_mem _ c hc)
  · rw [if_neg h] at hc
    rcases List.mem_append.1 hc with hm | hm
    · exact Or.inr (natDecBytes_mem _ c hm)
    · rcases List.mem_cons.1 hm with rfl | hm2
      · exact Or.inl rfl
      · exact Or.inr (natDecPad_mem _ _ c hm2)

lemma intDecBytes_ne_nil (i : Int) : intDecBytes i ≠ [] := by
  rw [intDecBytes]
  by_cases h : i < 0
  · rw [if_pos h]
    exact List.cons_ne_nil _ _
  · rw [if_neg h]
    exact natDecBytes_ne_nil _

lemma numericTextBody_ne_nil (m scale : Nat) :
    numericTextBody m scale ≠ [] := by
  rw [numericTextBody]
  by_cases h : scale = 0
  · rw [if_pos h]
    exact natDecBytes_ne_nil _
  · rw [if_neg h]
    intro hcontra
    rcases List.append_eq_nil.1 hcontra with ⟨h1, _⟩
    exact natDecBytes_ne_nil _ h1

lemma rangeText_mem (v : PgScalar) (h : rangeableTag (scalarTag v) = true) :
    ∀ c ∈ textEncodeScalar v, c = 45 ∨ c = 46 ∨ (48 ≤ c ∧ c ≤ 57) := by
  cases v <;> (try exact Bool.noConfusion h) <;> intro c hc
  case vint4 i =>
    rcases intDecBytes_mem i c hc with h45 | hd
    · exact Or.inl h45
    · exact Or.inr (Or.inr hd)
  case vint8 i =>
    rcases intDecBytes_mem i c hc with h45 | hd
    · exact Or.inl h45
    · exact Or.inr (Or.inr hd)
  case vdate i =>
    rcases intDecBytes_mem i c hc with h45 | hd
    · exact Or.inl h45
    · exact Or.inr (Or.inr hd)
  case vtimestamp i =>
    rcases intDecBytes_mem i c hc with h45 | hd
    · exact Or.inl h45
    · exact Or.inr (Or.inr hd)
  case vnumeric neg m scale =>
    rcases List.mem_append.1 hc with hm | hm
    · cases neg with
      | true =>
          have hc45 : c = 45 := List.mem_singleton.1 hm
          exact Or.inl hc45
      | false => exact absurd hm (List.not_mem_nil c)
    · rcases numericTextBody_mem m scale c hm with h46 | hd
      · exact Or.inr (Or.inl h46)
      · exact Or.inr (Or.inr hd)

lemma rangeText_ne_nil (v : PgScalar)
    (h : rangeableTag (scalarTag v) = true) : textEncodeScalar v ≠ [] := by
  cases v <;> try exact Bool.noConfusion h
  case vint4 i => exact intDecBytes_ne_nil i
  case vint8 i => exact intDecBytes_ne_nil i
  case vdate i => exact intDecBytes_ne_nil i
  case vtimestamp i => exact intDecBytes_ne_nil i
  case vnumeric neg m scale =>
    intro hcontra
    have hcontra2 : (if neg then [45] else []) ++
        numericTextBody m scale = [] := hcontra
    rcases List.append_eq_nil.1 hcontra2 with ⟨_, h2⟩
    exact numericTextBody_ne_nil m scale h2

lemma boundText_not44 (t : PgTag) (b : RangeBound)
    (hrt : rangeableTag t = true) (hb : wfBound t b = true) :
    (44 : Nat) ∉ boundTextOf b := by
  cases b with
  | unbounded => exact List.not_mem_nil 44
  | incl v =>
      have hw : ((scalarTag v == t) && wfScalar v &&
          decide ((encodeScalarBin v).length < 2 ^ 32)) = true := hb
      simp only [Bool.and_eq_true, beq_iff_eq, decide_eq_true_eq] at hw
      intro hm
      rcases rangeText_mem v (by rw [hw.1.1]; exact hrt) 44 hm
        with h1 | h1 | h1 <;> omega
  | excl v =>
      have hw : ((scalarTag v == t) && wfScalar v &&
          decide ((encodeScalarBin v).length < 2 ^ 32)) = true := hb
      simp only [Bool.and_eq_true, beq_iff_eq, decide_eq_true_eq] at hw
      intro hm
      rcases rangeText_mem v (by rw [hw.1.1]; exact hrt) 44 hm
        with h1 | h1 | h1 <;> omega

lemma loBracket_cases (b : RangeBound) :
    loBracket b = 91 ∨ loBracket b = 40 := by
  cases b <;> simp [loBracket]

lemma hiBracket_cases (b : RangeBound) :
    hiBracket b = 93 ∨ hiBracket b = 41 := by
  cases b <;> simp [hiBracket]

lemma parseBound_enc_lo (t : PgTag) (b : RangeBound)
    (hrt : rangeableTag t = true) (hb : wfBound t b = true) :
    parseBoundText t (loBracket b == 91) (boundTextOf b) = some b := by
  cases b with
  | unbounded => rfl
  | incl v =>
      have hw : ((scalarTag v == t) && wfScalar v &&
          decide ((encodeScalarBin v).length < 2 ^ 32)) = true := hb
      simp only [Bool.and_eq_true, beq_iff_eq, decide_eq_true_eq] at hw
      show parseBoundText t ((91 : Nat) == 91) (textEncodeScalar v) =
        some (RangeBound.incl v)
      rw [parseBoundText,
        if_neg (rangeText_ne_nil v (by rw [hw.1.1]; exact hrt)),
        ← hw.1.1, textDecodeScalar_roundtrip v hw.1.2]
      rfl
  | excl v =>
      have hw : ((scalarTag v == t) && wfScalar v &&
          decide ((encodeScalarBin v).length < 2 ^ 32)) = true := hb
      simp only [Bool.and_eq_true, beq_iff_eq, decide_eq_true_eq] at hw
      show parseBoundText t ((40 : Nat) == 91) (textEncodeScalar v) =
        some (RangeBound.excl v)
      rw [parseBoundText,
        if_neg (rangeText_ne_nil v (by rw [hw.1.1]; exact hrt)),
        ← hw.1.1, textDecodeScalar_roundtrip v hw.1.2]
      rfl

lemma parseBound_enc_hi (t : PgTag) (b : RangeBound)
    (hrt : rangeableTag t = true) (hb : wfBound t b = true) :
    parseBoundText t (hiBracket b == 93) (boundTextOf b) = some b := by
  cases b with
  | unbounded => rfl
  | incl v =>
      have hw : ((scalarTag v == t) && wfScalar v &&
          decide ((encodeScalarBin v).length < 2 ^ 32)) = true := hb
      simp only [Bool.and_eq_true, beq_iff_eq, decide_eq_true_eq] at hw
      show parseBoundText t ((93 : Nat) == 93) (textEncodeScalar v) =
        some (RangeBound.incl v)
      rw [parseBoundText,
        if_neg (rangeText_ne_nil v (by rw [hw.1.1]; exact hrt)),
        ← hw.1.1, textDecodeScalar_roundtrip v hw.1.2]
      rfl
  | excl v =>
      have hw : ((scalarTag v == t) && wfScalar v &&
          decide ((encodeScalarBin v).length < 2 ^ 32)) = true := hb
      simp only [Bool.and_eq_true, beq_iff_eq, decide_eq_true_eq] at hw
      show parseBoundText t ((41 : Nat) == 93) (textEncodeScalar v) =
        some (RangeBound.excl v)
      rw [parseBoundText,
        if_neg (rangeText_ne_nil v (by rw [hw.1.1]; exact hrt)),
        ← hw.1.1, textDecodeScalar_roundtrip v hw.1.2]
      rfl

lemma decodeRangeText_core (t : PgTag) (lo hi : RangeBound)
    (b0 cN : Nat) (A B : List Nat)
    (hb0 : b0 = 91 ∨ b0 = 40) (hcN : cN = 93 ∨ cN = 41)
    (hA44 : (44 : Nat) ∉ A) (hB44 : (44 : Nat) ∉ B)
    (hlo : parseBoundText t (b0 == 91) A = some lo)
    (hhi : parseBoundText t (cN == 93) B = some hi) :
    decodeRangeText t (((b0 :: A) ++ (44 :: B)) ++ [cN]) =
      some (RangeRep.bounds lo hi) := by
  have hne : ((b0 :: A) ++ (44 :: B)) ++ [cN] ≠
      [101, 109, 112, 116, 121] := by
    intro heq
    have hhead := congrArg (fun l => l.head?) heq
    simp at hhead
    rcases hb0 with h | h <;> omega
  rw [decodeRangeText.eq_def, if_neg hne]
  show (match ((A ++ (44 :: B)) ++ [cN]).getLast? with
    | some cN2 =>
        if (b0 = 91 ∨ b0 = 40) ∧ (cN2 = 93 ∨ cN2 = 41) then
          match splitSep 44 ((A ++ (44 :: B)) ++ [cN]).dropLast with
          | [loT, hiT] =>
              match parseBoundText t (b0 == 91) loT,
                parseBoundText t (cN2 == 93) hiT with
              | some lo2, some hi2 => some (RangeRep.bounds lo2 hi2)
              | _, _ => none
          | _ => none
        else none
    | none => none) = some (RangeRep.bounds lo hi)
  rw [List.getLast?_concat, List.dropLast_concat]
  show (if (b0 = 91 ∨ b0 = 40) ∧ (cN = 93 ∨ cN = 41) then
      match splitSep 44 (A ++ 44 :: B) with
      | [loT, hiT] =>
          match parseBoundText t (b0 == 91) loT,
            parseBoundText t (cN == 93) hiT with
          | some lo2, some hi2 => some (RangeRep.bounds lo2 hi2)
          | _, _ => none
      | _ => none
    else none) = some (RangeRep.bounds lo hi)
  rw [if_pos ⟨hb0, hcN⟩, splitSep_append 44 A B hA44,
    splitSep_not_mem 44 B hB44]
  show (match parseBoundText t (b0 == 91) A,
      parseBoundText t (cN == 93) B with
    | some lo2, some hi2 => some (RangeRep.bounds lo2 hi2)
    | _, _ => none) = some (RangeRep.bounds lo hi)
  rw [hlo, hhi]

lemma decodeRangeText_roundtrip (t : PgTag) (r : RangeRep)
    (h : wfValueCore (PgValue.rangeV t r) = true) :
    decodeRangeText t (encodeRangeText r) = some r := by
  cases r with
  | emptyR => rfl
  | bounds lo hi =>
      have h2 : (rangeableTag t && (wfBound t lo && wfBound t hi)) = true := h
      rw [Bool.and_eq_true, Bool.and_eq_true] at h2
      show decodeRangeText t (((loBracket lo :: boundTextOf lo) ++
        (44 :: boundTextOf hi)) ++ [hiBracket hi]) =
        some (RangeRep.bounds lo hi)
      exact decodeRangeText_core t lo hi (loBracket lo) (hiBracket hi)
        (boundTextOf lo) (boundTextOf hi)
        (loBracket_cases lo) (hiBracket_cases hi)
        (boundText_not44 t lo h2.1 h2.2.1)
        (boundText_not44 t hi h2.1 h2.2.2)
        (parseBound_enc_lo t lo h2.1 h2.2.1)
        (parseBound_enc_hi t hi h2.1 h2.2.2)

lemma nullBitmap_length (elems : List (Option PgScalar)) :
    (nullBitmap elems).length = elems.length := by
  rw [nullBitmap, List.length_map]

lemma readElemsBin_roundtrip (t : PgTag) (elems : List (Option PgScalar))
    (h : elems.all (wfElem t) = true) :
    readElemsBin t (nullBitmap elems) (elemChunksBin elems) = some elems := by
  induction elems with
  | nil => rfl
  | cons e es ih =>
      rw [List.all_cons, Bool.and_eq_true] at h
      cases e with
      | none =>
          show (match readElemsBin t (nullBitmap es) (elemChunksBin es) with
            | some es2 => some (none :: es2)
            | none => none) = some (none :: es)
          rw [ih h.2]
      | some v =>
          have hw : ((scalarTag v == t) && wfScalar v &&
              decide ((encodeScalarBin v).length < 2 ^ 32)) = true := h.1
          simp only [Bool.and_eq_true, beq_iff_eq, decide_eq_true_eq] at hw
          have hlen : (encodeScalarBin v).length < 256 ^ 4 := by
            have hpow : (256 : Nat) ^ 4 = 2 ^ 32 := by norm_num
            rw [hpow]
            exact hw.2
          show (match readBytes 4
              ((natToBytesBE 4 (encodeScalarBin v).length ++
                encodeScalarBin v) ++ elemChunksBin es) with
            | some (l, r) =>
                match readBytes (bytesToNatBE l) r with
                | some (chunk, r2) =>
                    match decodeScalarBin t chunk with
                    | some v2 =>
                        match readElemsBin t (nullBitmap es) r2 with
                        | some es2 => some (some v2 :: es2)
                        | none => none
                    | none => none
                | none => none
            | none => none) = some (some v :: es)
          rw [List.append_assoc, readBytes_exact _ (length_natToBytesBE 4 _)]
          show (match readBytes
              (bytesToNatBE (natToBytesBE 4 (encodeScalarBin v).length))
              (encodeScalarBin v ++ elemChunksBin es) with
            | some (chunk, r2) =>
                match decodeScalarBin t chunk with
                | some v2 =>
                    match readElemsBin t (nullBitmap es) r2 with
                    | some es2 => some (some v2 :: es2)
                    | none => none
                | none => none
            | none => none) = some (some v :: es)
          rw [bytesToNatBE_natToBytesBE 4 _ hlen, readBytes_exact _ rfl]
          show (match decodeScalarBin t (encodeScalarBin v) with
            | some v2 =>
                match readElemsBin t (nullBitmap es) (elemChunksBin es) with
                | some es2 => some (some v2 :: es2)
                | none => none
            | none => none) = some (some v :: es)
          have hdec : decodeScalarBin t (encodeScalarBin v) = some v := by
            rw [← hw.1.1]
            exact decodeScalarBin_roundtrip v hw.1.2
          rw [hdec]
          show (match readElemsBin t (nullBitmap es) (elemChunksBin es) with
            | some es2 => some (some v :: es2)
            | none => none) = some (some v :: es)
          rw [ih h.2]

lemma oidOfTag_lt (t : PgTag) : oidOfTag t < 256 ^ 4 := by
  cases t <;> decide

lemma decodeArrayBin_roundtrip (t : PgTag) (elems : List (Option PgScalar))
    (h : elems.all (wfElem t) = true) (hcount : elems.length < 2 ^ 32) :
    decodeArrayBin t (encodeArrayBin t elems) = some elems := by
  have hcount2 : elems.length < 256 ^ 4 := by
    have hpow : (256 : Nat) ^ 4 = 2 ^ 32 := by norm_num
    rw [hpow]
    exact hcount
  have hassoc : encodeArrayBin t elems =
      natToBytesBE 4 1 ++ (natToBytesBE 4 elems.length ++ (natToBytesBE 4 1 ++
        (natToBytesBE 4 (oidOfTag t) ++
          (nullBitmap elems ++ elemChunksBin elems)))) := by
    rw [encodeArrayBin]
    simp [List.append_assoc]
  rw [hassoc, decodeArrayBin, readBytes_exact _ (length_natToBytesBE 4 1)]
  show (if bytesToNatBE (natToBytesBE 4 1) = 1 then
      decodeArrayCount t (natToBytesBE 4 elems.length ++ (natToBytesBE 4 1 ++
        (natToBytesBE 4 (oidOfTag t) ++
          (nullBitmap elems ++ elemChunksBin elems))))
    else none) = some elems
  rw [bytesToNatBE_natToBytesBE 4 1 (by norm_num), if_pos rfl,
    decodeArrayCount, readBytes_exact _ (length_natToBytesBE 4 _)]
  show decodeArrayLb t (bytesToNatBE (natToBytesBE 4 elems.length))
      (natToBytesBE 4 1 ++ (natToBytesBE 4 (oidOfTag t) ++
        (nullBitmap elems ++ elemChunksBin elems))) = some elems
  rw [bytesToNatBE_natToBytesBE 4 _ hcount2,
    decodeArrayLb, readBytes_exact _ (length_natToBytesBE 4 1)]
  show (if bytesToNatBE (natToBytesBE 4 1) = 1 then
      decodeArrayOid t elems.length (natToBytesBE 4 (oidOfTag t) ++
        (nullBitmap elems ++ elemChunksBin elems))
    else none) = some elems
  rw [bytesToNatBE_natToBytesBE 4 1 (by norm_num), if_pos rfl,
    decodeArrayOid, readBytes_exact _ (length_natToBytesBE 4 _)]
  show (if bytesToNatBE (natToBytesBE 4 (oidOfTag t)) = oidOfTag t then
      decodeArrayBitmap t elems.length
        (nullBitmap elems ++ elemChunksBin elems)
    else none) = some elems
  rw [bytesToNatBE_natToBytesBE 4 _ (oidOfTag_lt t), if_pos rfl,
    decodeArrayBitmap, readBytes_exact _ (nullBitmap_length elems)]
  show readElemsBin t (nullBitmap elems) (elemChunksBin elems) = some elems
  exact readElemsBin_roundtrip t elems h

lemma decodeBoundBin_inf (t : PgTag) (inc : Bool) (bs : List Nat) :
    decodeBoundBin t true inc bs = some (RangeBound.unbounded, bs) := rfl

lemma decodeBoundBin_chunk (t : PgTag) (inc : Bool) (v : PgScalar)
    (tail : List Nat) (ht : scalarTag v = t) (hw : wfScalar v = true)
    (hlen : (encodeScalarBin v).length < 2 ^ 32) :
    decodeBoundBin t false inc
      ((natToBytesBE 4 (encodeScalarBin v).length ++ encodeScalarBin v) ++
        tail) =
      some ((if inc then RangeBound.incl v else RangeBound.excl v), tail) := by
  have hlen2 : (encodeScalarBin v).length < 256 ^ 4 := by
    have hpow : (256 : Nat) ^ 4 = 2 ^ 32 := by norm_num
    rw [hpow]
    exact hlen
  rw [decodeBoundBin, if_neg (by simp), List.append_assoc,
    readBytes_exact _ (length_natToBytesBE 4 _)]
  show (match readBytes
      (bytesToNatBE (natToBytesBE 4 (encodeScalarBin v).length))
      (encodeScalarBin v ++ tail) with
    | some (chunk, r2) =>
        match decodeScalarBin t chunk with
        | some v2 =>
            some ((if inc then RangeBound.incl v2 else RangeBound.excl v2),
              r2)
        | none => none
    | none => none) =
    some ((if inc then RangeBound.incl v else RangeBound.excl v), tail)
  rw [bytesToNatBE_natToBytesBE 4 _ hlen2, readBytes_exact _ rfl]
  show (match decodeScalarBin t (encodeScalarBin v) with
    | some v2 =>
        some ((if inc then RangeBound.incl v2 else RangeBound.excl v2), tail)
    | none => none) =
    some ((if inc then RangeBound.incl v else RangeBound.excl v), tail)
  rw [← ht, decodeScalarBin_roundtrip v hw]

lemma flagBit3 (lo hi : RangeBound) :
    (loFlag lo + hiFlag hi).testBit 3 = isUnb lo := by
  cases lo <;> cases hi <;>
    simp only [loFlag, hiFlag, isUnb, isIncl] <;> decide

lemma flagBit1 (lo hi : RangeBound) :
    (loFlag lo + hiFlag hi).testBit 1 = isIncl lo := by
  cases lo <;> cases hi <;>
    simp only [loFlag, hiFlag, isUnb, isIncl] <;> decide

lemma flagBit4 (lo hi : RangeBound) :
    (loFlag lo + hiFlag hi).testBit 4 = isUnb hi := by
  cases lo <;> cases hi <;>
    simp only [loFlag, hiFlag, isUnb, isIncl] <;> decide

lemma flagBit2 (lo hi : RangeBound) :
    (loFlag lo + hiFlag hi).testBit 2 = isIncl hi := by
  cases lo <;> cases hi <;>
    simp only [loFlag, hiFlag, isUnb, isIncl] <;> decide

lemma flag_ne_one (lo hi : RangeBound) : loFlag lo + hiFlag hi ≠ 1 := by
  cases lo <;> cases hi <;> simp only [loFlag, hiFlag] <;> omega

lemma decodeBoundBin_chunk_nil (t : PgTag) (inc : Bool) (v : PgScalar)
    (ht : scalarTag v = t) (hw : wfScalar v = true)
    (hlen : (encodeScalarBin v).length < 2 ^ 32) :
    decodeBoundBin t false inc
      (natToBytesBE 4 (encodeScalarBin v).length ++ encodeScalarBin v) =
      some ((if inc then RangeBound.incl v else RangeBound.excl v), []) := by
  have h := decodeBoundBin_chunk t inc v [] ht hw hlen
  rw [List.append_nil] at h
  exact h

lemma decodeRangeBin_bounds (t : PgTag) (lo hi : RangeBound)
    (hlo : decodeBoundBin t (isUnb lo) (isIncl lo)
      (boundChunkBin lo ++ boundChunkBin hi) = some (lo, boundChunkBin hi))
    (hhi : decodeBoundBin t (isUnb hi) (isIncl hi) (boundChunkBin hi) =
      some (hi, [])) :
    decodeRangeBin t ((loFlag lo + hiFlag hi) ::
      (boundChunkBin lo ++ boundChunkBin hi)) =
      some (RangeRep.bounds lo hi) := by
  show (if loFlag lo + hiFlag hi = 1 then
      (if (boundChunkBin lo ++ boundChunkBin hi) = ([] : List Nat) then
        some RangeRep.emptyR
       else none)
    else
      match decodeBoundBin t ((loFlag lo + hiFlag hi).testBit 3)
          ((loFlag lo + hiFlag hi).testBit 1)
          (boundChunkBin lo ++ boundChunkBin hi) with
      | some (lo2, r1) =>
          match decodeBoundBin t ((loFlag lo + hiFlag hi).testBit 4)
              ((loFlag lo + hiFlag hi).testBit 2) r1 with
          | some (hi2, r2) =>
              if r2 = [] then some (RangeRep.bounds lo2 hi2) else none
          | none => none
      | none => none) = some (RangeRep.bounds lo hi)
  rw [if_neg (flag_ne_one lo hi), flagBit3, flagBit1, hlo]
  show (match decodeBoundBin t ((loFlag lo + hiFlag hi).testBit 4)
      ((loFlag lo + hiFlag hi).testBit 2) (boundChunkBin hi) with
    | some (hi2, r2) =>
        if r2 = [] then some (RangeRep.bounds lo hi2) else none
    | none => none) = some (RangeRep.bounds lo hi)
  rw [flagBit4, flagBit2, hhi]
  show (if ([] : List Nat) = [] then some (RangeRep.bounds lo hi)
    else none) = some (RangeRep.bounds lo hi)
  rw [if_pos rfl]

lemma decodeRangeBin_roundtrip (t : PgTag) (r : RangeRep)
    (h : wfValueCore (PgValue.rangeV t r) = true) :
    decodeRangeBin t (encodeRangeBin r) = some r := by
  cases r with
  | emptyR => rfl
  | bounds lo hi =>
      have h2 : (rangeableTag t && (wfBound t lo && wfBound t hi)) = true := h
      rw [Bool.and_eq_true, Bool.and_eq_true] at h2
      show decodeRangeBin t ((loFlag lo + hiFlag hi) ::
        (boundChunkBin lo ++ boundChunkBin hi)) =
        some (RangeRep.bounds lo hi)
      apply decodeRangeBin_bounds
      · have hblo := h2.2.1
        cases lo with
        | unbounded => exact decodeBoundBin_inf t false _
        | incl v =>
            have hw : ((scalarTag v == t) && wfScalar v &&
                decide ((encodeScalarBin v).length < 2 ^ 32)) = true := hblo
            simp only [Bool.and_eq_true, beq_iff_eq, decide_eq_true_eq] at hw
            exact decodeBoundBin_chunk t true v (boundChunkBin hi)
              hw.1.1 hw.1.2 hw.2
        | excl v =>
            have hw : ((scalarTag v == t) && wfScalar v &&
                decide ((encodeScalarBin v).length < 2 ^ 32)) = true := hblo
            simp only [Bool.and_eq_true, beq_iff_eq, decide_eq_true_eq] at hw
            exact decodeBoundBin_chunk t false v (boundChunkBin hi)
              hw.1.1 hw.1.2 hw.2
      · have hbhi := h2.2.2
        cases hi with
        | unbounded => exact decodeBoundBin_inf t false []
        | incl v =>
            have hw : ((scalarTag v == t) && wfScalar v &&
                decide ((encodeScalarBin v).length < 2 ^ 32)) = true := hbhi
            simp only [Bool.and_eq_true, beq_iff_eq, decide_eq_true_eq] at hw
            exact decodeBoundBin_chunk_nil t true v hw.1.1 hw.1.2 hw.2
        | excl v =>
            have hw : ((scalarTag v == t) && wfScalar v &&
                decide ((encodeScalarBin v).length < 2 ^ 32)) = true := hbhi
            simp only [Bool.and_eq_true, beq_iff_eq, decide_eq_true_eq] at hw
            exact decodeBoundBin_chunk_nil t false v hw.1.1 hw.1.2 hw.2

lemma decodeValueBin_roundtrip (v : PgValue) (h : wfValueCore v = true) :
    decodeValueBin (typeOfValue v) (encodeValueBin v) = some v := by
  cases v with
  | scalar s =>
      show (decodeScalarBin (scalarTag s) (encodeScalarBin s)).map
        PgValue.scalar = some (PgValue.scalar s)
      rw [decodeScalarBin_roundtrip s h]
      rfl
  | arrayV t elems =>
      have h2 : (elems.all (wfElem t) &&
          decide (elems.length < 2 ^ 32)) = true := h
      simp only [Bool.and_eq_true, decide_eq_true_eq] at h2
      show (decodeArrayBin t (encodeArrayBin t elems)).map
        (PgValue.arrayV t) = some (PgValue.arrayV t elems)
      rw [decodeArrayBin_roundtrip t elems h2.1 h2.2]
      rfl
  | rangeV t r =>
      show (decodeRangeBin t (encodeRangeBin r)).map (PgValue.rangeV t) =
        some (PgValue.rangeV t r)
      rw [decodeRangeBin_roundtrip t r h]
      rfl

lemma decodeValueText_roundtrip (v : PgValue) (h : wfValueCore v = true) :
    decodeValueText (typeOfValue v) (encodeValueText v) = some v := by
  cases v with
  | scalar s =>
      show (textDecodeScalar (scalarTag s) (textEncodeScalar s)).map
        PgValue.scalar = some (PgValue.scalar s)
      rw [textDecodeScalar_roundtrip s h]
      rfl
  | arrayV t elems =>
      have h2 : (elems.all (wfElem t) &&
          decide (elems.length < 2 ^ 32)) = true := h
      simp only [Bool.and_eq_true, decide_eq_true_eq] at h2
      show (decodeArrayText t (encodeArrayText elems)).map
        (PgValue.arrayV t) = some (PgValue.arrayV t elems)
      rw [decodeArrayText_roundtrip t elems h2.1]
      rfl
  | rangeV t r =>
      show (decodeRangeText t (encodeRangeText r)).map (PgValue.rangeV t) =
        some (PgValue.rangeV t r)
      rw [decodeRangeText_roundtrip t r h]
      rfl

lemma fieldDecode_null (binary : Bool) (ty : PgType) :
    fieldDecode binary ty (fieldEncode binary none) = some none := by
  show fieldDecode binary ty (natToBytesBE 4 (2 ^ 32 - 1)) = some none
  rw [fieldDecode, ← List.append_nil (natToBytesBE 4 (2 ^ 32 - 1)),
    readBytes_exact _ (length_natToBytesBE 4 _)]
  show (if bytesToNatBE (natToBytesBE 4 (2 ^ 32 - 1)) = 2 ^ 32 - 1 then
      (if ([] : List Nat) = [] then some none else none)
    else
      if ([] : List Nat).length = bytesToNatBE (natToBytesBE 4 (2 ^ 32 - 1))
      then
        (if binary then decodeValueBin ty [] else decodeValueText ty []).map
          some
      else none) = some none
  rw [bytesToNatBE_natToBytesBE 4 _ (by norm_num), if_pos rfl]
  rfl

lemma fieldDecode_frame (binary : Bool) (ty : PgType) (v : PgValue)
    (P : List Nat) (hlt : P.length < 2 ^ 32 - 1)
    (hdec : (if binary then decodeValueBin ty P else decodeValueText ty P) =
      some v) :
    fieldDecode binary ty (natToBytesBE 4 P.length ++ P) = some (some v) := by
  have hlt2 : P.length < 256 ^ 4 := by
    have hpow : (256 : Nat) ^ 4 = 2 ^ 32 := by norm_num
    omega
  rw [fieldDecode, readBytes_exact _ (length_natToBytesBE 4 _)]
  show (if bytesToNatBE (natToBytesBE 4 P.length) = 2 ^ 32 - 1 then
      (if P = [] then some none else none)
    else
      if P.length = bytesToNatBE (natToBytesBE 4 P.length) then
        (if binary then decodeValueBin ty P else decodeValueText ty P).map
          some
      else none) = some (some v)
  rw [bytesToNatBE_natToBytesBE 4 _ hlt2, if_neg (by omega), if_pos rfl,
    hdec]
  rfl

/-- C2: for every representable logical value of every supported family —
integers, floats, numeric, dates/times/timestamps, UUID, text, JSON,
JSONB, MACADDR, INET/CIDR, arrays with NULL elements, and ranges — and in
both wire formats, decoding the framed encoding yields the value back
(decode(encode(v)) = v); and the NULL field marker decodes to NULL at
every type in both formats, independent of any value encoding. -/
theorem codec_roundtrip (v : PgValue) (hwf : wfValue v = true) :
    (∀ binary : Bool,
      fieldDecode binary (typeOfValue v) (fieldEncode binary (some v)) =
        some (some v)) ∧
    (∀ (binary : Bool) (ty : PgType),
      fieldDecode binary ty (fieldEncode binary none) = some none) := by
  have h2 : (wfValueCore v && decide ((encodeValueBin v).length < 2 ^ 32 - 1)
      && decide ((encodeValueText v).length < 2 ^ 32 - 1)) = true := hwf
  simp only [Bool.and_eq_true, decide_eq_true_eq] at h2
  constructor
  · intro binary
    cases binary with
    | true =>
        show fieldDecode true (typeOfValue v)
          (natToBytesBE 4 (encodeValueBin v).length ++ encodeValueBin v) =
          some (some v)
        exact fieldDecode_frame true (typeOfValue v) v (encodeValueBin v)
          h2.1.2 (decodeValueBin_roundtrip v h2.1.1)
    | false =>
        show fieldDecode false (typeOfValue v)
          (natToBytesBE 4 (encodeValueText v).length ++ encodeValueText v) =
          some (some v)
        exact fieldDecode_frame false (typeOfValue v) v (encodeValueText v)
          h2.2 (decodeValueText_roundtrip v h2.1.1)
  · intro binary ty
    exact fieldDecode_null binary ty

theorem codec_roundtrip_witness :
    (wfValue (PgValue.scalar (PgScalar.vtext [])) = true ∧
      fieldDecode true (typeOfValue (PgValue.scalar (PgScalar.vtext [])))
        (fieldEncode true (some (PgValue.scalar (PgScalar.vtext [])))) =
        some (some (PgValue.scalar (PgScalar.vtext []))) ∧
      fieldDecode false (typeOfValue (PgValue.scalar (PgScalar.vtext [])))
        (fieldEncode false (some (PgValue.scalar (PgScalar.vtext [])))) =
        some (some (PgValue.scalar (PgScalar.vtext [])))) ∧
    (wfValue (PgValue.arrayV PgTag.tText
        [some (PgScalar.vtext []), none,
          some (PgScalar.vtext [44, 34, 92, 125])]) = true ∧
      fieldDecode true
        (typeOfValue (PgValue.arrayV PgTag.tText
          [some (PgScalar.vtext []), none,
            some (PgScalar.vtext [44, 34, 92, 125])]))
        (fieldEncode true (some (PgValue.arrayV PgTag.tText
          [some (PgScalar.vtext []), none,
            some (PgScalar.vtext [44, 34, 92, 125])]))) =
        some (some (PgValue.arrayV PgTag.tText
          [some (PgScalar.vtext []), none,
            some (PgScalar.vtext [44, 34, 92, 125])])) ∧
      fieldDecode false
        (typeOfValue (PgValue.arrayV PgTag.tText
          [some (PgScalar.vtext []), none,
            some (PgScalar.vtext [44, 34, 92, 125])]))
        (fieldEncode false (some (PgValue.arrayV PgTag.tText
          [some (PgScalar.vtext []), none,
            some (PgScalar.vtext [44, 34, 92, 125])]))) =
        some (some (PgValue.arrayV PgTag.tText
          [some (PgScalar.vtext []), none,
            some (PgScalar.vtext [44, 34, 92, 125])]))) ∧
    (wfValue (PgValue.scalar (PgScalar.vuuid
        [0, 1, 2, 3, 4, 5, 6, 7, 8, 9, 10, 11, 12, 13, 14, 255])) = true ∧
      fieldDecode true
        (typeOfValue (PgValue.scalar (PgScalar.vuuid
          [0, 1, 2, 3, 4, 5, 6, 7, 8, 9, 10, 11, 12, 13, 14, 255])))
        (fieldEncode true (some (PgValue.scalar (PgScalar.vuuid
          [0, 1, 2, 3, 4, 5, 6, 7, 8, 9, 10, 11, 12, 13, 14, 255])))) =
        some (some (PgValue.scalar (PgScalar.vuuid
          [0, 1, 2, 3, 4, 5, 6, 7, 8, 9, 10, 11, 12, 13, 14, 255]))) ∧
      fieldDecode false
        (typeOfValue (PgValue.scalar (PgScalar.vuuid
          [0, 1, 2, 3, 4, 5, 6, 7, 8, 9, 10, 11, 12, 13, 14, 255])))
        (fieldEncode false (some (PgValue.scalar (PgScalar.vuuid
          [0, 1, 2, 3, 4, 5, 6, 7, 8, 9, 10, 11, 12, 13, 14, 255])))) =
        some (some (PgValue.scalar (PgScalar.vuuid
          [0, 1, 2, 3, 4, 5, 6, 7, 8, 9, 10, 11, 12, 13, 14, 255])))) ∧
    (wfValue (PgValue.rangeV PgTag.tInt4
        (RangeRep.bounds RangeBound.unbounded RangeBound.unbounded)) =
        true ∧
      fieldDecode true
        (typeOfValue (PgValue.rangeV PgTag.tInt4
          (RangeRep.bounds RangeBound.unbounded RangeBound.unbounded)))
        (fieldEncode true (some (PgValue.rangeV PgTag.tInt4
          (RangeRep.bounds RangeBound.unbounded RangeBound.unbounded)))) =
        some (some (PgValue.rangeV PgTag.tInt4
          (RangeRep.bounds RangeBound.unbounded RangeBound.unbounded))) ∧
      fieldDecode false
        (typeOfValue (PgValue.rangeV PgTag.tInt4
          (RangeRep.bounds RangeBound.unbounded RangeBound.unbounded)))
        (fieldEncode false (some (PgValue.rangeV PgTag.tInt4
          (RangeRep.bounds RangeBound.unbounded RangeBound.unbounded)))) =
        some (some (PgValue.rangeV PgTag.tInt4
          (RangeRep.bounds RangeBound.unbounded RangeBound.unbounded)))) ∧
    (wfValue (PgValue.rangeV PgTag.tNumeric RangeRep.emptyR) = true ∧
      fieldDecode true
        (typeOfValue (PgValue.rangeV PgTag.tNumeric RangeRep.emptyR))
        (fieldEncode true
          (some (PgValue.rangeV PgTag.tNumeric RangeRep.emptyR))) =
        some (some (PgValue.rangeV PgTag.tNumeric RangeRep.emptyR)) ∧
      fieldDecode false
        (typeOfValue (PgValue.rangeV PgTag.tNumeric RangeRep.emptyR))
        (fieldEncode false
          (some (PgValue.rangeV PgTag.tNumeric RangeRep.emptyR))) =
        some (some (PgValue.rangeV PgTag.tNumeric RangeRep.emptyR))) ∧
    fieldDecode true (PgType.base PgTag.tNumeric)
      (fieldEncode true none) = some none ∧
    fieldDecode false (PgType.arrayT PgTag.tJsonb)
      (fieldEncode false none) = some none :=
  ⟨⟨by decide, (codec_roundtrip _ (by decide)).1 true,
      (codec_roundtrip _ (by decide)).1 false⟩,
    ⟨by decide, (codec_roundtrip _ (by decide)).1 true,
      (codec_roundtrip _ (by decide)).1 false⟩,
    ⟨by decide, (codec_roundtrip _ (by decide)).1 true,
      (codec_roundtrip _ (by decide)).1 false⟩,
    ⟨by decide, (codec_roundtrip _ (by decide)).1 true,
      (codec_roundtrip _ (by decide)).1 false⟩,
    ⟨by decide, (codec_roundtrip _ (by decide)).1 true,
      (codec_roundtrip _ (by decide)).1 false⟩,
    (codec_roundtrip (PgValue.scalar (PgScalar.vtext []))
      (by decide)).2 true (PgType.base PgTag.tNumeric),
    (codec_roundtrip (PgValue.scalar (PgScalar.vtext []))
      (by decide)).2 false (PgType.arrayT PgTag.tJsonb)⟩
